import Mathlib

/-!
Custom scoring of SBOM documents: aggregation, report sections and the scorer.

A shallow embedding of

* `pkg/compliance/custom-scoring_score.go` (aggregation of record scores),
* `pkg/compliance/custom-scoring_report.go` (construction of report sections),
* `pkg/scorer/custom-scoring.go` (the percentage scorer),

followed by theorems about them.

Conventions.

* In the compliance package a `float64` score is idealised as a rational number:
  the aggregation only adds finite scores and divides by the constant 3, so no
  special value can arise and rounding is not modelled. The evidence texts are
  given a second time for criterion scores that range over all of `float64`
  (`coreComponentDataResult` and its two siblings), as `%.2f` prints NaN and the
  infinities without decimals.
* In the scorer package the code divides by a component count that may be zero,
  so `float64` is modelled there by `F64`: a finite rational or one of the
  special values of IEEE-754 (the sign of zero is not modelled). The operations
  `+`, `*` and `/` of `F64` are exact; the rounding of binary64 is `roundBinary64`,
  and `calculateComponentNameScoreBinary64` is `calculateComponentNameScore` with
  the rounding after each operation.
* A Go string is a Lean `String`, a Go `int` category key is an `Int`, a Go slice
  that is only ranged over is a `List`, and a Go slice that is compared with `nil`
  is an `Option (List _)`.
-/

namespace Compliance

/-! ## Category keys (`custom-scoring.go`, the `iota` block) -/

def CORE_COMPONENT_DATA : Int := 0

def FORMAT_STANDARDS_MACHINE_READABILITY : Int := 1

def GOVERNANCE_TRACEABILITY_UPDATES : Int := 2

/-! ## The record store (package `db`) -/

/-- Modelled from the spec: the record type of package `db`, which is not among the
sources. Its fields are the ones the sources read (`CheckKey`, `ID`, `CheckValue`,
`Score`) and the maturity label that `NewRecordStmt` receives last. -/
structure Record where
  CheckKey : Int
  ID : String
  CheckValue : String
  Score : ℚ
  Maturity : String
deriving DecidableEq, Repr

/-- Modelled from the spec: `db.NewRecordStmt(key, id, value, score, maturity)`
builds the record with these five fields. -/
def NewRecordStmt (key : Int) (id value : String) (score : ℚ) (maturity : String) : Record :=
  { CheckKey := key, ID := id, CheckValue := value, Score := score, Maturity := maturity }

/-- Modelled from the spec: the record store of package `db`, which is not among the
sources. The store is append-only, so it is the list of the records added so far,
oldest first (section 4.3 of the specification). -/
structure DB where
  records : List Record
deriving DecidableEq, Repr

/-- Modelled from the spec: `db.NewDB()` is the store without records. -/
def NewDB : DB := { records := [] }

/-- Modelled from the spec: `AddRecord(record)` appends; nothing is updated or deleted. -/
def DB.AddRecord (db : DB) (r : Record) : DB := { records := db.records ++ [r] }

/-- The distinct elements of a list in the order of their first appearance. -/
def firstAppearances (l : List String) : List String :=
  l.reverse.dedup.reverse

/-- Modelled from the spec: `GetAllIDs()` is the ordered list of the distinct element
ids, in insertion order of first appearance. -/
def DB.GetAllIDs (db : DB) : List String :=
  firstAppearances (db.records.map Record.ID)

/-- Modelled from the spec: `GetRecordsByID(id)` is the list of the records whose
element id is `id`, in insertion order. -/
def DB.GetRecordsByID (db : DB) (id : String) : List Record :=
  db.records.filter (fun r => r.ID = id)

/-- Modelled from the spec: `GetRecordsByKeyID(categoryKey, id)` is the list of the
records with that category key and element id, in insertion order. -/
def DB.GetRecordsByKeyID (db : DB) (key : Int) (id : String) : List Record :=
  db.records.filter (fun r => r.CheckKey = key ∧ r.ID = id)

/-! ## Aggregation (`custom-scoring_score.go`) -/

structure customScoreResult where
  id : String
  coreComponentDataScore : ℚ
  formatStandardsMachineReadabilityScore : ℚ
  governanceTraceabilityUpdatesScore : ℚ
deriving DecidableEq, Repr

/-- The Go literal `&customScoreResult{id: id}`: the three scores are zero values. -/
def newCustomScoreResult (id : String) : customScoreResult :=
  { id := id
    coreComponentDataScore := 0
    formatStandardsMachineReadabilityScore := 0
    governanceTraceabilityUpdatesScore := 0 }

def customScoreResult.totalScore (r : customScoreResult) : ℚ :=
  (r.coreComponentDataScore + r.formatStandardsMachineReadabilityScore
    + r.governanceTraceabilityUpdatesScore) / 3

/-- One pass of the body of `for _, r := range records { switch r.CheckKey ... }`
on the three local accumulators (core, format, governance). A key that matches no
`case` leaves them unchanged. -/
def switchOnCheckKey (acc : ℚ × ℚ × ℚ) (r : Record) : ℚ × ℚ × ℚ :=
  if r.CheckKey = CORE_COMPONENT_DATA then (acc.1 + r.Score, acc.2.1, acc.2.2)
  else if r.CheckKey = FORMAT_STANDARDS_MACHINE_READABILITY then (acc.1, acc.2.1 + r.Score, acc.2.2)
  else if r.CheckKey = GOVERNANCE_TRACEABILITY_UPDATES then (acc.1, acc.2.1, acc.2.2 + r.Score)
  else acc

/-- The loop shared by `customKeyIDScore` and `customIDScore`, started at `0.0`
for the three accumulators. -/
def rangeRecords (records : List Record) : ℚ × ℚ × ℚ :=
  records.foldl switchOnCheckKey (0, 0, 0)

def customKeyIDScore (db : DB) (key : Int) (id : String) : customScoreResult :=
  let records := db.GetRecordsByKeyID key id
  if records.length = 0 then newCustomScoreResult id
  else
    let acc := rangeRecords records
    { id := id
      coreComponentDataScore := acc.1
      formatStandardsMachineReadabilityScore := acc.2.1
      governanceTraceabilityUpdatesScore := acc.2.2 }

def customIDScore (db : DB) (id : String) : customScoreResult :=
  let records := db.GetRecordsByID id
  if records.length = 0 then newCustomScoreResult id
  else
    let acc := rangeRecords records
    { id := id
      coreComponentDataScore := acc.1
      formatStandardsMachineReadabilityScore := acc.2.1
      governanceTraceabilityUpdatesScore := acc.2.2 }

/-- The second loop of `customAggregateScore`: adds the three scores of `r` to
`finalResult`; the id of `finalResult` is never assigned. -/
def addToFinalResult (finalResult r : customScoreResult) : customScoreResult :=
  { id := finalResult.id
    coreComponentDataScore := finalResult.coreComponentDataScore + r.coreComponentDataScore
    formatStandardsMachineReadabilityScore :=
      finalResult.formatStandardsMachineReadabilityScore + r.formatStandardsMachineReadabilityScore
    governanceTraceabilityUpdatesScore :=
      finalResult.governanceTraceabilityUpdatesScore + r.governanceTraceabilityUpdatesScore }

def customAggregateScore (db : DB) : customScoreResult :=
  let ids := db.GetAllIDs
  let results := ids.map (fun id => customIDScore db id)
  results.foldl addToFinalResult (newCustomScoreResult "")

/-! ## Report sections (`custom-scoring_report.go`) -/

structure customSection where
  Title : String
  ID : String
  DataField : String
  Required : Bool
  ElementID : String
  ElementResult : String
  Score : ℚ
deriving DecidableEq, Repr

/-- The Go map `customSectionDetails`. Indexing a Go map with a key it does not
hold yields the zero value of the element type, here the section with empty
strings, `false` and score 0. -/
def customSectionDetails (key : Int) : customSection :=
  if key = CORE_COMPONENT_DATA then
    { Title := "Core Component Data", ID := "1.1", DataField := "Core Component Data",
      Required := true, ElementID := "", ElementResult := "", Score := 0 }
  else if key = FORMAT_STANDARDS_MACHINE_READABILITY then
    { Title := "Format, Standards, and Machine-Readability", ID := "2.1",
      DataField := "Format, Standards, and Machine-Readability",
      Required := true, ElementID := "", ElementResult := "", Score := 0 }
  else if key = GOVERNANCE_TRACEABILITY_UPDATES then
    { Title := "Governance, Traceability, and Updates", ID := "3.1",
      DataField := "Governance, Traceability, and Updates",
      Required := true, ElementID := "", ElementResult := "", Score := 0 }
  else
    { Title := "", ID := "", DataField := "", Required := false,
      ElementID := "", ElementResult := "", Score := 0 }

/-- The body of the inner loop of `customConstructSections`: the section built
from one record `r`. -/
def newSectionOf (db : DB) (r : Record) : customSection :=
  let section_ := customSectionDetails r.CheckKey
  let score := customKeyIDScore db r.CheckKey r.ID
  { Title := section_.Title
    ID := section_.ID
    DataField := section_.DataField
    Required := section_.Required
    ElementID := if r.ID = "doc" then "sbom" else r.ID
    ElementResult := r.CheckValue
    Score := score.totalScore }

/-- The first pair of nested loops of `customConstructSections`: one section per
record of `GetRecordsByID(id)`, for the ids of `GetAllIDs()` in turn. -/
def buildSections (db : DB) : List customSection :=
  db.GetAllIDs.flatMap (fun id => (db.GetRecordsByID id).map (newSectionOf db))

/-- The entry `sectionsByElementID[elementID]` after the grouping loop: the
sections with that element id, in the order in which they were appended. -/
def sectionsByElementID (sections : List customSection) (elementID : String) :
    List customSection :=
  sections.filter (fun s => s.ElementID = elementID)

/-- The keys of the map `sectionsByElementID`, in order of first insertion. -/
def elementIDKeys (sections : List customSection) : List String :=
  firstAppearances (sections.map customSection.ElementID)

/-- The call `sort.Slice(group, func(i, j) bool { return group[i].ID < group[j].ID })`.
`sort.Slice` does not promise stability; the model keeps sections with equal `ID`
in their order (as the insertion sort that Go applies to short slices does). -/
def sortGroupByID (group : List customSection) : List customSection :=
  group.insertionSort (fun a b => ¬ (b.ID < a.ID))

/-- One pass of the body of `for elementID, group := range sectionsByElementID`
on the pair (`sortedSections`, `sbomLevelSections`). -/
def rangeGroupStep (sections : List customSection)
    (acc : List customSection × List customSection) (elementID : String) :
    List customSection × List customSection :=
  let group := sortGroupByID (sectionsByElementID sections elementID)
  if elementID = "SBOM Level" then (acc.1, group) else (acc.1 ++ group, acc.2)

/-- The function `customConstructSections`. Go leaves the order in which `range`
visits the keys of a map unspecified, so the order of the visit is the explicit
argument `visit`; it is an order the program can take when `visitsAllKeys` holds. -/
def customConstructSections (db : DB) (visit : List String) : List customSection :=
  let sections := buildSections db
  let acc := visit.foldl (rangeGroupStep sections) ([], [])
  acc.2 ++ acc.1

/-- The list `visit` is an order in which `range` can visit the map of groups built
from the store: every key of the map exactly once. -/
def visitsAllKeys (db : DB) (visit : List String) : Prop :=
  visit.Perm (elementIDKeys (buildSections db))

instance (db : DB) (visit : List String) : Decidable (visitsAllKeys db visit) := by
  unfold visitsAllKeys; infer_instance

/-! ## Helper notions for the statements (compliance) -/

/-- Sum of the scores of the records of `l` that carry category key `k`. -/
def keySum (k : Int) (l : List Record) : ℚ :=
  ((l.filter (fun r => r.CheckKey = k)).map Record.Score).sum

/-- Number of the records of `l` that carry category key `k`. -/
def keyCount (k : Int) (l : List Record) : Nat :=
  (l.filter (fun r => r.CheckKey = k)).length

/-- The weights of the three categories, as the scorer states them (80, 10, 10);
a key outside the three categories has weight 0. -/
def categoryWeight (k : Int) : ℚ :=
  if k = CORE_COMPONENT_DATA then 80
  else if k = FORMAT_STANDARDS_MACHINE_READABILITY then 10
  else if k = GOVERNANCE_TRACEABILITY_UPDATES then 10
  else 0

/-- A store with two records of the core category for the element `doc`, each
with the full weight of the category as its score. -/
def storeTwoCoreRecords : DB :=
  (NewDB.AddRecord (NewRecordStmt CORE_COMPONENT_DATA "doc" "first criterion" 80 "")).AddRecord
    (NewRecordStmt CORE_COMPONENT_DATA "doc" "second criterion" 80 "")

/-- A store with a document-level record (element id `doc`) followed by a record
of the component `component-1`. -/
def storeDocThenComponent : DB :=
  (NewDB.AddRecord (NewRecordStmt CORE_COMPONENT_DATA "doc" "document evidence" 80 "")).AddRecord
    (NewRecordStmt CORE_COMPONENT_DATA "component-1" "component evidence" 40 "")

/-- A store with a document-level record (element id `doc`) followed by a record
of an element whose id is the text `SBOM Level`. -/
def storeDocThenSBOMLevel : DB :=
  (NewDB.AddRecord (NewRecordStmt CORE_COMPONENT_DATA "doc" "document evidence" 80 "")).AddRecord
    (NewRecordStmt CORE_COMPONENT_DATA "SBOM Level" "element evidence" 40 "")

/-- A store with one record per category for the element `doc`. -/
def storeOnePerCategory : DB :=
  ((NewDB.AddRecord (NewRecordStmt CORE_COMPONENT_DATA "doc" "core" 70 "")).AddRecord
    (NewRecordStmt FORMAT_STANDARDS_MACHINE_READABILITY "doc" "format" 10 "")).AddRecord
    (NewRecordStmt GOVERNANCE_TRACEABILITY_UPDATES "doc" "governance" 4 "")

end Compliance

namespace Scorer

/-! ## The `float64` values of the scorer -/

/-- A `float64` value: a finite number, as a rational (the sign of zero is not
modelled), or one of the special values of IEEE-754. The operations below are exact
on finite numbers; `roundBinary64` is the rounding that binary64 adds to each. -/
inductive F64 where
  | fin (q : ℚ)
  | posInf
  | negInf
  | nan
deriving DecidableEq, Repr

namespace F64

/-- The conversion `float64(n)` of a Go `int` that counts the elements of a slice. -/
def ofCount (n : Nat) : F64 := fin (n : ℚ)

/-- The Go operator `+` on `float64`: the sum of opposite infinities is NaN. -/
def add : F64 → F64 → F64
  | nan, _ => nan
  | _, nan => nan
  | fin a, fin b => fin (a + b)
  | fin _, posInf => posInf
  | fin _, negInf => negInf
  | posInf, fin _ => posInf
  | negInf, fin _ => negInf
  | posInf, posInf => posInf
  | negInf, negInf => negInf
  | posInf, negInf => nan
  | negInf, posInf => nan

/-- The product of an infinity with the finite value `b`. -/
def infTimes (positive : Bool) (b : ℚ) : F64 :=
  if b = 0 then nan
  else if (0 < b) = positive then posInf
  else negInf

/-- The Go operator `*` on `float64`: zero times an infinity is NaN. -/
def mul : F64 → F64 → F64
  | nan, _ => nan
  | _, nan => nan
  | fin a, fin b => fin (a * b)
  | fin a, posInf => infTimes true a
  | fin a, negInf => infTimes false a
  | posInf, fin b => infTimes true b
  | negInf, fin b => infTimes false b
  | posInf, posInf => posInf
  | negInf, negInf => posInf
  | posInf, negInf => negInf
  | negInf, posInf => negInf

/-- The Go operator `/` on `float64`. A division of floating-point numbers does
not panic: `0/0` is NaN, and a non-zero number over zero is an infinity (the
divisors of the scorer are counts, hence the zero divisor is `+0`). -/
def div : F64 → F64 → F64
  | nan, _ => nan
  | _, nan => nan
  | fin a, fin b =>
      if b = 0 then (if a = 0 then nan else if 0 < a then posInf else negInf)
      else fin (a / b)
  | fin _, posInf => fin 0
  | fin _, negInf => fin 0
  | posInf, fin b => if 0 ≤ b then posInf else negInf
  | negInf, fin b => if 0 ≤ b then negInf else posInf
  | posInf, posInf => nan
  | negInf, negInf => nan
  | posInf, negInf => nan
  | negInf, posInf => nan

instance : Add F64 := ⟨add⟩

instance : Mul F64 := ⟨mul⟩

instance : Div F64 := ⟨div⟩

/-- The value is a finite number `q` with `lo ≤ q ≤ hi`. NaN and the infinities
are in no such range, as every Go comparison with NaN is false. -/
def inRange (x : F64) (lo hi : ℚ) : Prop :=
  match x with
  | fin q => lo ≤ q ∧ q ≤ hi
  | _ => False

instance (x : F64) (lo hi : ℚ) : Decidable (inRange x lo hi) := by
  unfold inRange; cases x <;> infer_instance

end F64

/-! ## Formatting with `%.2f` -/

/-- The nearest integer to a non-negative rational, ties to even. -/
def roundHalfEven (q : ℚ) : Nat :=
  let f := (q.num / (q.den : Int)).toNat
  let d := q - (f : ℚ)
  if d < 1 / 2 then f
  else if 1 / 2 < d then f + 1
  else if f % 2 = 0 then f else f + 1

/-- The call `fmt.Sprintf("%.2f", x)`: two digits after the point, correctly
rounded; the special values print as `NaN`, `+Inf` and `-Inf`. -/
def sprintf2f : F64 → String
  | F64.nan => "NaN"
  | F64.posInf => "+Inf"
  | F64.negInf => "-Inf"
  | F64.fin q =>
      let n := roundHalfEven (|q| * 100)
      let frac := n % 100
      (if q < 0 then "-" else "") ++ toString (n / 100) ++ "."
        ++ (if frac < 10 then "0" else "") ++ toString frac

/-! ## The document abstraction (package `sbom`) -/

/-- Modelled from the spec: the component interface of package `sbom`, which is not
among the sources: one field per getter that the scorer calls. The four getters
that the scorer compares with `nil` return a slice that may be `nil`. -/
structure Component where
  Name : String
  Version : String
  Supplier : String
  Cpes : Option (List String)
  Purls : Option (List String)
  OsvIds : Option (List String)
  Author : String
  Dependencies : Option (List String)
  Hash : String
  License : String
  DownloadURL : String
deriving DecidableEq, Repr

/-- Modelled from the spec: the document interface of package `sbom`, which is not
among the sources: one field per getter that the scorer calls. -/
structure Document where
  Components : List Component
  Schema : String
  Format : String
  Namespace : String
  Timestamp : String
  Version : String
  Tool : String
  ToolVersion : String
  ChangeHistory : String
  IntegrationHooks : String
  ReviewCadence : String
  UpdatePolicy : String
  IntegrityVerification : String
deriving DecidableEq, Repr

/-- Modelled from the spec: the `score` value of package `scorer`, whose declaration
is not among the sources: the number and the description that `getScore`,
`setScore`, `getDesc` and `setDesc` read and write. -/
structure score where
  value : F64
  descr : String
deriving DecidableEq, Repr

/-- Modelled from the spec: `newScore()` returns a zero-valued `score`. -/
def newScore : score := { value := F64.fin 0, descr := "" }

def score.getScore (s : score) : F64 := s.value

def score.setScore (s : score) (x : F64) : score := { s with value := x }

def score.getDesc (s : score) : String := s.descr

def score.setDesc (s : score) (d : String) : score := { s with descr := d }

/-! ## The scorer (`pkg/scorer/custom-scoring.go`) -/

/-- The counting loop of the per-component criteria:
`for _, component := range d.Components() { if cond { n++ } }`. -/
def countWhere (cond : Component → Bool) (components : List Component) : Nat :=
  components.foldl (fun n component => if cond component then n + 1 else n) 0

/-- The last statement of the per-component criteria:
`(float64(count) / float64(totalComponents)) * weight`, in exact arithmetic;
`shareOfWeightBinary64` is the same statement with the rounding of binary64. -/
def shareOfWeight (count totalComponents : Nat) (weight : ℚ) : F64 :=
  (F64.ofCount count / F64.ofCount totalComponents) * F64.fin weight

def calculateComponentNameScore (d : Document) : F64 :=
  let totalComponents := d.Components.length
  let componentsWithName := countWhere (fun c => c.Name ≠ "") d.Components
  shareOfWeight componentsWithName totalComponents 10

def calculateExactVersionScore (d : Document) : F64 :=
  let totalComponents := d.Components.length
  let componentsWithExactVersion := countWhere (fun c => c.Version ≠ "") d.Components
  shareOfWeight componentsWithExactVersion totalComponents 10

def calculateSupplierNameScore (d : Document) : F64 :=
  let totalComponents := d.Components.length
  let componentsWithSupplierName := countWhere (fun c => c.Supplier ≠ "") d.Components
  shareOfWeight componentsWithSupplierName totalComponents 10

def calculateUniqueIdentifiersScore (d : Document) : F64 :=
  let totalComponents := d.Components.length
  let componentsWithUniqueIdentifiers :=
    countWhere (fun c => c.Cpes ≠ none ∨ c.Purls ≠ none ∨ c.OsvIds ≠ none) d.Components
  shareOfWeight componentsWithUniqueIdentifiers totalComponents 10

def calculateAuthorScore (d : Document) : F64 :=
  let totalComponents := d.Components.length
  let componentsWithAuthor := countWhere (fun c => c.Author ≠ "") d.Components
  shareOfWeight componentsWithAuthor totalComponents 10

def calculateComponentRelationshipsScore (d : Document) : F64 :=
  let totalComponents := d.Components.length
  let componentsWithRelationships := countWhere (fun c => c.Dependencies ≠ none) d.Components
  shareOfWeight componentsWithRelationships totalComponents 10

def calculateComponentHashScore (d : Document) : F64 :=
  let totalComponents := d.Components.length
  let componentsWithHash := countWhere (fun c => c.Hash ≠ "") d.Components
  shareOfWeight componentsWithHash totalComponents 10

def calculateLicenseScore (d : Document) : F64 :=
  let totalComponents := d.Components.length
  let componentsWithLicense := countWhere (fun c => c.License ≠ "") d.Components
  shareOfWeight componentsWithLicense totalComponents 5

def calculateDownloadURLScore (d : Document) : F64 :=
  let totalComponents := d.Components.length
  let componentsWithDownloadURL := countWhere (fun c => c.DownloadURL ≠ "") d.Components
  shareOfWeight componentsWithDownloadURL totalComponents 5

def calculateSchemaConformanceScore (d : Document) : F64 :=
  if d.Schema ≠ "" then F64.fin 5 else F64.fin 0

def calculateMachineParsableFormatScore (d : Document) : F64 :=
  if d.Format = "json" ∨ d.Format = "xml" then F64.fin 2 else F64.fin 0

def calculateNamespaceTimestampVersionScore (d : Document) : F64 :=
  if d.Namespace ≠ "" ∧ d.Timestamp ≠ "" ∧ d.Version ≠ "" then F64.fin 3 else F64.fin 0

def calculateToolVersionScore (d : Document) : F64 :=
  if d.Tool ≠ "" ∧ d.ToolVersion ≠ "" then F64.fin 2 else F64.fin 0

def calculateChangeHistoryScore (d : Document) : F64 :=
  if d.ChangeHistory ≠ "" then F64.fin 2 else F64.fin 0

def calculateIntegrationHooksScore (d : Document) : F64 :=
  if d.IntegrationHooks ≠ "" then F64.fin 2 else F64.fin 0

def calculateReviewCadenceUpdatePolicyScore (d : Document) : F64 :=
  if d.ReviewCadence ≠ "" ∧ d.UpdatePolicy ≠ "" then F64.fin 2 else F64.fin 0

def calculateIntegrityVerificationScore (d : Document) : F64 :=
  if d.IntegrityVerification ≠ "" then F64.fin 2 else F64.fin 0

def calculateCoreComponentDataScore (d : Document) : F64 :=
  let score := F64.fin 0
  let score := score + calculateComponentNameScore d
  let score := score + calculateExactVersionScore d
  let score := score + calculateSupplierNameScore d
  let score := score + calculateUniqueIdentifiersScore d
  let score := score + calculateAuthorScore d
  let score := score + calculateComponentRelationshipsScore d
  let score := score + calculateComponentHashScore d
  let score := score + calculateLicenseScore d
  let score := score + calculateDownloadURLScore d
  score

def calculateFormatStandardsMachineReadabilityScore (d : Document) : F64 :=
  let score := F64.fin 0
  let score := score + calculateSchemaConformanceScore d
  let score := score + calculateMachineParsableFormatScore d
  let score := score + calculateNamespaceTimestampVersionScore d
  score

def calculateGovernanceTraceabilityUpdatesScore (d : Document) : F64 :=
  let score := F64.fin 0
  let score := score + calculateToolVersionScore d
  let score := score + calculateChangeHistoryScore d
  let score := score + calculateIntegrationHooksScore d
  let score := score + calculateReviewCadenceUpdatePolicyScore d
  let score := score + calculateIntegrityVerificationScore d
  score

def CustomScoring (d : Document) : score :=
  let s := newScore
  let coreComponentDataScore := calculateCoreComponentDataScore d
  let s := s.setScore (s.getScore + coreComponentDataScore)
  let s := s.setDesc (s.getDesc ++ "Core Component Data: "
    ++ sprintf2f coreComponentDataScore ++ "\n")
  let formatStandardsMachineReadabilityScore :=
    calculateFormatStandardsMachineReadabilityScore d
  let s := s.setScore (s.getScore + formatStandardsMachineReadabilityScore)
  let s := s.setDesc (s.getDesc ++ "Format, Standards, and Machine-Readability: "
    ++ sprintf2f formatStandardsMachineReadabilityScore ++ "\n")
  let governanceTraceabilityUpdatesScore := calculateGovernanceTraceabilityUpdatesScore d
  let s := s.setScore (s.getScore + governanceTraceabilityUpdatesScore)
  let s := s.setDesc (s.getDesc ++ "Governance, Traceability, and Updates: "
    ++ sprintf2f governanceTraceabilityUpdatesScore ++ "\n")
  s

/-! ## Helper notions for the statements (scorer) -/

/-- The finite value of `shareOfWeight` when the number of components is not zero. -/
def shareValue (count totalComponents : Nat) (weight : ℚ) : ℚ :=
  ((count : ℚ) / (totalComponents : ℚ)) * weight

/-- A component on which the nine core criteria hold. -/
def completeComponent : Component :=
  { Name := "tool-golang", Version := "v0.7.1", Supplier := "hello@interlynk.io",
    Cpes := none, Purls := some ["pkg:golang/github.com/spdx/tools-golang@v0.7.1"],
    OsvIds := none, Author := "Interlynk", Dependencies := some ["gordf"],
    Hash := "9db247b854b9634d0109153d515fd1a9efd5a1b1", License := "Apache-2.0",
    DownloadURL := "https://github.com/spdx/tools-golang" }

/-- A component without any data. -/
def blankComponent : Component :=
  { Name := "", Version := "", Supplier := "", Cpes := none, Purls := none, OsvIds := none,
    Author := "", Dependencies := none, Hash := "", License := "", DownloadURL := "" }

/-- A document whose document-level criteria all hold, over the given components. -/
def completeDocument (components : List Component) : Document :=
  { Components := components, Schema := "spdx", Format := "json",
    Namespace := "https://interlynk.io/sbom", Timestamp := "2023-05-04T09:33:40Z",
    Version := "SPDX-2.3", Tool := "syft", ToolVersion := "0.95.0",
    ChangeHistory := "initial", IntegrationHooks := "ci", ReviewCadence := "monthly",
    UpdatePolicy := "on release", IntegrityVerification := "signed" }

/-- A document without components. -/
def documentWithoutComponents : Document := completeDocument []

/-- The component satisfies the nine criteria of the core category. -/
def Component.satisfiesAllCore (c : Component) : Prop :=
  c.Name ≠ "" ∧ c.Version ≠ "" ∧ c.Supplier ≠ ""
    ∧ (c.Cpes ≠ none ∨ c.Purls ≠ none ∨ c.OsvIds ≠ none)
    ∧ c.Author ≠ "" ∧ c.Dependencies ≠ none ∧ c.Hash ≠ ""
    ∧ c.License ≠ "" ∧ c.DownloadURL ≠ ""

instance (c : Component) : Decidable c.satisfiesAllCore := by
  unfold Component.satisfiesAllCore; infer_instance

/-- The document satisfies the three criteria of the format category and the five
criteria of the governance category. -/
def Document.satisfiesAllDocumentLevel (d : Document) : Prop :=
  d.Schema ≠ "" ∧ (d.Format = "json" ∨ d.Format = "xml")
    ∧ (d.Namespace ≠ "" ∧ d.Timestamp ≠ "" ∧ d.Version ≠ "")
    ∧ (d.Tool ≠ "" ∧ d.ToolVersion ≠ "") ∧ d.ChangeHistory ≠ ""
    ∧ d.IntegrationHooks ≠ "" ∧ (d.ReviewCadence ≠ "" ∧ d.UpdatePolicy ≠ "")
    ∧ d.IntegrityVerification ≠ ""

instance (d : Document) : Decidable d.satisfiesAllDocumentLevel := by
  unfold Document.satisfiesAllDocumentLevel; infer_instance

end Scorer

namespace Compliance

/-! ## Helper notions for the statements (report sections) -/

/-- The order in which the groups stand in the list that `customConstructSections`
returns when `range` visits the keys in the order `visit`: the group `SBOM Level`
first, when it is visited, then the other groups as visited. -/
def groupOrder (visit : List String) : List String :=
  (if "SBOM Level" ∈ visit then ["SBOM Level"] else [])
    ++ visit.filter (fun e => e ≠ "SBOM Level")

/-- A store with one record whose category key, 7, is no key of
`customSectionDetails`. -/
def storeUnknownKey : DB :=
  NewDB.AddRecord (NewRecordStmt 7 "component-1" "evidence of an unknown category" 5 "")

/-- A store in which the records of the elements `doc` and `component-1` alternate
and come in descending order of category key. -/
def storeInterleaved : DB :=
  (((NewDB.AddRecord
      (NewRecordStmt GOVERNANCE_TRACEABILITY_UPDATES "doc" "governance of the document" 4 "")).AddRecord
      (NewRecordStmt FORMAT_STANDARDS_MACHINE_READABILITY "component-1" "format of the component" 6 "")).AddRecord
      (NewRecordStmt CORE_COMPONENT_DATA "doc" "core of the document" 70 "")).AddRecord
      (NewRecordStmt CORE_COMPONENT_DATA "component-1" "core of the component" 35 "")

/-! ## The category evaluators (`custom-scoring.go`) -/

/-- Modelled from the spec: the specification block of a document (package `sbom`,
not among the sources), with the fields that `createSpdxDummyDocumentCustom` sets
and that `GetSpecType()` and `GetVersion()` read. -/
structure Spec where
  Version : String
  SpecType : String
  Format : String
  CreationTimestamp : String
deriving DecidableEq, Repr

/-- Modelled from the spec: a tool of a document, as the test document fills it. -/
structure Tool where
  Name : String
deriving DecidableEq, Repr

/-- Modelled from the spec: the supplier of a component, as the test document
fills it. -/
structure Supplier where
  Email : String
deriving DecidableEq, Repr

/-- Modelled from the spec: an external reference of a component, as the test
document fills it. -/
structure ExternalReference where
  RefType : String
deriving DecidableEq, Repr

/-- Modelled from the spec: the primary component designation, as the test document
fills it (the field name `Dependecies` is the one of the source). -/
structure PrimaryComp where
  ID : String
  Dependecies : Nat
  Present : Bool
deriving DecidableEq, Repr

/-- Modelled from the spec: a component of a document (package `sbom`, not among
the sources), with the fields that the test document sets. -/
structure Component where
  Version : String
  Name : String
  ID : String
  Supplier : Supplier
  ExternalRefs : List ExternalReference
  PrimaryCompt : PrimaryComp
deriving DecidableEq, Repr

/-- Modelled from the spec: the document abstraction of package `sbom`, which is
not among the sources, with the fields of `sbom.SpdxDoc` that the test document
sets. `Dependencies` is the relationship map as a list of entries; its keys and
values pass through `sbom.CleanKey`, which is not among the sources, and are kept
here as written. -/
structure Document where
  Spec : Spec
  Comps : List Component
  Tools : List Tool
  Dependencies : List (String × List String)
  PrimaryComponent : PrimaryComp
deriving DecidableEq, Repr

def validCustomSpdxVersions : List String := ["SPDX-2.3"]

def validCustomCdxVersions : List String := ["1.4", "1.5", "1.6"]

def validFormats : List String := ["json", "xml", "yaml", "yml", "tag-value"]

/-- The call `fmt.Sprintf("%.2f", x)` on a score of the compliance package. -/
def sprintf2f (x : ℚ) : String := Scorer.sprintf2f (Scorer.F64.fin x)

/-- The function `schemaConformanceCompliance`; `lo.Contains` is list membership. -/
def schemaConformanceCompliance (doc : Document) : ℚ :=
  let spec := doc.Spec.SpecType
  let version := doc.Spec.Version
  if spec = "spdx" then
    if version ∈ validCustomSpdxVersions then 10 else 0
  else if spec = "cyclonedx" then
    if version ∈ validCustomCdxVersions then 10 else 0
  else 0

/-- The criterion evaluators of `custom-scoring.go` that the source declares with a
comment in place of a body (`// implement logic to evaluate ...`). What they return
is not fixed by the source, so they are parameters of the category evaluators. -/
structure CriterionEvaluators where
  componentNameCompliance : Document → ℚ
  exactVersionCompliance : Document → ℚ
  supplierNameCompliance : Document → ℚ
  uniqueIdentifiersCompliance : Document → ℚ
  authorCompliance : Document → ℚ
  componentRelationshipsCompliance : Document → ℚ
  componentHashCompliance : Document → ℚ
  licenseCompliance : Document → ℚ
  downloadURLCompliance : Document → ℚ
  machineParsableFormatCompliance : Document → ℚ
  namespaceTimestampVersionCompliance : Document → ℚ
  toolVersionCompliance : Document → ℚ
  changeHistoryCompliance : Document → ℚ
  integrationHooksCompliance : Document → ℚ
  reviewCadenceUpdatePolicyCompliance : Document → ℚ
  integrityVerificationCompliance : Document → ℚ

def coreComponentDataCompliance (ev : CriterionEvaluators) (doc : Document) : Record :=
  let score : ℚ := 0
  let result := ""
  let componentNameScore := ev.componentNameCompliance doc
  let score := score + componentNameScore
  let result := result ++ ("Component name: " ++ sprintf2f componentNameScore ++ "\n")
  let exactVersionScore := ev.exactVersionCompliance doc
  let score := score + exactVersionScore
  let result := result ++ ("Exact version: " ++ sprintf2f exactVersionScore ++ "\n")
  let supplierNameScore := ev.supplierNameCompliance doc
  let score := score + supplierNameScore
  let result := result ++ ("Supplier or vendor name: " ++ sprintf2f supplierNameScore ++ "\n")
  let uniqueIdentifiersScore := ev.uniqueIdentifiersCompliance doc
  let score := score + uniqueIdentifiersScore
  let result := result
    ++ ("Other Unique Identifiers: " ++ sprintf2f uniqueIdentifiersScore ++ "\n")
  let authorScore := ev.authorCompliance doc
  let score := score + authorScore
  let result := result ++ ("Author of SBOM data: " ++ sprintf2f authorScore ++ "\n")
  let componentRelationshipsScore := ev.componentRelationshipsCompliance doc
  let score := score + componentRelationshipsScore
  let result := result ++ ("Component (Dependency) relationships: "
    ++ sprintf2f componentRelationshipsScore ++ "\n")
  let componentHashScore := ev.componentHashCompliance doc
  let score := score + componentHashScore
  let result := result ++ ("Component Hash (SHA 256): " ++ sprintf2f componentHashScore ++ "\n")
  let licenseScore := ev.licenseCompliance doc
  let score := score + licenseScore
  let result := result ++ ("License(s) and usage terms: " ++ sprintf2f licenseScore ++ "\n")
  let downloadURLScore := ev.downloadURLCompliance doc
  let score := score + downloadURLScore
  let result := result
    ++ ("Download or source repository URL: " ++ sprintf2f downloadURLScore ++ "\n")
  NewRecordStmt CORE_COMPONENT_DATA "Core Component Data" result score ""

def formatStandardsMachineReadabilityCompliance (ev : CriterionEvaluators) (doc : Document) :
    Record :=
  let score : ℚ := 0
  let result := ""
  let schemaConformanceScore := schemaConformanceCompliance doc
  let score := score + schemaConformanceScore
  let result := result
    ++ ("Conformance to a recognized schema: " ++ sprintf2f schemaConformanceScore ++ "\n")
  let machineParsableFormatScore := ev.machineParsableFormatCompliance doc
  let score := score + machineParsableFormatScore
  let result := result
    ++ ("Structured, machine-parsable format: " ++ sprintf2f machineParsableFormatScore ++ "\n")
  let namespaceTimestampVersionScore := ev.namespaceTimestampVersionCompliance doc
  let score := score + namespaceTimestampVersionScore
  let result := result ++ ("Namespace, timestamp, and version of the SBOM spec: "
    ++ sprintf2f namespaceTimestampVersionScore ++ "\n")
  NewRecordStmt FORMAT_STANDARDS_MACHINE_READABILITY
    "Format, Standards, and Machine-Readability" result score ""

def governanceTraceabilityUpdatesCompliance (ev : CriterionEvaluators) (doc : Document) :
    Record :=
  let score : ℚ := 0
  let result := ""
  let toolVersionScore := ev.toolVersionCompliance doc
  let score := score + toolVersionScore
  let result := result ++ ("Tool and tooling version: " ++ sprintf2f toolVersionScore ++ "\n")
  let changeHistoryScore := ev.changeHistoryCompliance doc
  let score := score + changeHistoryScore
  let result := result ++ ("Change history: " ++ sprintf2f changeHistoryScore ++ "\n")
  let integrationHooksScore := ev.integrationHooksCompliance doc
  let score := score + integrationHooksScore
  let result := result ++ ("Integration hooks for automated generation: "
    ++ sprintf2f integrationHooksScore ++ "\n")
  let reviewCadenceUpdatePolicyScore := ev.reviewCadenceUpdatePolicyCompliance doc
  let score := score + reviewCadenceUpdatePolicyScore
  let result := result ++ ("Review cadence and update policy: "
    ++ sprintf2f reviewCadenceUpdatePolicyScore ++ "\n")
  let integrityVerificationScore := ev.integrityVerificationCompliance doc
  let score := score + integrityVerificationScore
  let result := result
    ++ ("SBOM integrity verification: " ++ sprintf2f integrityVerificationScore ++ "\n")
  NewRecordStmt GOVERNANCE_TRACEABILITY_UPDATES
    "Governance, Traceability, and Updates" result score ""

/-! ## Helper notions for the statements (category evaluators) -/

/-- The document that `createSpdxDummyDocumentCustom` of `custom-scoring_test.go`
builds. -/
def createSpdxDummyDocumentCustom : Document :=
  let primary : PrimaryComp :=
    { ID := "github/spdx/tools-golang@9db247b854b9634d0109153d515fd1a9efd5a1b1",
      Dependecies := 1, Present := true }
  let pack : Component :=
    { Version := "v0.7.1", Name := "tool-golang",
      ID := "github/spdx/tools-golang@9db247b854b9634d0109153d515fd1a9efd5a1b1",
      Supplier := { Email := "hello@interlynk.io" },
      ExternalRefs := [{ RefType := "purl" }],
      PrimaryCompt := primary }
  { Spec := { Version := "SPDX-2.3", SpecType := "spdx", Format := "json",
              CreationTimestamp := "2023-05-04T09:33:40Z" },
    Comps := [pack],
    Tools := [{ Name := "syft" }],
    Dependencies :=
      [("github/spdx/tools-golang@9db247b854b9634d0109153d515fd1a9efd5a1b1",
        ["github/spdx/gordf@b735bd5aac89fe25cad4ef488a95bc00ea549edd"])],
    PrimaryComponent := primary }

/-- Criterion evaluators that return the same score for every document. -/
def constantEvaluators (x : ℚ) : CriterionEvaluators :=
  { componentNameCompliance := fun _ => x
    exactVersionCompliance := fun _ => x
    supplierNameCompliance := fun _ => x
    uniqueIdentifiersCompliance := fun _ => x
    authorCompliance := fun _ => x
    componentRelationshipsCompliance := fun _ => x
    componentHashCompliance := fun _ => x
    licenseCompliance := fun _ => x
    downloadURLCompliance := fun _ => x
    machineParsableFormatCompliance := fun _ => x
    namespaceTimestampVersionCompliance := fun _ => x
    toolVersionCompliance := fun _ => x
    changeHistoryCompliance := fun _ => x
    integrationHooksCompliance := fun _ => x
    reviewCadenceUpdatePolicyCompliance := fun _ => x
    integrityVerificationCompliance := fun _ => x }

/-- The evidence that `TestCustomCompliancePass` expects of the core category. -/
def expectedCoreResult : String :=
  "Component name: tool-golang\nExact version: v0.7.1\nSupplier or vendor name: hello@interlynk.io\nOther Unique Identifiers: purl:(1/1)\nAuthor of SBOM data: \nComponent (Dependency) relationships: gordf\nComponent Hash (SHA 256): \nLicense(s) and usage terms: \nDownload or source repository URL: "

/-- The evidence that `TestCustomCompliancePass` expects of the format category. -/
def expectedFormatResult : String :=
  "Conformance to a recognized schema: 10.0\nStructured, machine-parsable format: 10.0\nNamespace, timestamp, and version of the SBOM spec: 10.0"

/-- The evidence that `TestCustomCompliancePass` expects of the governance category. -/
def expectedGovernanceResult : String :=
  "Tool and tooling version: 10.0\nChange history: 10.0\nIntegration hooks for automated generation: 10.0\nReview cadence and update policy: 10.0\nSBOM integrity verification: 10.0"

end Compliance

namespace Scorer

/-! ## Helper notions for the statements (scorer, single components) -/

/-- A component whose only datum is the license `NOASSERTION`. -/
def noassertionLicenseComponent : Component :=
  { blankComponent with License := "NOASSERTION" }

/-- A component whose three identifier lists are empty slices that are not `nil`. -/
def emptyIdentifierListsComponent : Component :=
  { blankComponent with Cpes := some [], Purls := some [], OsvIds := some [] }

end Scorer

namespace Compliance

/-! ## The run of the custom framework (`customComplianceResult`) -/

/-- The store `dtb` of `customComplianceResult` after its three `AddRecord` calls.
The reports that the function then prints from the store are output and are not
part of the model. -/
def customComplianceResult (ev : CriterionEvaluators) (doc : Document) : DB :=
  let dtb := NewDB
  let dtb := dtb.AddRecord (coreComponentDataCompliance ev doc)
  let dtb := dtb.AddRecord (formatStandardsMachineReadabilityCompliance ev doc)
  let dtb := dtb.AddRecord (governanceTraceabilityUpdatesCompliance ev doc)
  dtb

/-! ## The detailed report (`customDetailedReport`) -/

/-- The comparator that `customDetailedReport` passes to `sort.Slice`:
`sections[i]` for `a`, `sections[j]` for `b`. -/
def lessForDetailedReport (a b : customSection) : Prop :=
  if a.ElementID = b.ElementID then a.ID < b.ID else a.ElementID < b.ElementID

instance (a b : customSection) : Decidable (lessForDetailedReport a b) := by
  unfold lessForDetailedReport; infer_instance

/-- The call `sort.Slice(sections, ...)` of `customDetailedReport`. `sort.Slice`
does not promise stability; the model keeps sections that the comparator does not
separate in their order. -/
def sortForDetailedReport (sections : List customSection) : List customSection :=
  sections.insertionSort (fun a b => ¬ lessForDetailedReport b a)

/-- The call `fmt.Sprintf("%0.1f", x)`: one digit after the point, correctly
rounded. -/
def sprintf1f (x : ℚ) : String :=
  let n := Scorer.roundHalfEven (|x| * 10)
  (if x < 0 then "-" else "") ++ toString (n / 10) ++ "." ++ toString (n % 10)

/-- The row that `customDetailedReport` appends to the table for one section when
`colorOutput` is false. -/
def detailedReportRow (s : customSection) : List String :=
  let sectionID := if ¬ s.Required then s.ID ++ "*" else s.ID
  [s.ElementID, sectionID, s.DataField, s.ElementResult, sprintf1f s.Score]

/-- The rows of the table of `customDetailedReport`, in the order in which the loop
over the sorted sections appends them (`colorOutput` false). -/
def customDetailedReportRows (db : DB) (visit : List String) : List (List String) :=
  let sections := customConstructSections db visit
  let sections := sortForDetailedReport sections
  sections.map detailedReportRow

/-! ## Helper notions for the statements (reports and run) -/

/-- A store with the single record of the core category for the element `doc`,
with score 80. -/
def storeSingleCoreRecord : DB :=
  NewDB.AddRecord (NewRecordStmt CORE_COMPONENT_DATA "doc" "core of the document" 80 "")

/-- The four maturity labels of the specification. -/
def maturityLabels : List String := ["None", "Minimum", "Recommended", "Aspirational"]

end Compliance

namespace Omniborid

/-! ## The OmniBOR identifier (`pkg/omniborid/omniborid.go`) -/

/-- The fragment of the regular expressions of Go that `omniRegex` uses between its
anchors: a literal text, a character class given by ranges, a fixed repetition and
a concatenation. -/
inductive Regex where
  | literal (text : String)
  | charClass (ranges : List (Char × Char))
  | repeatExactly (r : Regex) (n : Nat)
  | concat (r₁ r₂ : Regex)

/-- The character is in one of the ranges of a character class. -/
def inRanges (ranges : List (Char × Char)) (c : Char) : Bool :=
  ranges.any (fun r => decide (r.1 ≤ c) && decide (c ≤ r.2))

/-- Runs a matcher `n` times in a row. -/
def matchTimes (m : List Char → Option (List Char)) : Nat → List Char → Option (List Char)
  | 0, text => some text
  | n + 1, text => (m text).bind (matchTimes m n)

/-- Matches the expression at the start of the text and returns the rest of the
text. The fragment has no alternation and no open repetition, so there is at most
one match. -/
def Regex.matchStart : Regex → List Char → Option (List Char)
  | Regex.literal lit => fun text =>
      if lit.data.isPrefixOf text then some (text.drop lit.data.length) else none
  | Regex.charClass ranges => fun text =>
      match text with
      | [] => none
      | c :: rest => if inRanges ranges c then some rest else none
  | Regex.repeatExactly r n => matchTimes (Regex.matchStart r) n
  | Regex.concat r₁ r₂ => fun text => (Regex.matchStart r₁ text).bind (Regex.matchStart r₂)

/-- The call `MatchString` on an expression of the form `^r$`: without the flag `m`
the anchor `^` is the start of the text and `$` is its end, so the whole text has
to match `r`. -/
def matchAnchored (r : Regex) (text : String) : Bool :=
  r.matchStart text.data == some []

/-- The constant `omniRegex` without its anchors:
`gitoid:blob:sha1:[a-fA-F0-9]{40}`. -/
def omniRegex : Regex :=
  Regex.concat (Regex.literal "gitoid:blob:sha1:")
    (Regex.repeatExactly (Regex.charClass [('a', 'f'), ('A', 'F'), ('0', '9')]) 40)

/-- The type `OMNIBORID` is a string. -/
abbrev OMNIBORID := String

def NewOmni (omni : String) : OMNIBORID := omni

def OMNIBORID.String (omni : OMNIBORID) : String := omni

def OMNIBORID.Valid (omni : OMNIBORID) : Bool :=
  matchAnchored omniRegex (OMNIBORID.String omni)

/-! ## Helper notions for the statements (OmniBOR identifier) -/

/-- A hexadecimal digit: `0-9`, `a-f` or `A-F`. -/
def isHexDigit (c : Char) : Bool :=
  (decide ('a' ≤ c) && decide (c ≤ 'f')) || (decide ('A' ≤ c) && decide (c ≤ 'F'))
    || (decide ('0' ≤ c) && decide (c ≤ '9'))

end Omniborid

namespace Compliance

/-! ## Helper notions for the statements (aggregation, continued) -/

/-- The score of the category with key `k` in a result; 0 for a key that is none of
the three categories. -/
def customScoreResult.categoryScore (r : customScoreResult) (k : Int) : ℚ :=
  if k = CORE_COMPONENT_DATA then r.coreComponentDataScore
  else if k = FORMAT_STANDARDS_MACHINE_READABILITY then r.formatStandardsMachineReadabilityScore
  else if k = GOVERNANCE_TRACEABILITY_UPDATES then r.governanceTraceabilityUpdatesScore
  else 0

/-- The key is one of the three category keys. -/
def isCategoryKey (k : Int) : Prop :=
  k = CORE_COMPONENT_DATA ∨ k = FORMAT_STANDARDS_MACHINE_READABILITY
    ∨ k = GOVERNANCE_TRACEABILITY_UPDATES

instance (k : Int) : Decidable (isCategoryKey k) := by
  unfold isCategoryKey; infer_instance

/-- A store with a record of the element `doc` and a record of an element whose id
is the text `sbom`: their sections fall into the same group. -/
def storeDocAndSbom : DB :=
  (NewDB.AddRecord (NewRecordStmt CORE_COMPONENT_DATA "doc" "evidence of doc" 80 "")).AddRecord
    (NewRecordStmt FORMAT_STANDARDS_MACHINE_READABILITY "sbom" "evidence of sbom" 10 "")

end Compliance

namespace Scorer

/-! ## Helper notions for the statements (attributes of a component) -/

/-- The attributes of a component that the presence criteria of the scorer read. -/
inductive Attribute where
  | name
  | version
  | supplier
  | author
  | hash
  | license
  | downloadURL
deriving DecidableEq, Repr

/-- The value of an attribute of a component. -/
def Component.attribute (c : Component) : Attribute → String
  | Attribute.name => c.Name
  | Attribute.version => c.Version
  | Attribute.supplier => c.Supplier
  | Attribute.author => c.Author
  | Attribute.hash => c.Hash
  | Attribute.license => c.License
  | Attribute.downloadURL => c.DownloadURL

/-- The component with one attribute given the value `v` and everything else
unchanged. -/
def Component.withAttribute (c : Component) (a : Attribute) (v : String) : Component :=
  match a with
  | Attribute.name => { c with Name := v }
  | Attribute.version => { c with Version := v }
  | Attribute.supplier => { c with Supplier := v }
  | Attribute.author => { c with Author := v }
  | Attribute.hash => { c with Hash := v }
  | Attribute.license => { c with License := v }
  | Attribute.downloadURL => { c with DownloadURL := v }

/-- The weight of the criterion that reads the attribute. -/
def Attribute.weight : Attribute → ℚ
  | Attribute.license => 5
  | Attribute.downloadURL => 5
  | _ => 10

end Scorer

namespace Scorer

/-! ## Rounding to binary64 -/

/-- The spacing of the binary64 numbers around the positive number `a`: `2^(e-52)`
for the binary exponent `e` of `a`, which is at least the exponent -1022 of the
subnormal numbers. -/
def ulpBinary64 (a : ℚ) : ℚ := (2 : ℚ) ^ (max (Int.log 2 a) (-1022) - 52)

/-- The nearest multiple of the spacing to the non-negative number `a`, ties to the
even multiple. -/
def roundMagnitude (a : ℚ) : ℚ := (roundHalfEven (a / ulpBinary64 a) : ℚ) * ulpBinary64 a

/-- The binary64 number that a conversion or an operation of IEEE-754 with the exact
result `q` returns: round to nearest, ties to even, and an infinity from `2^1024`
on. -/
def roundBinary64 (q : ℚ) : F64 :=
  let r := roundMagnitude |q|
  if (2 : ℚ) ^ 1024 ≤ r then (if 0 < q then F64.posInf else F64.negInf)
  else F64.fin (if 0 < q then r else -r)

/-- The rounding of the result of an operation; a special value stays as it is. -/
def F64.toBinary64 : F64 → F64
  | F64.fin q => roundBinary64 q
  | x => x

/-- The last statement of the per-component criteria,
`(float64(count) / float64(totalComponents)) * weight`, with the rounding of binary64
after each conversion and after each operation. -/
def shareOfWeightBinary64 (count totalComponents : Nat) (weight : ℚ) : F64 :=
  F64.toBinary64
    (F64.toBinary64
        (F64.toBinary64 (F64.ofCount count) / F64.toBinary64 (F64.ofCount totalComponents))
      * F64.toBinary64 (F64.fin weight))

/-- The function `calculateComponentNameScore` with the rounding of binary64: the
same loop, and the last statement rounded after the division and after the
product. -/
def calculateComponentNameScoreBinary64 (d : Document) : F64 :=
  let totalComponents := d.Components.length
  let componentsWithName := countWhere (fun c => c.Name ≠ "") d.Components
  shareOfWeightBinary64 componentsWithName totalComponents 10

/-! ## Helper notions for the statements (rounding and printing) -/

/-- A document with three components of which one has a name. -/
def oneNamedOfThree : Document :=
  completeDocument [completeComponent, blankComponent, blankComponent]

end Scorer

namespace Compliance

/-! ## The evidence texts for scores in all of `float64` -/

end Compliance

/-! # Theorems: aggregation of record scores -/

namespace Compliance

theorem keySum_nil (k : Int) : keySum k [] = 0 := by
  simp [keySum]

theorem keySum_cons (k : Int) (r : Record) (l : List Record) :
    keySum k (r :: l) = (if r.CheckKey = k then r.Score else 0) + keySum k l := by
  unfold keySum
  by_cases h : r.CheckKey = k <;> simp [List.filter_cons, h]

/-- The loop over the records adds to each accumulator the scores of the records
that carry the key of that accumulator. -/
theorem foldl_switchOnCheckKey (l : List Record) (acc : ℚ × ℚ × ℚ) :
    l.foldl switchOnCheckKey acc
      = (acc.1 + keySum CORE_COMPONENT_DATA l,
         acc.2.1 + keySum FORMAT_STANDARDS_MACHINE_READABILITY l,
         acc.2.2 + keySum GOVERNANCE_TRACEABILITY_UPDATES l) := by
  induction l generalizing acc with
  | nil => simp [keySum_nil]
  | cons r l ih =>
    rw [List.foldl_cons, ih]
    simp only [keySum_cons, switchOnCheckKey, CORE_COMPONENT_DATA,
      FORMAT_STANDARDS_MACHINE_READABILITY, GOVERNANCE_TRACEABILITY_UPDATES]
    by_cases h0 : r.CheckKey = 0
    · simp [h0, add_assoc]
    · by_cases h1 : r.CheckKey = 1
      · simp [h1, add_assoc]
      · by_cases h2 : r.CheckKey = 2
        · simp [h2, add_assoc]
        · simp [h0, h1, h2]

theorem rangeRecords_eq (l : List Record) :
    rangeRecords l
      = (keySum CORE_COMPONENT_DATA l, keySum FORMAT_STANDARDS_MACHINE_READABILITY l,
         keySum GOVERNANCE_TRACEABILITY_UPDATES l) := by
  simp [rangeRecords, foldl_switchOnCheckKey]

/-- The result of `customIDScore`, with and without the early return. -/
theorem customIDScore_eq (db : DB) (id : String) :
    customIDScore db id
      = { id := id
          coreComponentDataScore := keySum CORE_COMPONENT_DATA (db.GetRecordsByID id)
          formatStandardsMachineReadabilityScore :=
            keySum FORMAT_STANDARDS_MACHINE_READABILITY (db.GetRecordsByID id)
          governanceTraceabilityUpdatesScore :=
            keySum GOVERNANCE_TRACEABILITY_UPDATES (db.GetRecordsByID id) } := by
  unfold customIDScore
  by_cases h : (db.GetRecordsByID id).length = 0
  · have hnil : db.GetRecordsByID id = [] := List.length_eq_zero.mp h
    simp [hnil, newCustomScoreResult, keySum_nil]
  · simp [h, rangeRecords_eq]

/-- The result of `customKeyIDScore`, with and without the early return. -/
theorem customKeyIDScore_eq (db : DB) (key : Int) (id : String) :
    customKeyIDScore db key id
      = { id := id
          coreComponentDataScore := keySum CORE_COMPONENT_DATA (db.GetRecordsByKeyID key id)
          formatStandardsMachineReadabilityScore :=
            keySum FORMAT_STANDARDS_MACHINE_READABILITY (db.GetRecordsByKeyID key id)
          governanceTraceabilityUpdatesScore :=
            keySum GOVERNANCE_TRACEABILITY_UPDATES (db.GetRecordsByKeyID key id) } := by
  unfold customKeyIDScore
  by_cases h : (db.GetRecordsByKeyID key id).length = 0
  · have hnil : db.GetRecordsByKeyID key id = [] := List.length_eq_zero.mp h
    simp [hnil, newCustomScoreResult, keySum_nil]
  · simp [h, rangeRecords_eq]

/-! ### The store contract holds of the store model -/

theorem mem_firstAppearances (a : String) (l : List String) :
    a ∈ firstAppearances l ↔ a ∈ l := by
  simp [firstAppearances]

theorem nodup_firstAppearances (l : List String) : (firstAppearances l).Nodup := by
  unfold firstAppearances
  exact List.nodup_reverse.mpr (List.nodup_dedup _)

/-- `GetAllIDs` returns each element id once. -/
theorem GetAllIDs_nodup (db : DB) : db.GetAllIDs.Nodup :=
  nodup_firstAppearances _

/-- `GetAllIDs` returns the element id of every record. -/
theorem mem_GetAllIDs_of_mem (db : DB) (r : Record) (h : r ∈ db.records) :
    r.ID ∈ db.GetAllIDs := by
  unfold DB.GetAllIDs
  rw [mem_firstAppearances]
  exact List.mem_map_of_mem _ h

/-- `GetRecordsByID(id)` returns exactly the records whose id is `id`. -/
theorem mem_GetRecordsByID (db : DB) (id : String) (r : Record) :
    r ∈ db.GetRecordsByID id ↔ r ∈ db.records ∧ r.ID = id := by
  simp [DB.GetRecordsByID]

/-! ### Summing per element id counts every record once -/

theorem keySum_filter_cons (k : Int) (p : Record → Bool) (r : Record) (l : List Record) :
    keySum k ((r :: l).filter p)
      = (if p r = true then (if r.CheckKey = k then r.Score else 0) else 0)
          + keySum k (l.filter p) := by
  by_cases h : p r = true
  · simp [List.filter_cons, h, keySum_cons]
  · simp [List.filter_cons, h]

theorem keySum_filter_mem_cons (k : Int) (a : String) (t : List String) (h : a ∉ t)
    (l : List Record) :
    keySum k (l.filter (fun r => r.ID ∈ a :: t))
      = keySum k (l.filter (fun r => r.ID = a)) + keySum k (l.filter (fun r => r.ID ∈ t)) := by
  induction l with
  | nil => simp [keySum_nil]
  | cons r l ih =>
    rw [keySum_filter_cons, keySum_filter_cons, keySum_filter_cons, ih]
    by_cases ha : r.ID = a
    · simp [ha, h]
      ring
    · by_cases hb : r.ID ∈ t
      · simp [ha, hb]
        ring
      · simp [ha, hb]

theorem sum_keySum_by_id (k : Int) (l : List Record) (ids : List String) (h : ids.Nodup) :
    (ids.map (fun id => keySum k (l.filter (fun r => r.ID = id)))).sum
      = keySum k (l.filter (fun r => r.ID ∈ ids)) := by
  induction ids with
  | nil => simp [keySum_nil]
  | cons a t ih =>
    rw [List.nodup_cons] at h
    rw [List.map_cons, List.sum_cons, ih h.2, keySum_filter_mem_cons k a t h.1]

theorem foldl_addToFinalResult (rs : List customScoreResult) (r0 : customScoreResult) :
    rs.foldl addToFinalResult r0
      = { id := r0.id
          coreComponentDataScore :=
            r0.coreComponentDataScore + (rs.map (fun r => r.coreComponentDataScore)).sum
          formatStandardsMachineReadabilityScore :=
            r0.formatStandardsMachineReadabilityScore
              + (rs.map (fun r => r.formatStandardsMachineReadabilityScore)).sum
          governanceTraceabilityUpdatesScore :=
            r0.governanceTraceabilityUpdatesScore
              + (rs.map (fun r => r.governanceTraceabilityUpdatesScore)).sum } := by
  induction rs generalizing r0 with
  | nil => simp
  | cons r rs ih =>
    rw [List.foldl_cons, ih]
    simp [addToFinalResult, add_assoc]

/-- The result of `customAggregateScore`: per category, the sum over the whole store. -/
theorem customAggregateScore_eq (db : DB) :
    customAggregateScore db
      = { id := ""
          coreComponentDataScore := keySum CORE_COMPONENT_DATA db.records
          formatStandardsMachineReadabilityScore :=
            keySum FORMAT_STANDARDS_MACHINE_READABILITY db.records
          governanceTraceabilityUpdatesScore :=
            keySum GOVERNANCE_TRACEABILITY_UPDATES db.records } := by
  have hall : db.records.filter (fun r => r.ID ∈ db.GetAllIDs) = db.records := by
    rw [List.filter_eq_self]
    intro r hr
    simpa using mem_GetAllIDs_of_mem db r hr
  have hsum : ∀ k : Int,
      (db.GetAllIDs.map (fun id => keySum k (db.GetRecordsByID id))).sum
        = keySum k db.records := by
    intro k
    have := sum_keySum_by_id k db.records db.GetAllIDs (GetAllIDs_nodup db)
    rw [hall] at this
    simpa [DB.GetRecordsByID] using this
  unfold customAggregateScore
  simp only [foldl_addToFinalResult, List.map_map, newCustomScoreResult, zero_add]
  have h0 := hsum CORE_COMPONENT_DATA
  have h1 := hsum FORMAT_STANDARDS_MACHINE_READABILITY
  have h2 := hsum GOVERNANCE_TRACEABILITY_UPDATES
  simp only [Function.comp_def, customIDScore_eq, h0, h1, h2]

/-! ### Bounds on the key sums -/

theorem keySum_nonneg (k : Int) (l : List Record) (h : ∀ r ∈ l, 0 ≤ r.Score) :
    0 ≤ keySum k l := by
  induction l with
  | nil => simp [keySum_nil]
  | cons r l ih =>
    rw [keySum_cons]
    have hr : 0 ≤ r.Score := h r (List.mem_cons_self _ _)
    have hl : 0 ≤ keySum k l := ih (fun x hx => h x (List.mem_cons_of_mem _ hx))
    by_cases hk : r.CheckKey = k
    · simp only [hk, if_true]; linarith
    · simp only [hk, if_false]; linarith

theorem keyCount_cons (k : Int) (r : Record) (l : List Record) :
    keyCount k (r :: l) = (if r.CheckKey = k then 1 else 0) + keyCount k l := by
  unfold keyCount
  by_cases h : r.CheckKey = k <;> simp [List.filter_cons, h, Nat.add_comm]

theorem keySum_le_count_mul (w : Int → ℚ) (k : Int) (l : List Record)
    (h : ∀ r ∈ l, r.Score ≤ w r.CheckKey) :
    keySum k l ≤ (keyCount k l : ℚ) * w k := by
  induction l with
  | nil => simp [keySum_nil, keyCount]
  | cons r l ih =>
    rw [keySum_cons, keyCount_cons]
    have hr : r.Score ≤ w r.CheckKey := h r (List.mem_cons_self _ _)
    have hl := ih (fun x hx => h x (List.mem_cons_of_mem _ hx))
    by_cases hk : r.CheckKey = k
    · rw [hk] at hr
      simp only [hk, if_true]
      push_cast
      linarith
    · simp only [hk, if_false]
      push_cast
      linarith

/-! ### The claims on the aggregation -/

/-- C1: for every `customScoreResult`, `totalScore()` is the sum of the three
category scores divided by 3, the arithmetic mean; it coincides with the sum only
when the sum is zero. -/
theorem totalScore_is_arithmetic_mean (r : customScoreResult) :
    r.totalScore
        = (r.coreComponentDataScore + r.formatStandardsMachineReadabilityScore
            + r.governanceTraceabilityUpdatesScore) / 3
      ∧ (r.totalScore
            = r.coreComponentDataScore + r.formatStandardsMachineReadabilityScore
                + r.governanceTraceabilityUpdatesScore
          ↔ r.coreComponentDataScore + r.formatStandardsMachineReadabilityScore
                + r.governanceTraceabilityUpdatesScore = 0) := by
  refine ⟨rfl, ?_⟩
  unfold customScoreResult.totalScore
  constructor
  · intro h
    linarith
  · intro h
    rw [h]; norm_num

/-- C2: for every store and element id, `customIDScore` carries the queried id and
gives, for each of the three category keys, the sum of the scores of the records of
`GetRecordsByID(id)` that carry that key. -/
theorem customIDScore_sums_per_category (db : DB) (id : String) :
    (customIDScore db id).id = id
      ∧ (customIDScore db id).coreComponentDataScore
          = (((db.GetRecordsByID id).filter
              (fun r => r.CheckKey = CORE_COMPONENT_DATA)).map Record.Score).sum
      ∧ (customIDScore db id).formatStandardsMachineReadabilityScore
          = (((db.GetRecordsByID id).filter
              (fun r => r.CheckKey = FORMAT_STANDARDS_MACHINE_READABILITY)).map Record.Score).sum
      ∧ (customIDScore db id).governanceTraceabilityUpdatesScore
          = (((db.GetRecordsByID id).filter
              (fun r => r.CheckKey = GOVERNANCE_TRACEABILITY_UPDATES)).map Record.Score).sum := by
  rw [customIDScore_eq]
  exact ⟨rfl, rfl, rfl, rfl⟩

/-- C3: each category field of `customAggregateScore` is the sum of the scores of
all records of the store with that category key, every record counted once. The
store meets the store contract (`GetAllIDs_nodup`, `mem_GetAllIDs_of_mem`,
`mem_GetRecordsByID`). -/
theorem customAggregateScore_counts_each_record_once (db : DB) :
    (customAggregateScore db).coreComponentDataScore
        = ((db.records.filter (fun r => r.CheckKey = CORE_COMPONENT_DATA)).map Record.Score).sum
      ∧ (customAggregateScore db).formatStandardsMachineReadabilityScore
        = ((db.records.filter
            (fun r => r.CheckKey = FORMAT_STANDARDS_MACHINE_READABILITY)).map Record.Score).sum
      ∧ (customAggregateScore db).governanceTraceabilityUpdatesScore
        = ((db.records.filter
            (fun r => r.CheckKey = GOVERNANCE_TRACEABILITY_UPDATES)).map Record.Score).sum := by
  rw [customAggregateScore_eq]
  exact ⟨rfl, rfl, rfl⟩

/-- C4: aggregation over nothing yields zero: `customAggregateScore` on the empty
store, `customIDScore` for an id without records and `customKeyIDScore` for a key
and id without records return three category scores 0 and `totalScore()` 0. -/
theorem aggregation_over_nothing_is_zero :
    (customAggregateScore NewDB = newCustomScoreResult ""
        ∧ (customAggregateScore NewDB).totalScore = 0)
      ∧ (∀ (db : DB) (id : String), db.GetRecordsByID id = [] →
          customIDScore db id = newCustomScoreResult id
            ∧ (customIDScore db id).totalScore = 0)
      ∧ (∀ (db : DB) (key : Int) (id : String), db.GetRecordsByKeyID key id = [] →
          customKeyIDScore db key id = newCustomScoreResult id
            ∧ (customKeyIDScore db key id).totalScore = 0) := by
  have hz : ∀ id : String, (newCustomScoreResult id).totalScore = 0 := by
    intro id
    simp [newCustomScoreResult, customScoreResult.totalScore]
  refine ⟨?_, ?_, ?_⟩
  · have h : customAggregateScore NewDB = newCustomScoreResult "" := by
      rw [customAggregateScore_eq]
      simp [NewDB, keySum_nil, newCustomScoreResult]
    rw [h]
    exact ⟨rfl, hz ""⟩
  · intro db id hnil
    have h : customIDScore db id = newCustomScoreResult id := by
      unfold customIDScore
      simp [hnil]
    rw [h]
    exact ⟨rfl, hz id⟩
  · intro db key id hnil
    have h : customKeyIDScore db key id = newCustomScoreResult id := by
      unfold customKeyIDScore
      simp [hnil]
    rw [h]
    exact ⟨rfl, hz id⟩

/-- Witness of C4 at the empty store and at an id and key without records in a
store that holds records. -/
theorem aggregation_over_nothing_is_zero_witness :
    (customAggregateScore NewDB).totalScore = 0
      ∧ (customIDScore storeOnePerCategory "component-1").totalScore = 0
      ∧ (customKeyIDScore storeOnePerCategory 7 "doc").totalScore = 0 :=
  ⟨aggregation_over_nothing_is_zero.1.2,
   (aggregation_over_nothing_is_zero.2.1 storeOnePerCategory "component-1" (by decide)).2,
   (aggregation_over_nothing_is_zero.2.2 storeOnePerCategory 7 "doc" (by decide)).2⟩

/-- C5 as stated fails: in `storeTwoCoreRecords` every record has a score between 0
and the weight of its category, and the core score of `customIDScore` for the
element `doc` is 160, above the weight 80 of the category. -/
theorem customIDScore_exceeds_category_weight :
    (∀ r ∈ storeTwoCoreRecords.records, 0 ≤ r.Score ∧ r.Score ≤ categoryWeight r.CheckKey)
      ∧ (customIDScore storeTwoCoreRecords "doc").coreComponentDataScore = 160
      ∧ ¬ ((customIDScore storeTwoCoreRecords "doc").coreComponentDataScore
            ≤ categoryWeight CORE_COMPONENT_DATA) := by
  have h160 : (customIDScore storeTwoCoreRecords "doc").coreComponentDataScore = 160 := by
    rw [customIDScore_eq]
    norm_num [storeTwoCoreRecords, NewDB, DB.AddRecord, NewRecordStmt, DB.GetRecordsByID,
      keySum, CORE_COMPONENT_DATA]
  refine ⟨?_, h160, ?_⟩
  · intro r hr
    simp only [storeTwoCoreRecords, NewDB, DB.AddRecord, NewRecordStmt, List.nil_append,
      List.cons_append, List.mem_cons, List.mem_singleton, List.mem_nil_iff, or_false] at hr
    rcases hr with h | h <;> subst h <;> norm_num [categoryWeight, CORE_COMPONENT_DATA]
  · rw [h160]
    norm_num [categoryWeight, CORE_COMPONENT_DATA]

/-- C5, amended: when every record has a score between 0 and the weight of its
category, each per-category score of `customIDScore` lies between 0 and the weight
of the category multiplied by the number of records of that element id that carry
the category key. -/
theorem customIDScore_bounded_by_weight_times_count (w : Int → ℚ) (db : DB) (id : String)
    (h : ∀ r ∈ db.records, 0 ≤ r.Score ∧ r.Score ≤ w r.CheckKey) :
    (0 ≤ (customIDScore db id).coreComponentDataScore
        ∧ (customIDScore db id).coreComponentDataScore
            ≤ (keyCount CORE_COMPONENT_DATA (db.GetRecordsByID id) : ℚ)
                * w CORE_COMPONENT_DATA)
      ∧ (0 ≤ (customIDScore db id).formatStandardsMachineReadabilityScore
        ∧ (customIDScore db id).formatStandardsMachineReadabilityScore
            ≤ (keyCount FORMAT_STANDARDS_MACHINE_READABILITY (db.GetRecordsByID id) : ℚ)
                * w FORMAT_STANDARDS_MACHINE_READABILITY)
      ∧ (0 ≤ (customIDScore db id).governanceTraceabilityUpdatesScore
        ∧ (customIDScore db id).governanceTraceabilityUpdatesScore
            ≤ (keyCount GOVERNANCE_TRACEABILITY_UPDATES (db.GetRecordsByID id) : ℚ)
                * w GOVERNANCE_TRACEABILITY_UPDATES) := by
  have hsub : ∀ r ∈ db.GetRecordsByID id, 0 ≤ r.Score ∧ r.Score ≤ w r.CheckKey := by
    intro r hr
    exact h r ((mem_GetRecordsByID db id r).mp hr).1
  have hlo : ∀ k : Int, 0 ≤ keySum k (db.GetRecordsByID id) :=
    fun k => keySum_nonneg k _ (fun r hr => (hsub r hr).1)
  have hhi : ∀ k : Int,
      keySum k (db.GetRecordsByID id) ≤ (keyCount k (db.GetRecordsByID id) : ℚ) * w k :=
    fun k => keySum_le_count_mul w k _ (fun r hr => (hsub r hr).2)
  rw [customIDScore_eq]
  exact ⟨⟨hlo _, hhi _⟩, ⟨hlo _, hhi _⟩, ⟨hlo _, hhi _⟩⟩

/-- Witness of the amended C5 on a store with one record per category. -/
theorem customIDScore_bounded_by_weight_times_count_witness :
    (0 ≤ (customIDScore storeOnePerCategory "doc").coreComponentDataScore
        ∧ (customIDScore storeOnePerCategory "doc").coreComponentDataScore
            ≤ (keyCount CORE_COMPONENT_DATA (storeOnePerCategory.GetRecordsByID "doc") : ℚ)
                * categoryWeight CORE_COMPONENT_DATA)
      ∧ (0 ≤ (customIDScore storeOnePerCategory "doc").formatStandardsMachineReadabilityScore
        ∧ (customIDScore storeOnePerCategory "doc").formatStandardsMachineReadabilityScore
            ≤ (keyCount FORMAT_STANDARDS_MACHINE_READABILITY
                  (storeOnePerCategory.GetRecordsByID "doc") : ℚ)
                * categoryWeight FORMAT_STANDARDS_MACHINE_READABILITY)
      ∧ (0 ≤ (customIDScore storeOnePerCategory "doc").governanceTraceabilityUpdatesScore
        ∧ (customIDScore storeOnePerCategory "doc").governanceTraceabilityUpdatesScore
            ≤ (keyCount GOVERNANCE_TRACEABILITY_UPDATES
                  (storeOnePerCategory.GetRecordsByID "doc") : ℚ)
                * categoryWeight GOVERNANCE_TRACEABILITY_UPDATES) :=
  customIDScore_bounded_by_weight_times_count categoryWeight storeOnePerCategory "doc" (by
    intro r hr
    simp only [storeOnePerCategory, NewDB, DB.AddRecord, NewRecordStmt, List.nil_append,
      List.cons_append, List.mem_cons, List.mem_singleton, List.mem_nil_iff, or_false] at hr
    rcases hr with h | h | h <;> subst h <;>
      norm_num [categoryWeight, CORE_COMPONENT_DATA, FORMAT_STANDARDS_MACHINE_READABILITY,
        GOVERNANCE_TRACEABILITY_UPDATES])

end Compliance

/-! # Theorems: report sections -/

namespace Compliance

/-- C10 fails on the code: a document-level record gets the element id `sbom`, while
the loop over the groups moves to the front only the group whose key is
`SBOM Level`. In `storeDocThenComponent`, when `range` visits the group of
`component-1` before the group `sbom`, the section of the component precedes the
section of the document; in `storeDocThenSBOMLevel` the section of the element
`SBOM Level` precedes the section of the document for both orders of the visit. -/
theorem document_level_sections_not_first :
    visitsAllKeys storeDocThenComponent ["component-1", "sbom"]
      ∧ (customConstructSections storeDocThenComponent ["component-1", "sbom"]).map
            (fun s => (s.ElementID, s.ElementResult))
          = [("component-1", "component evidence"), ("sbom", "document evidence")]
      ∧ visitsAllKeys storeDocThenSBOMLevel ["sbom", "SBOM Level"]
      ∧ (customConstructSections storeDocThenSBOMLevel ["sbom", "SBOM Level"]).map
            (fun s => (s.ElementID, s.ElementResult))
          = [("SBOM Level", "element evidence"), ("sbom", "document evidence")]
      ∧ visitsAllKeys storeDocThenSBOMLevel ["SBOM Level", "sbom"]
      ∧ (customConstructSections storeDocThenSBOMLevel ["SBOM Level", "sbom"]).map
            (fun s => (s.ElementID, s.ElementResult))
          = [("SBOM Level", "element evidence"), ("sbom", "document evidence")] := by
  refine ⟨?_, ?_, ?_, ?_, ?_, ?_⟩ <;> decide

end Compliance

/-! # Theorems: the scorer -/

namespace Scorer

theorem foldl_count (cond : Component → Bool) (l : List Component) (n : Nat) :
    l.foldl (fun n component => if cond component then n + 1 else n) n
      = n + l.countP cond := by
  induction l generalizing n with
  | nil => simp
  | cons c l ih =>
    rw [List.foldl_cons, ih, List.countP_cons]
    by_cases h : cond c = true
    · simp [h]; omega
    · simp [h]

theorem countWhere_eq_countP (cond : Component → Bool) (l : List Component) :
    countWhere cond l = l.countP cond := by
  simp [countWhere, foldl_count]

theorem countWhere_le_length (cond : Component → Bool) (l : List Component) :
    countWhere cond l ≤ l.length := by
  rw [countWhere_eq_countP]
  exact List.countP_le_length _

theorem countWhere_eq_length (cond : Component → Bool) (l : List Component)
    (h : ∀ c ∈ l, cond c = true) : countWhere cond l = l.length := by
  rw [countWhere_eq_countP]
  exact List.countP_eq_length.mpr h

theorem F64.fin_add_fin (a b : ℚ) : F64.fin a + F64.fin b = F64.fin (a + b) := rfl

/-- With at least one component the division is a division of finite numbers by a
positive number. -/
theorem shareOfWeight_eq (count totalComponents : Nat) (weight : ℚ)
    (h : totalComponents ≠ 0) :
    shareOfWeight count totalComponents weight
      = F64.fin (shareValue count totalComponents weight) := by
  have hq : (totalComponents : ℚ) ≠ 0 := Nat.cast_ne_zero.mpr h
  show F64.mul (F64.div (F64.ofCount count) (F64.ofCount totalComponents)) (F64.fin weight) = _
  simp [F64.ofCount, F64.div, F64.mul, hq, shareValue]

/-- Without components the division is `0/0`. -/
theorem shareOfWeight_zero_zero (weight : ℚ) : shareOfWeight 0 0 weight = F64.nan := by
  show F64.mul (F64.div (F64.ofCount 0) (F64.ofCount 0)) (F64.fin weight) = _
  simp [F64.ofCount, F64.div, F64.mul]

theorem shareValue_nonneg (count totalComponents : Nat) (weight : ℚ) (hw : 0 ≤ weight) :
    0 ≤ shareValue count totalComponents weight := by
  unfold shareValue
  positivity

theorem shareValue_le (count totalComponents : Nat) (weight : ℚ) (hw : 0 ≤ weight)
    (hle : count ≤ totalComponents) (h : totalComponents ≠ 0) :
    shareValue count totalComponents weight ≤ weight := by
  unfold shareValue
  have hq : (0 : ℚ) < (totalComponents : ℚ) := by
    exact_mod_cast Nat.pos_of_ne_zero h
  have hc : (count : ℚ) ≤ (totalComponents : ℚ) := by exact_mod_cast hle
  have h1 : (count : ℚ) / (totalComponents : ℚ) ≤ 1 := (div_le_one hq).mpr hc
  calc (count : ℚ) / (totalComponents : ℚ) * weight ≤ 1 * weight :=
        mul_le_mul_of_nonneg_right h1 hw
    _ = weight := one_mul _

theorem shareValue_full (totalComponents : Nat) (weight : ℚ) (h : totalComponents ≠ 0) :
    shareValue totalComponents totalComponents weight = weight := by
  unfold shareValue
  have hq : (totalComponents : ℚ) ≠ 0 := Nat.cast_ne_zero.mpr h
  rw [div_self hq, one_mul]

theorem length_ne_zero_of_ne_nil (l : List Component) (h : l ≠ []) : l.length ≠ 0 := by
  intro h0
  exact h (List.length_eq_zero.mp h0)

theorem shareOfWeight_inRange (cond : Component → Bool) (l : List Component) (weight : ℚ)
    (hw : 0 ≤ weight) (hne : l ≠ []) :
    F64.inRange (shareOfWeight (countWhere cond l) l.length weight) 0 weight := by
  have hlen := length_ne_zero_of_ne_nil l hne
  rw [shareOfWeight_eq _ _ _ hlen]
  exact ⟨shareValue_nonneg _ _ _ hw,
    shareValue_le _ _ _ hw (countWhere_le_length cond l) hlen⟩

theorem ite_fin (c : Prop) [Decidable c] (a b : ℚ) :
    (if c then F64.fin a else F64.fin b) = F64.fin (if c then a else b) := by
  split <;> rfl

/-- The core category score of a document with components, as a finite number. -/
theorem calculateCoreComponentDataScore_eq (d : Document) (hne : d.Components ≠ []) :
    calculateCoreComponentDataScore d
      = F64.fin (0
          + shareValue (countWhere (fun c => c.Name ≠ "") d.Components) d.Components.length 10
          + shareValue (countWhere (fun c => c.Version ≠ "") d.Components) d.Components.length 10
          + shareValue (countWhere (fun c => c.Supplier ≠ "") d.Components) d.Components.length 10
          + shareValue (countWhere (fun c => c.Cpes ≠ none ∨ c.Purls ≠ none ∨ c.OsvIds ≠ none)
              d.Components) d.Components.length 10
          + shareValue (countWhere (fun c => c.Author ≠ "") d.Components) d.Components.length 10
          + shareValue (countWhere (fun c => c.Dependencies ≠ none) d.Components)
              d.Components.length 10
          + shareValue (countWhere (fun c => c.Hash ≠ "") d.Components) d.Components.length 10
          + shareValue (countWhere (fun c => c.License ≠ "") d.Components) d.Components.length 5
          + shareValue (countWhere (fun c => c.DownloadURL ≠ "") d.Components)
              d.Components.length 5) := by
  have hlen := length_ne_zero_of_ne_nil d.Components hne
  simp only [calculateCoreComponentDataScore, calculateComponentNameScore,
    calculateExactVersionScore, calculateSupplierNameScore, calculateUniqueIdentifiersScore,
    calculateAuthorScore, calculateComponentRelationshipsScore, calculateComponentHashScore,
    calculateLicenseScore, calculateDownloadURLScore, shareOfWeight_eq _ _ _ hlen,
    F64.fin_add_fin]

/-- The format category score, as a finite number. -/
theorem calculateFormatStandardsMachineReadabilityScore_eq (d : Document) :
    calculateFormatStandardsMachineReadabilityScore d
      = F64.fin (0 + (if d.Schema ≠ "" then 5 else 0)
          + (if d.Format = "json" ∨ d.Format = "xml" then 2 else 0)
          + (if d.Namespace ≠ "" ∧ d.Timestamp ≠ "" ∧ d.Version ≠ "" then 3 else 0)) := by
  simp only [calculateFormatStandardsMachineReadabilityScore, calculateSchemaConformanceScore,
    calculateMachineParsableFormatScore, calculateNamespaceTimestampVersionScore, ite_fin,
    F64.fin_add_fin]

/-- The governance category score, as a finite number. -/
theorem calculateGovernanceTraceabilityUpdatesScore_eq (d : Document) :
    calculateGovernanceTraceabilityUpdatesScore d
      = F64.fin (0 + (if d.Tool ≠ "" ∧ d.ToolVersion ≠ "" then 2 else 0)
          + (if d.ChangeHistory ≠ "" then 2 else 0)
          + (if d.IntegrationHooks ≠ "" then 2 else 0)
          + (if d.ReviewCadence ≠ "" ∧ d.UpdatePolicy ≠ "" then 2 else 0)
          + (if d.IntegrityVerification ≠ "" then 2 else 0)) := by
  simp only [calculateGovernanceTraceabilityUpdatesScore, calculateToolVersionScore,
    calculateChangeHistoryScore, calculateIntegrationHooksScore,
    calculateReviewCadenceUpdatePolicyScore, calculateIntegrityVerificationScore, ite_fin,
    F64.fin_add_fin]

/-- The number that `CustomScoring` returns: the three category scores added to the
zero of `newScore()`. -/
theorem CustomScoring_value (d : Document) :
    (CustomScoring d).value
      = F64.fin 0 + calculateCoreComponentDataScore d
          + calculateFormatStandardsMachineReadabilityScore d
          + calculateGovernanceTraceabilityUpdatesScore d := by
  simp [CustomScoring, newScore, score.setScore, score.getScore, score.setDesc, score.getDesc]

theorem core_value_bounds (d : Document) (hne : d.Components ≠ []) :
    ∃ q : ℚ, calculateCoreComponentDataScore d = F64.fin q ∧ 0 ≤ q ∧ q ≤ 80
      ∧ ((∀ c ∈ d.Components, c.satisfiesAllCore) → q = 80) := by
  have hlen := length_ne_zero_of_ne_nil d.Components hne
  refine ⟨_, calculateCoreComponentDataScore_eq d hne, ?_, ?_, ?_⟩
  · have n := fun (cond : Component → Bool) (w : ℚ) (hw : 0 ≤ w) =>
      shareValue_nonneg (countWhere cond d.Components) d.Components.length w hw
    have h1 := n (fun c => c.Name ≠ "") 10 (by norm_num)
    have h2 := n (fun c => c.Version ≠ "") 10 (by norm_num)
    have h3 := n (fun c => c.Supplier ≠ "") 10 (by norm_num)
    have h4 := n (fun c => c.Cpes ≠ none ∨ c.Purls ≠ none ∨ c.OsvIds ≠ none) 10 (by norm_num)
    have h5 := n (fun c => c.Author ≠ "") 10 (by norm_num)
    have h6 := n (fun c => c.Dependencies ≠ none) 10 (by norm_num)
    have h7 := n (fun c => c.Hash ≠ "") 10 (by norm_num)
    have h8 := n (fun c => c.License ≠ "") 5 (by norm_num)
    have h9 := n (fun c => c.DownloadURL ≠ "") 5 (by norm_num)
    linarith
  · have n := fun (cond : Component → Bool) (w : ℚ) (hw : 0 ≤ w) =>
      shareValue_le (countWhere cond d.Components) d.Components.length w hw
        (countWhere_le_length cond d.Components) hlen
    have h1 := n (fun c => c.Name ≠ "") 10 (by norm_num)
    have h2 := n (fun c => c.Version ≠ "") 10 (by norm_num)
    have h3 := n (fun c => c.Supplier ≠ "") 10 (by norm_num)
    have h4 := n (fun c => c.Cpes ≠ none ∨ c.Purls ≠ none ∨ c.OsvIds ≠ none) 10 (by norm_num)
    have h5 := n (fun c => c.Author ≠ "") 10 (by norm_num)
    have h6 := n (fun c => c.Dependencies ≠ none) 10 (by norm_num)
    have h7 := n (fun c => c.Hash ≠ "") 10 (by norm_num)
    have h8 := n (fun c => c.License ≠ "") 5 (by norm_num)
    have h9 := n (fun c => c.DownloadURL ≠ "") 5 (by norm_num)
    linarith
  · intro hall
    have full : ∀ (cond : Component → Bool) (w : ℚ), (∀ c ∈ d.Components, cond c = true) →
        shareValue (countWhere cond d.Components) d.Components.length w = w := by
      intro cond w hc
      rw [countWhere_eq_length cond d.Components hc, shareValue_full _ _ hlen]
    rw [full (fun c => c.Name ≠ "") 10 (fun c hc => by simpa using (hall c hc).1),
      full (fun c => c.Version ≠ "") 10 (fun c hc => by simpa using (hall c hc).2.1),
      full (fun c => c.Supplier ≠ "") 10 (fun c hc => by simpa using (hall c hc).2.2.1),
      full (fun c => c.Cpes ≠ none ∨ c.Purls ≠ none ∨ c.OsvIds ≠ none) 10
        (fun c hc => decide_eq_true (hall c hc).2.2.2.1),
      full (fun c => c.Author ≠ "") 10 (fun c hc => by simpa using (hall c hc).2.2.2.2.1),
      full (fun c => c.Dependencies ≠ none) 10
        (fun c hc => decide_eq_true (hall c hc).2.2.2.2.2.1),
      full (fun c => c.Hash ≠ "") 10 (fun c hc => by simpa using (hall c hc).2.2.2.2.2.2.1),
      full (fun c => c.License ≠ "") 5 (fun c hc => by simpa using (hall c hc).2.2.2.2.2.2.2.1),
      full (fun c => c.DownloadURL ≠ "") 5
        (fun c hc => by simpa using (hall c hc).2.2.2.2.2.2.2.2)]
    norm_num

theorem format_value_bounds (d : Document) :
    ∃ q : ℚ, calculateFormatStandardsMachineReadabilityScore d = F64.fin q ∧ 0 ≤ q ∧ q ≤ 10
      ∧ (d.satisfiesAllDocumentLevel → q = 10) := by
  refine ⟨_, calculateFormatStandardsMachineReadabilityScore_eq d, ?_, ?_, ?_⟩
  · split_ifs <;> norm_num
  · split_ifs <;> norm_num
  · intro h
    rw [if_pos h.1, if_pos h.2.1, if_pos h.2.2.1]
    norm_num

theorem governance_value_bounds (d : Document) :
    ∃ q : ℚ, calculateGovernanceTraceabilityUpdatesScore d = F64.fin q ∧ 0 ≤ q ∧ q ≤ 10
      ∧ (d.satisfiesAllDocumentLevel → q = 10) := by
  refine ⟨_, calculateGovernanceTraceabilityUpdatesScore_eq d, ?_, ?_, ?_⟩
  · split_ifs <;> norm_num
  · split_ifs <;> norm_num
  · intro h
    rw [if_pos h.2.2.2.1, if_pos h.2.2.2.2.1, if_pos h.2.2.2.2.2.1, if_pos h.2.2.2.2.2.2.1,
      if_pos h.2.2.2.2.2.2.2]
    norm_num

/-! ### The claims on the scorer -/

/-- C6: for every document with at least one component the score of `CustomScoring`
lies between 0 and 100, and it is exactly 100 when every component satisfies the
nine core criteria and the document satisfies every criterion of the format and
governance categories. -/
theorem CustomScoring_between_0_and_100 (d : Document) (hne : d.Components ≠ []) :
    F64.inRange (CustomScoring d).value 0 100
      ∧ ((∀ c ∈ d.Components, c.satisfiesAllCore) → d.satisfiesAllDocumentLevel →
          (CustomScoring d).value = F64.fin 100) := by
  obtain ⟨qc, hc, hc0, hc1, hcfull⟩ := core_value_bounds d hne
  obtain ⟨qf, hf, hf0, hf1, hffull⟩ := format_value_bounds d
  obtain ⟨qg, hg, hg0, hg1, hgfull⟩ := governance_value_bounds d
  rw [CustomScoring_value, hc, hf, hg]
  simp only [F64.fin_add_fin]
  refine ⟨?_, ?_⟩
  · show 0 ≤ 0 + qc + qf + qg ∧ 0 + qc + qf + qg ≤ 100
    constructor <;> linarith
  · intro hall hdoc
    rw [hcfull hall, hffull hdoc, hgfull hdoc]
    norm_num

/-- Witness of C6: a document with a complete and a blank component is in range,
and a complete document with one complete component scores 100. -/
theorem CustomScoring_between_0_and_100_witness :
    F64.inRange (CustomScoring (completeDocument [completeComponent, blankComponent])).value
        0 100
      ∧ (CustomScoring (completeDocument [completeComponent])).value = F64.fin 100 :=
  ⟨(CustomScoring_between_0_and_100 (completeDocument [completeComponent, blankComponent])
      (by simp [completeDocument])).1,
   (CustomScoring_between_0_and_100 (completeDocument [completeComponent])
      (by simp [completeDocument])).2
      (by
        intro c hc
        simp only [completeDocument, List.mem_singleton] at hc
        subst hc
        decide)
      (by decide)⟩

/-- C7: for every document with at least one component the core category score is
between 0 and 80, the format category score between 0 and 10 and the governance
category score between 0 and 10. -/
theorem category_scores_within_shares (d : Document) (hne : d.Components ≠ []) :
    F64.inRange (calculateCoreComponentDataScore d) 0 80
      ∧ F64.inRange (calculateFormatStandardsMachineReadabilityScore d) 0 10
      ∧ F64.inRange (calculateGovernanceTraceabilityUpdatesScore d) 0 10 := by
  obtain ⟨qc, hc, hc0, hc1, _⟩ := core_value_bounds d hne
  obtain ⟨qf, hf, hf0, hf1, _⟩ := format_value_bounds d
  obtain ⟨qg, hg, hg0, hg1, _⟩ := governance_value_bounds d
  rw [hc, hf, hg]
  exact ⟨⟨hc0, hc1⟩, ⟨hf0, hf1⟩, ⟨hg0, hg1⟩⟩

/-- Witness of C7 on a document with a complete and a blank component. -/
theorem category_scores_within_shares_witness :
    F64.inRange (calculateCoreComponentDataScore
        (completeDocument [completeComponent, blankComponent])) 0 80
      ∧ F64.inRange (calculateFormatStandardsMachineReadabilityScore
        (completeDocument [completeComponent, blankComponent])) 0 10
      ∧ F64.inRange (calculateGovernanceTraceabilityUpdatesScore
        (completeDocument [completeComponent, blankComponent])) 0 10 :=
  category_scores_within_shares (completeDocument [completeComponent, blankComponent])
    (by simp [completeDocument])

/-- C8: for every document with at least one component each per-component criterion
returns a score between 0 and its weight: 10 for component name, exact version,
supplier name, unique identifiers, author, relationships and hash, 5 for license
and download URL. -/
theorem per_component_criteria_within_weight (d : Document) (hne : d.Components ≠ []) :
    F64.inRange (calculateComponentNameScore d) 0 10
      ∧ F64.inRange (calculateExactVersionScore d) 0 10
      ∧ F64.inRange (calculateSupplierNameScore d) 0 10
      ∧ F64.inRange (calculateUniqueIdentifiersScore d) 0 10
      ∧ F64.inRange (calculateAuthorScore d) 0 10
      ∧ F64.inRange (calculateComponentRelationshipsScore d) 0 10
      ∧ F64.inRange (calculateComponentHashScore d) 0 10
      ∧ F64.inRange (calculateLicenseScore d) 0 5
      ∧ F64.inRange (calculateDownloadURLScore d) 0 5 := by
  have h10 : (0 : ℚ) ≤ 10 := by norm_num
  have h5 : (0 : ℚ) ≤ 5 := by norm_num
  exact ⟨shareOfWeight_inRange _ _ 10 h10 hne, shareOfWeight_inRange _ _ 10 h10 hne,
    shareOfWeight_inRange _ _ 10 h10 hne, shareOfWeight_inRange _ _ 10 h10 hne,
    shareOfWeight_inRange _ _ 10 h10 hne, shareOfWeight_inRange _ _ 10 h10 hne,
    shareOfWeight_inRange _ _ 10 h10 hne, shareOfWeight_inRange _ _ 5 h5 hne,
    shareOfWeight_inRange _ _ 5 h5 hne⟩

/-- Witness of C8 on a document with a complete and a blank component. -/
theorem per_component_criteria_within_weight_witness :
    F64.inRange (calculateComponentNameScore
        (completeDocument [completeComponent, blankComponent])) 0 10
      ∧ F64.inRange (calculateLicenseScore
        (completeDocument [completeComponent, blankComponent])) 0 5 :=
  ⟨(per_component_criteria_within_weight
      (completeDocument [completeComponent, blankComponent]) (by simp [completeDocument])).1,
   (per_component_criteria_within_weight
      (completeDocument [completeComponent, blankComponent])
      (by simp [completeDocument])).2.2.2.2.2.2.2.1⟩

/-- C9 fails on the code: for the document without components each of the nine
per-component criteria divides zero by zero and returns NaN, which is not 0 and is
in no range from 0 to a weight; the NaN reaches the score of `CustomScoring`. -/
theorem per_component_criteria_NaN_without_components :
    calculateComponentNameScore documentWithoutComponents = F64.nan
      ∧ calculateExactVersionScore documentWithoutComponents = F64.nan
      ∧ calculateSupplierNameScore documentWithoutComponents = F64.nan
      ∧ calculateUniqueIdentifiersScore documentWithoutComponents = F64.nan
      ∧ calculateAuthorScore documentWithoutComponents = F64.nan
      ∧ calculateComponentRelationshipsScore documentWithoutComponents = F64.nan
      ∧ calculateComponentHashScore documentWithoutComponents = F64.nan
      ∧ calculateLicenseScore documentWithoutComponents = F64.nan
      ∧ calculateDownloadURLScore documentWithoutComponents = F64.nan
      ∧ calculateComponentNameScore documentWithoutComponents ≠ F64.fin 0
      ∧ ¬ F64.inRange (calculateComponentNameScore documentWithoutComponents) 0 10
      ∧ (CustomScoring documentWithoutComponents).value = F64.nan := by
  have hcount : ∀ cond : Component → Bool, countWhere cond [] = 0 := fun _ => rfl
  have h1 : calculateComponentNameScore documentWithoutComponents = F64.nan := by
    simp [calculateComponentNameScore, documentWithoutComponents, completeDocument, hcount,
      shareOfWeight_zero_zero]
  have hcore : calculateCoreComponentDataScore documentWithoutComponents = F64.nan := by
    unfold calculateCoreComponentDataScore
    rw [h1]
    rfl
  refine ⟨h1, ?_, ?_, ?_, ?_, ?_, ?_, ?_, ?_, ?_, ?_, ?_⟩
  · simp [calculateExactVersionScore, documentWithoutComponents, completeDocument, hcount,
      shareOfWeight_zero_zero]
  · simp [calculateSupplierNameScore, documentWithoutComponents, completeDocument, hcount,
      shareOfWeight_zero_zero]
  · simp [calculateUniqueIdentifiersScore, documentWithoutComponents, completeDocument, hcount,
      shareOfWeight_zero_zero]
  · simp [calculateAuthorScore, documentWithoutComponents, completeDocument, hcount,
      shareOfWeight_zero_zero]
  · simp [calculateComponentRelationshipsScore, documentWithoutComponents, completeDocument,
      hcount, shareOfWeight_zero_zero]
  · simp [calculateComponentHashScore, documentWithoutComponents, completeDocument, hcount,
      shareOfWeight_zero_zero]
  · simp [calculateLicenseScore, documentWithoutComponents, completeDocument, hcount,
      shareOfWeight_zero_zero]
  · simp [calculateDownloadURLScore, documentWithoutComponents, completeDocument, hcount,
      shareOfWeight_zero_zero]
  · rw [h1]
    simp
  · rw [h1]
    simp [F64.inRange]
  · rw [CustomScoring_value, hcore]
    rfl

end Scorer

/-! # Theorems: report sections, grouping and order -/

namespace Compliance

/-- The loop over the groups, for any order of the visit: the visited groups other
than `SBOM Level` are appended in turn, and the group `SBOM Level` is kept aside. -/
theorem foldl_rangeGroupStep (sections : List customSection) (visit : List String)
    (acc : List customSection × List customSection) :
    visit.foldl (rangeGroupStep sections) acc
      = (acc.1 ++ (visit.filter (fun e => e ≠ "SBOM Level")).flatMap
            (fun e => sortGroupByID (sectionsByElementID sections e)),
         if "SBOM Level" ∈ visit
           then sortGroupByID (sectionsByElementID sections "SBOM Level") else acc.2) := by
  induction visit generalizing acc with
  | nil => simp
  | cons e visit ih =>
    rw [List.foldl_cons, ih]
    by_cases he : e = "SBOM Level"
    · subst he
      simp [rangeGroupStep]
    · have he2 : ¬ "SBOM Level" = e := fun h => he h.symm
      by_cases hm : "SBOM Level" ∈ visit
      · simp [rangeGroupStep, he, hm, List.filter_cons]
      · simp [rangeGroupStep, he, he2, hm, List.filter_cons]

/-- The list that `customConstructSections` returns is the concatenation of the
sorted groups in the order `groupOrder visit`. -/
theorem customConstructSections_eq (db : DB) (visit : List String) :
    customConstructSections db visit
      = (groupOrder visit).flatMap
          (fun e => sortGroupByID (sectionsByElementID (buildSections db) e)) := by
  unfold customConstructSections groupOrder
  simp only [foldl_rangeGroupStep, List.nil_append]
  by_cases hm : "SBOM Level" ∈ visit
  · simp [hm]
  · simp [hm]

theorem mem_sortGroupByID (sections : List customSection) (e : String) (s : customSection) :
    s ∈ sortGroupByID (sectionsByElementID sections e) ↔ s ∈ sections ∧ s.ElementID = e := by
  unfold sortGroupByID sectionsByElementID
  rw [List.mem_insertionSort]
  simp

theorem mem_groupOrder (visit : List String) (e : String) :
    e ∈ groupOrder visit ↔ e ∈ visit := by
  unfold groupOrder
  by_cases he : e = "SBOM Level"
  · subst he
    by_cases hm : "SBOM Level" ∈ visit <;> simp [hm]
  · by_cases hm : "SBOM Level" ∈ visit <;> simp [hm, he]

theorem nodup_groupOrder (visit : List String) (h : visit.Nodup) : (groupOrder visit).Nodup := by
  unfold groupOrder
  have hf : (visit.filter (fun e => e ≠ "SBOM Level")).Nodup := h.filter _
  by_cases hm : "SBOM Level" ∈ visit
  · simp only [hm, if_true, List.singleton_append]
    rw [List.nodup_cons]
    refine ⟨?_, hf⟩
    simp
  · simpa [hm] using hf

/-- A visit of all keys visits no key twice. -/
theorem nodup_of_visitsAllKeys (db : DB) (visit : List String) (h : visitsAllKeys db visit) :
    visit.Nodup :=
  (List.Perm.nodup_iff h).mpr (nodup_firstAppearances _)

/-- With a visit of all keys, the list returned holds exactly the sections built
from the records. -/
theorem mem_customConstructSections (db : DB) (visit : List String)
    (h : visitsAllKeys db visit) (s : customSection) :
    s ∈ customConstructSections db visit ↔ s ∈ buildSections db := by
  rw [customConstructSections_eq, List.mem_flatMap]
  constructor
  · rintro ⟨e, _, hs⟩
    exact ((mem_sortGroupByID _ _ _).mp hs).1
  · intro hs
    refine ⟨s.ElementID, ?_, (mem_sortGroupByID _ _ _).mpr ⟨hs, rfl⟩⟩
    rw [mem_groupOrder]
    apply (List.Perm.mem_iff h).mpr
    unfold elementIDKeys
    rw [mem_firstAppearances]
    exact List.mem_map_of_mem _ hs

/-- The section built from a record of the store is among the sections built. -/
theorem newSectionOf_mem_buildSections (db : DB) (r : Record) (h : r ∈ db.records) :
    newSectionOf db r ∈ buildSections db := by
  unfold buildSections
  rw [List.mem_flatMap]
  refine ⟨r.ID, mem_GetAllIDs_of_mem db r h, ?_⟩
  exact List.mem_map_of_mem _ ((mem_GetRecordsByID db r.ID r).mpr ⟨h, rfl⟩)

/-- In a list without repetition every element stands before the later ones in the
count of `indexOf`. -/
theorem pairwise_indexOf_le (order : List String) (h : order.Nodup) :
    order.Pairwise (fun a b => order.indexOf a ≤ order.indexOf b) := by
  rw [List.pairwise_iff_getElem]
  intro i j hi hj hij
  rw [List.indexOf_getElem h i hi, List.indexOf_getElem h j hj]
  exact Nat.le_of_lt hij

/-- A concatenation of blocks, one per key of a list without repetition, keeps the
elements of equal key together. -/
theorem contiguous_flatMap {α : Type} (key : α → String) (order : List String)
    (g : String → List α) (hn : order.Nodup) (hg : ∀ e, ∀ x ∈ g e, key x = e)
    (a x b : α) (hsub : [a, x, b].Sublist (order.flatMap g)) (hab : key a = key b) :
    key x = key a := by
  have hmem : ∀ y ∈ order.flatMap g, key y ∈ order := by
    intro y hy
    obtain ⟨e, he, hye⟩ := List.mem_flatMap.mp hy
    rw [hg e y hye]
    exact he
  have hpw : (order.flatMap g).Pairwise
      (fun y z => order.indexOf (key y) ≤ order.indexOf (key z)) := by
    rw [List.pairwise_flatMap]
    constructor
    · intro e _
      apply List.pairwise_of_forall_mem_list
      intro y hy z hz
      rw [hg e y hy, hg e z hz]
    · refine (pairwise_indexOf_le order hn).imp ?_
      intro e1 e2 h12 y hy z hz
      rw [hg e1 y hy, hg e2 z hz]
      exact h12
  have h3 := hpw.sublist hsub
  simp only [List.pairwise_cons, List.mem_cons, List.mem_singleton, forall_eq_or_imp,
    forall_eq, List.not_mem_nil, false_implies, implies_true, List.Pairwise.nil,
    and_true] at h3
  obtain ⟨⟨hax, _⟩, hxb⟩ := h3
  have hsubset := hsub.subset
  have hxa : order.indexOf (key x) = order.indexOf (key a) := by
    rw [← hab] at hxb
    exact Nat.le_antisymm hxb hax
  exact (List.indexOf_inj (hmem x (hsubset (by simp))) (hmem a (hsubset (by simp)))).mp hxa

/-- Every group is in ascending order of section ID after the sort. -/
theorem sortGroupByID_sorted (group : List customSection) :
    (sortGroupByID group).Pairwise (fun a b => a.ID ≤ b.ID) := by
  haveI : IsTotal customSection (fun a b => ¬ (b.ID < a.ID)) :=
    ⟨fun a b => by
      by_cases h : b.ID < a.ID
      · exact Or.inr (lt_asymm h)
      · exact Or.inl h⟩
  haveI : IsTrans customSection (fun a b => ¬ (b.ID < a.ID)) :=
    ⟨fun a b c hab hbc => not_lt.mpr (le_trans (not_lt.mp hab) (not_lt.mp hbc))⟩
  have h := List.sorted_insertionSort (fun a b : customSection => ¬ (b.ID < a.ID)) group
  exact List.Pairwise.imp (fun hab => not_lt.mp hab) h

/-- On the three category keys the order of the section IDs is the order of the
keys. -/
theorem sectionID_lt_iff_key_lt (k1 k2 : Int)
    (h1 : k1 = CORE_COMPONENT_DATA ∨ k1 = FORMAT_STANDARDS_MACHINE_READABILITY
      ∨ k1 = GOVERNANCE_TRACEABILITY_UPDATES)
    (h2 : k2 = CORE_COMPONENT_DATA ∨ k2 = FORMAT_STANDARDS_MACHINE_READABILITY
      ∨ k2 = GOVERNANCE_TRACEABILITY_UPDATES) :
    (customSectionDetails k1).ID < (customSectionDetails k2).ID ↔ k1 < k2 := by
  have e0 : (customSectionDetails CORE_COMPONENT_DATA).ID = "1.1" := rfl
  have e1 : (customSectionDetails FORMAT_STANDARDS_MACHINE_READABILITY).ID = "2.1" := rfl
  have e2 : (customSectionDetails GOVERNANCE_TRACEABILITY_UPDATES).ID = "3.1" := rfl
  have c0 : CORE_COMPONENT_DATA = 0 := rfl
  have c1 : FORMAT_STANDARDS_MACHINE_READABILITY = 1 := rfl
  have c2 : GOVERNANCE_TRACEABILITY_UPDATES = 2 := rfl
  rcases h1 with h1 | h1 | h1 <;> rcases h2 with h2 | h2 | h2 <;> subst h1 <;> subst h2 <;>
    simp only [e0, e1, e2, c0, c1, c2] <;> rw [String.lt_iff_toList_lt] <;> decide

/-- The totals of `customKeyIDScore` for a key outside the three categories are 0:
the records it reads all carry that key, which no `case` of the switch matches. -/
theorem keySum_GetRecordsByKeyID_of_ne (db : DB) (key k : Int) (id : String) (h : key ≠ k) :
    keySum k (db.GetRecordsByKeyID key id) = 0 := by
  unfold keySum DB.GetRecordsByKeyID
  rw [List.filter_filter]
  have hnil : db.records.filter
      (fun r => decide (r.CheckKey = k) && decide (r.CheckKey = key ∧ r.ID = id)) = [] := by
    rw [List.filter_eq_nil_iff]
    intro r _
    simp only [Bool.and_eq_true, decide_eq_true_eq, not_and]
    intro hk hkey
    exact absurd (hkey.symm.trans hk) h
  rw [hnil]
  simp

/-! ### The claims on the grouping and the order of the sections -/

/-- C11: for every store and every order in which the map of groups is visited,
the sections that share an ElementID are contiguous in the list returned by
`customConstructSections` (a section between two sections of one ElementID has
that ElementID) and stand in ascending order of section ID; on the three category
keys the order of the section IDs `1.1`, `2.1`, `3.1` is the order of the keys. -/
theorem sections_contiguous_and_ascending (db : DB) (visit : List String)
    (hv : visitsAllKeys db visit) :
    (∀ a x b : customSection, [a, x, b].Sublist (customConstructSections db visit) →
        a.ElementID = b.ElementID → x.ElementID = a.ElementID)
      ∧ (customConstructSections db visit).Pairwise
          (fun a b => a.ElementID = b.ElementID → a.ID ≤ b.ID)
      ∧ (∀ k1 k2 : Int,
          (k1 = CORE_COMPONENT_DATA ∨ k1 = FORMAT_STANDARDS_MACHINE_READABILITY
            ∨ k1 = GOVERNANCE_TRACEABILITY_UPDATES) →
          (k2 = CORE_COMPONENT_DATA ∨ k2 = FORMAT_STANDARDS_MACHINE_READABILITY
            ∨ k2 = GOVERNANCE_TRACEABILITY_UPDATES) →
          ((customSectionDetails k1).ID < (customSectionDetails k2).ID ↔ k1 < k2)) := by
  have hn : (groupOrder visit).Nodup :=
    nodup_groupOrder visit (nodup_of_visitsAllKeys db visit hv)
  have hg : ∀ e, ∀ x ∈ sortGroupByID (sectionsByElementID (buildSections db) e),
      x.ElementID = e := fun e x hx => ((mem_sortGroupByID _ _ _).mp hx).2
  refine ⟨?_, ?_, sectionID_lt_iff_key_lt⟩
  · intro a x b hsub hab
    rw [customConstructSections_eq] at hsub
    exact contiguous_flatMap customSection.ElementID (groupOrder visit) _ hn hg a x b hsub hab
  · rw [customConstructSections_eq, List.pairwise_flatMap]
    constructor
    · intro e _
      refine List.Pairwise.imp ?_ (sortGroupByID_sorted _)
      intro a b h _
      exact h
    · refine List.Pairwise.imp ?_ hn
      intro e1 e2 hne x hx y hy hxy
      rw [hg e1 x hx, hg e2 y hy] at hxy
      exact absurd hxy hne

/-- Witness of C11 on a store whose records alternate between two elements, for the
visit that takes the component first. -/
theorem sections_contiguous_and_ascending_witness :
    visitsAllKeys storeInterleaved ["component-1", "sbom"]
      ∧ (customConstructSections storeInterleaved ["component-1", "sbom"]).Pairwise
          (fun a b => a.ElementID = b.ElementID → a.ID ≤ b.ID) :=
  ⟨by decide,
   (sections_contiguous_and_ascending storeInterleaved ["component-1", "sbom"]
      (by decide)).2.1⟩

/-- C12 fails on the code: the list returned depends on the order in which `range`
visits the map of groups. For `storeDocThenComponent` both orders of the two keys
are visits of all keys, and they give the two sections in opposite orders. -/
theorem customConstructSections_depends_on_visit :
    visitsAllKeys storeDocThenComponent ["sbom", "component-1"]
      ∧ visitsAllKeys storeDocThenComponent ["component-1", "sbom"]
      ∧ (customConstructSections storeDocThenComponent ["sbom", "component-1"]).map
            customSection.ElementID = ["sbom", "component-1"]
      ∧ (customConstructSections storeDocThenComponent ["component-1", "sbom"]).map
            customSection.ElementID = ["component-1", "sbom"]
      ∧ customConstructSections storeDocThenComponent ["sbom", "component-1"]
          ≠ customConstructSections storeDocThenComponent ["component-1", "sbom"] := by
  refine ⟨?_, ?_, ?_, ?_, ?_⟩ <;> decide

/-- C13 as stated fails: for the store whose only record has the category key 7,
`customConstructSections` returns a list, and the list holds for that record a
section with blank title, ID and data field. -/
theorem unknown_key_gives_blank_section_example :
    visitsAllKeys storeUnknownKey ["component-1"]
      ∧ (customConstructSections storeUnknownKey ["component-1"]).map
            (fun s => (s.Title, s.ID, s.DataField, s.Required, s.ElementID, s.ElementResult))
          = [("", "", "", false, "component-1", "evidence of an unknown category")] := by
  refine ⟨?_, ?_⟩ <;> decide

/-- C13, amended: when the store holds a record whose category key is none of the
three keys of `customSectionDetails`, `customConstructSections` does not fail: the
list it returns holds the section built from that record, with blank title, ID and
data field, not required, score 0, and the element id and the evidence of the
record. -/
theorem unknown_key_gives_blank_section (db : DB) (visit : List String)
    (hv : visitsAllKeys db visit) (r : Record) (hr : r ∈ db.records)
    (hk : r.CheckKey ≠ CORE_COMPONENT_DATA ∧ r.CheckKey ≠ FORMAT_STANDARDS_MACHINE_READABILITY
      ∧ r.CheckKey ≠ GOVERNANCE_TRACEABILITY_UPDATES) :
    newSectionOf db r ∈ customConstructSections db visit
      ∧ (newSectionOf db r).Title = ""
      ∧ (newSectionOf db r).ID = ""
      ∧ (newSectionOf db r).DataField = ""
      ∧ (newSectionOf db r).Required = false
      ∧ (newSectionOf db r).Score = 0
      ∧ (newSectionOf db r).ElementID = (if r.ID = "doc" then "sbom" else r.ID)
      ∧ (newSectionOf db r).ElementResult = r.CheckValue := by
  obtain ⟨h0, h1, h2⟩ := hk
  have hd : customSectionDetails r.CheckKey
      = { Title := "", ID := "", DataField := "", Required := false,
          ElementID := "", ElementResult := "", Score := 0 } := by
    simp [customSectionDetails, h0, h1, h2]
  refine ⟨(mem_customConstructSections db visit hv _).mpr
      (newSectionOf_mem_buildSections db r hr), ?_, ?_, ?_, ?_, ?_, rfl, rfl⟩
  · simp [newSectionOf, hd]
  · simp [newSectionOf, hd]
  · simp [newSectionOf, hd]
  · simp [newSectionOf, hd]
  · simp [newSectionOf, customKeyIDScore_eq, customScoreResult.totalScore,
      keySum_GetRecordsByKeyID_of_ne db r.CheckKey _ r.ID h0,
      keySum_GetRecordsByKeyID_of_ne db r.CheckKey _ r.ID h1,
      keySum_GetRecordsByKeyID_of_ne db r.CheckKey _ r.ID h2]

/-- Witness of the amended C13 on the store whose only record has the key 7. -/
theorem unknown_key_gives_blank_section_witness :
    newSectionOf storeUnknownKey
        (NewRecordStmt 7 "component-1" "evidence of an unknown category" 5 "")
      ∈ customConstructSections storeUnknownKey ["component-1"]
      ∧ (newSectionOf storeUnknownKey
          (NewRecordStmt 7 "component-1" "evidence of an unknown category" 5 "")).Title = "" :=
  ⟨(unknown_key_gives_blank_section storeUnknownKey ["component-1"] (by decide)
      (NewRecordStmt 7 "component-1" "evidence of an unknown category" 5 "")
      (by simp [storeUnknownKey, NewDB, DB.AddRecord]) (by decide)).1,
   (unknown_key_gives_blank_section storeUnknownKey ["component-1"] (by decide)
      (NewRecordStmt 7 "component-1" "evidence of an unknown category" 5 "")
      (by simp [storeUnknownKey, NewDB, DB.AddRecord]) (by decide)).2.1⟩

end Compliance

/-! # Theorems: the category evaluators -/

namespace Compliance

/-- A text that ends with a line feed has the line feed as its last character. -/
theorem getLast_append_newline (t : String) : (t ++ "\n").data.getLast? = some '\n' := by
  rw [String.data_append]
  exact List.getLast?_concat _

theorem roundHalfEven_natCast (n : Nat) : Scorer.roundHalfEven (n : ℚ) = n := by
  simp [Scorer.roundHalfEven]

/-- The score 10 prints as `10.00`. -/
theorem sprintf2f_ten : sprintf2f 10 = "10.00" := by
  have h : |(10 : ℚ)| * 100 = ((1000 : Nat) : ℚ) := by norm_num
  simp only [sprintf2f, Scorer.sprintf2f, h, roundHalfEven_natCast]
  decide

/-- The last two characters that `%.2f` prints are the two decimal digits of the
hundredths. -/
theorem twoDigits_eq (n : Nat) (h : n < 100) :
    ((if n < 10 then "0" else "") ++ toString n)
      = String.mk [Nat.digitChar (n / 10), Nat.digitChar (n % 10)] := by
  revert n
  decide

theorem isDigit_digitChar (k : Nat) (h : k < 10) : (Nat.digitChar k).isDigit = true := by
  revert k
  decide

/-- The text that `%.2f` prints for a finite score ends with a point and exactly
two decimal digits. -/
theorem sprintf2f_shape (q : ℚ) :
    ∃ (whole : String) (d1 d2 : Char), d1.isDigit = true ∧ d2.isDigit = true
      ∧ sprintf2f q = whole ++ "." ++ String.mk [d1, d2] := by
  refine ⟨(if q < 0 then "-" else "") ++ toString (Scorer.roundHalfEven (|q| * 100) / 100),
    Nat.digitChar (Scorer.roundHalfEven (|q| * 100) % 100 / 10),
    Nat.digitChar (Scorer.roundHalfEven (|q| * 100) % 100 % 10), ?_, ?_, ?_⟩
  · exact isDigit_digitChar _ (Nat.div_lt_of_lt_mul (Nat.mod_lt _ (by norm_num)))
  · exact isDigit_digitChar _ (Nat.mod_lt _ (by norm_num))
  · rw [← twoDigits_eq _ (Nat.mod_lt _ (by norm_num))]
    simp only [sprintf2f, Scorer.sprintf2f, String.append_assoc]

/-- The evidence of the core category record: nine lines, each a label, the score
printed with `%.2f` and a line feed. -/
theorem coreComponentDataCompliance_CheckValue (ev : CriterionEvaluators) (doc : Document) :
    (coreComponentDataCompliance ev doc).CheckValue
      = "Component name: " ++ sprintf2f (ev.componentNameCompliance doc) ++ "\n"
        ++ "Exact version: " ++ sprintf2f (ev.exactVersionCompliance doc) ++ "\n"
        ++ "Supplier or vendor name: " ++ sprintf2f (ev.supplierNameCompliance doc) ++ "\n"
        ++ "Other Unique Identifiers: " ++ sprintf2f (ev.uniqueIdentifiersCompliance doc) ++ "\n"
        ++ "Author of SBOM data: " ++ sprintf2f (ev.authorCompliance doc) ++ "\n"
        ++ "Component (Dependency) relationships: "
        ++ sprintf2f (ev.componentRelationshipsCompliance doc) ++ "\n"
        ++ "Component Hash (SHA 256): " ++ sprintf2f (ev.componentHashCompliance doc) ++ "\n"
        ++ "License(s) and usage terms: " ++ sprintf2f (ev.licenseCompliance doc) ++ "\n"
        ++ "Download or source repository URL: "
        ++ sprintf2f (ev.downloadURLCompliance doc) ++ "\n" := by
  simp only [coreComponentDataCompliance, NewRecordStmt, String.append_assoc]
  rfl

/-- The evidence of the format category record: three lines, each a label, the
score printed with `%.2f` and a line feed. -/
theorem formatStandardsMachineReadabilityCompliance_CheckValue (ev : CriterionEvaluators)
    (doc : Document) :
    (formatStandardsMachineReadabilityCompliance ev doc).CheckValue
      = "Conformance to a recognized schema: " ++ sprintf2f (schemaConformanceCompliance doc)
        ++ "\n"
        ++ "Structured, machine-parsable format: "
        ++ sprintf2f (ev.machineParsableFormatCompliance doc) ++ "\n"
        ++ "Namespace, timestamp, and version of the SBOM spec: "
        ++ sprintf2f (ev.namespaceTimestampVersionCompliance doc) ++ "\n" := by
  simp only [formatStandardsMachineReadabilityCompliance, NewRecordStmt, String.append_assoc]
  rfl

/-- The evidence of the governance category record: five lines, each a label, the
score printed with `%.2f` and a line feed. -/
theorem governanceTraceabilityUpdatesCompliance_CheckValue (ev : CriterionEvaluators)
    (doc : Document) :
    (governanceTraceabilityUpdatesCompliance ev doc).CheckValue
      = "Tool and tooling version: " ++ sprintf2f (ev.toolVersionCompliance doc) ++ "\n"
        ++ "Change history: " ++ sprintf2f (ev.changeHistoryCompliance doc) ++ "\n"
        ++ "Integration hooks for automated generation: "
        ++ sprintf2f (ev.integrationHooksCompliance doc) ++ "\n"
        ++ "Review cadence and update policy: "
        ++ sprintf2f (ev.reviewCadenceUpdatePolicyCompliance doc) ++ "\n"
        ++ "SBOM integrity verification: "
        ++ sprintf2f (ev.integrityVerificationCompliance doc) ++ "\n" := by
  simp only [governanceTraceabilityUpdatesCompliance, NewRecordStmt, String.append_assoc]
  rfl

/-- The score of the core category record is the sum of the nine criterion scores. -/
theorem coreComponentDataCompliance_Score (ev : CriterionEvaluators) (doc : Document) :
    (coreComponentDataCompliance ev doc).Score
      = 0 + ev.componentNameCompliance doc + ev.exactVersionCompliance doc
        + ev.supplierNameCompliance doc + ev.uniqueIdentifiersCompliance doc
        + ev.authorCompliance doc + ev.componentRelationshipsCompliance doc
        + ev.componentHashCompliance doc + ev.licenseCompliance doc
        + ev.downloadURLCompliance doc := rfl

/-- The value of `schemaConformanceCompliance` is 10 on the accepted pairs of spec
type and version. -/
theorem schemaConformanceCompliance_eq_ten_iff (doc : Document) :
    schemaConformanceCompliance doc = 10
      ↔ (doc.Spec.SpecType = "spdx" ∧ doc.Spec.Version = "SPDX-2.3")
        ∨ (doc.Spec.SpecType = "cyclonedx"
          ∧ (doc.Spec.Version = "1.4" ∨ doc.Spec.Version = "1.5" ∨ doc.Spec.Version = "1.6")) := by
  unfold schemaConformanceCompliance
  simp only [validCustomSpdxVersions, validCustomCdxVersions, List.mem_cons, List.mem_singleton,
    List.not_mem_nil, or_false]
  by_cases hs : doc.Spec.SpecType = "spdx"
  · have hc : ¬ doc.Spec.SpecType = "cyclonedx" := by rw [hs]; decide
    by_cases hv : doc.Spec.Version = "SPDX-2.3" <;> simp [hs, hv, hc]
  · by_cases hc : doc.Spec.SpecType = "cyclonedx"
    · by_cases hv : doc.Spec.Version = "1.4" ∨ doc.Spec.Version = "1.5" ∨ doc.Spec.Version = "1.6"
      · simp [hs, hc, hv]
      · simp [hs, hc, hv]
    · simp [hs, hc]

/-- The value of `schemaConformanceCompliance` is 10 or 0. -/
theorem schemaConformanceCompliance_ten_or_zero (doc : Document) :
    schemaConformanceCompliance doc = 10 ∨ schemaConformanceCompliance doc = 0 := by
  unfold schemaConformanceCompliance
  simp only []
  split_ifs <;> simp

/-! ### The claims on the category evaluators -/

/-- C14 as stated fails: for the document of the test, and criterion evaluators that
return 0, the element id of each of the three category records is not `doc`. -/
theorem category_records_id_not_doc_example :
    (coreComponentDataCompliance (constantEvaluators 0) createSpdxDummyDocumentCustom).ID ≠ "doc"
      ∧ (formatStandardsMachineReadabilityCompliance (constantEvaluators 0)
          createSpdxDummyDocumentCustom).ID ≠ "doc"
      ∧ (governanceTraceabilityUpdatesCompliance (constantEvaluators 0)
          createSpdxDummyDocumentCustom).ID ≠ "doc" := by
  refine ⟨?_, ?_, ?_⟩ <;> decide

/-- C14, amended: for every document, whatever the criterion evaluators return, the
element id of the record of each category evaluator is the title of the category,
which is not `doc`. -/
theorem category_records_id_is_title (ev : CriterionEvaluators) (doc : Document) :
    ((coreComponentDataCompliance ev doc).ID = (customSectionDetails CORE_COMPONENT_DATA).Title
        ∧ (coreComponentDataCompliance ev doc).ID ≠ "doc")
      ∧ ((formatStandardsMachineReadabilityCompliance ev doc).ID
            = (customSectionDetails FORMAT_STANDARDS_MACHINE_READABILITY).Title
        ∧ (formatStandardsMachineReadabilityCompliance ev doc).ID ≠ "doc")
      ∧ ((governanceTraceabilityUpdatesCompliance ev doc).ID
            = (customSectionDetails GOVERNANCE_TRACEABILITY_UPDATES).Title
        ∧ (governanceTraceabilityUpdatesCompliance ev doc).ID ≠ "doc") := by
  have h0 : (coreComponentDataCompliance ev doc).ID = "Core Component Data" := rfl
  have h1 : (formatStandardsMachineReadabilityCompliance ev doc).ID
      = "Format, Standards, and Machine-Readability" := rfl
  have h2 : (governanceTraceabilityUpdatesCompliance ev doc).ID
      = "Governance, Traceability, and Updates" := rfl
  rw [h0, h1, h2]
  refine ⟨⟨rfl, ?_⟩, ⟨rfl, ?_⟩, ⟨rfl, ?_⟩⟩ <;> decide

/-- C15: for every document, whatever the criterion evaluators return, the three
category evaluators return records with the check keys `CORE_COMPONENT_DATA`,
`FORMAT_STANDARDS_MACHINE_READABILITY`, `GOVERNANCE_TRACEABILITY_UPDATES` and the
ids `Core Component Data`, `Format, Standards, and Machine-Readability`,
`Governance, Traceability, and Updates`. -/
theorem category_records_key_and_id (ev : CriterionEvaluators) (doc : Document) :
    ((coreComponentDataCompliance ev doc).CheckKey = CORE_COMPONENT_DATA
        ∧ (coreComponentDataCompliance ev doc).ID = "Core Component Data")
      ∧ ((formatStandardsMachineReadabilityCompliance ev doc).CheckKey
            = FORMAT_STANDARDS_MACHINE_READABILITY
        ∧ (formatStandardsMachineReadabilityCompliance ev doc).ID
            = "Format, Standards, and Machine-Readability")
      ∧ ((governanceTraceabilityUpdatesCompliance ev doc).CheckKey
            = GOVERNANCE_TRACEABILITY_UPDATES
        ∧ (governanceTraceabilityUpdatesCompliance ev doc).ID
            = "Governance, Traceability, and Updates") :=
  ⟨⟨rfl, rfl⟩, ⟨rfl, rfl⟩, ⟨rfl, rfl⟩⟩

/-- C17 fails on the code: every line of the evidence of the core category record
shows, after its label, the score of the criterion printed with `%.2f`, not the
value found in the document, and the evidence ends with a line feed. With
evaluators that return 10 the evidence of the test document starts with
`Component name: 10.00`; for no evaluators is it the text that the test expects. -/
theorem core_evidence_shows_scores (ev : CriterionEvaluators) (doc : Document) :
    (coreComponentDataCompliance ev doc).CheckValue
        = "Component name: " ++ sprintf2f (ev.componentNameCompliance doc) ++ "\n"
          ++ "Exact version: " ++ sprintf2f (ev.exactVersionCompliance doc) ++ "\n"
          ++ "Supplier or vendor name: " ++ sprintf2f (ev.supplierNameCompliance doc) ++ "\n"
          ++ "Other Unique Identifiers: " ++ sprintf2f (ev.uniqueIdentifiersCompliance doc)
          ++ "\n"
          ++ "Author of SBOM data: " ++ sprintf2f (ev.authorCompliance doc) ++ "\n"
          ++ "Component (Dependency) relationships: "
          ++ sprintf2f (ev.componentRelationshipsCompliance doc) ++ "\n"
          ++ "Component Hash (SHA 256): " ++ sprintf2f (ev.componentHashCompliance doc) ++ "\n"
          ++ "License(s) and usage terms: " ++ sprintf2f (ev.licenseCompliance doc) ++ "\n"
          ++ "Download or source repository URL: "
          ++ sprintf2f (ev.downloadURLCompliance doc) ++ "\n"
      ∧ (coreComponentDataCompliance (constantEvaluators 10)
            createSpdxDummyDocumentCustom).CheckValue
          = "Component name: 10.00\nExact version: 10.00\nSupplier or vendor name: 10.00\nOther Unique Identifiers: 10.00\nAuthor of SBOM data: 10.00\nComponent (Dependency) relationships: 10.00\nComponent Hash (SHA 256): 10.00\nLicense(s) and usage terms: 10.00\nDownload or source repository URL: 10.00\n"
      ∧ (coreComponentDataCompliance ev doc).CheckValue ≠ expectedCoreResult := by
  refine ⟨coreComponentDataCompliance_CheckValue ev doc, ?_, ?_⟩
  · rw [coreComponentDataCompliance_CheckValue]
    simp only [constantEvaluators, sprintf2f_ten]
    set_option maxRecDepth 8000 in decide
  · intro h
    have h1 : (coreComponentDataCompliance ev doc).CheckValue.data.getLast? = some '\n' := by
      rw [coreComponentDataCompliance_CheckValue]
      exact getLast_append_newline _
    rw [h] at h1
    revert h1
    decide

/-- C18: `schemaConformanceCompliance` returns 10 exactly when the spec type is
`spdx` and the version `SPDX-2.3`, or the spec type is `cyclonedx` and the version
one of `1.4`, `1.5`, `1.6`; for every other pair it returns 0, also for an accepted
version under the other spec type. -/
theorem schemaConformanceCompliance_accepts_exactly (doc : Document) :
    (schemaConformanceCompliance doc = 10
        ↔ (doc.Spec.SpecType = "spdx" ∧ doc.Spec.Version = "SPDX-2.3")
          ∨ (doc.Spec.SpecType = "cyclonedx"
            ∧ (doc.Spec.Version = "1.4" ∨ doc.Spec.Version = "1.5"
              ∨ doc.Spec.Version = "1.6")))
      ∧ (schemaConformanceCompliance doc = 0
        ↔ ¬ ((doc.Spec.SpecType = "spdx" ∧ doc.Spec.Version = "SPDX-2.3")
          ∨ (doc.Spec.SpecType = "cyclonedx"
            ∧ (doc.Spec.Version = "1.4" ∨ doc.Spec.Version = "1.5"
              ∨ doc.Spec.Version = "1.6"))))
      ∧ (doc.Spec.SpecType = "spdx"
          ∧ (doc.Spec.Version = "1.4" ∨ doc.Spec.Version = "1.5" ∨ doc.Spec.Version = "1.6")
          → schemaConformanceCompliance doc = 0)
      ∧ (doc.Spec.SpecType = "cyclonedx" ∧ doc.Spec.Version = "SPDX-2.3"
          → schemaConformanceCompliance doc = 0) := by
  have hiff := schemaConformanceCompliance_eq_ten_iff doc
  have hzero : schemaConformanceCompliance doc = 0
      ↔ ¬ ((doc.Spec.SpecType = "spdx" ∧ doc.Spec.Version = "SPDX-2.3")
        ∨ (doc.Spec.SpecType = "cyclonedx"
          ∧ (doc.Spec.Version = "1.4" ∨ doc.Spec.Version = "1.5"
            ∨ doc.Spec.Version = "1.6"))) := by
    rw [← hiff]
    constructor
    · intro h0 h10
      rw [h0] at h10
      norm_num at h10
    · intro hne
      rcases schemaConformanceCompliance_ten_or_zero doc with h | h
      · exact absurd h hne
      · exact h
  refine ⟨hiff, hzero, ?_, ?_⟩
  · rintro ⟨hs, hv⟩
    rw [hzero]
    rintro (⟨_, hv2⟩ | ⟨hc, _⟩)
    · rw [hv2] at hv
      revert hv
      decide
    · rw [hs] at hc
      revert hc
      decide
  · rintro ⟨hs, hv⟩
    rw [hzero]
    rintro (⟨hc, _⟩ | ⟨_, hv2⟩)
    · rw [hs] at hc
      revert hc
      decide
    · rw [hv] at hv2
      revert hv2
      decide

/-- C20 fails on the code: the evidence of the format category record is its three
lines and the evidence of the governance category record its five lines, in the
stated order, but every line, the last one too, is followed by a line feed; so the
evidence ends with a line feed and is never the text that the test expects. -/
theorem evidence_ends_with_line_feed (ev : CriterionEvaluators) (doc : Document) :
    (formatStandardsMachineReadabilityCompliance ev doc).CheckValue
        = "Conformance to a recognized schema: " ++ sprintf2f (schemaConformanceCompliance doc)
          ++ "\n"
          ++ "Structured, machine-parsable format: "
          ++ sprintf2f (ev.machineParsableFormatCompliance doc) ++ "\n"
          ++ "Namespace, timestamp, and version of the SBOM spec: "
          ++ sprintf2f (ev.namespaceTimestampVersionCompliance doc) ++ "\n"
      ∧ (formatStandardsMachineReadabilityCompliance ev doc).CheckValue.data.getLast?
          = some '\n'
      ∧ (formatStandardsMachineReadabilityCompliance ev doc).CheckValue ≠ expectedFormatResult
      ∧ (governanceTraceabilityUpdatesCompliance ev doc).CheckValue
        = "Tool and tooling version: " ++ sprintf2f (ev.toolVersionCompliance doc) ++ "\n"
          ++ "Change history: " ++ sprintf2f (ev.changeHistoryCompliance doc) ++ "\n"
          ++ "Integration hooks for automated generation: "
          ++ sprintf2f (ev.integrationHooksCompliance doc) ++ "\n"
          ++ "Review cadence and update policy: "
          ++ sprintf2f (ev.reviewCadenceUpdatePolicyCompliance doc) ++ "\n"
          ++ "SBOM integrity verification: "
          ++ sprintf2f (ev.integrityVerificationCompliance doc) ++ "\n"
      ∧ (governanceTraceabilityUpdatesCompliance ev doc).CheckValue.data.getLast?
          = some '\n'
      ∧ (governanceTraceabilityUpdatesCompliance ev doc).CheckValue
          ≠ expectedGovernanceResult := by
  have hf : (formatStandardsMachineReadabilityCompliance ev doc).CheckValue.data.getLast?
      = some '\n' := by
    rw [formatStandardsMachineReadabilityCompliance_CheckValue]
    exact getLast_append_newline _
  have hg : (governanceTraceabilityUpdatesCompliance ev doc).CheckValue.data.getLast?
      = some '\n' := by
    rw [governanceTraceabilityUpdatesCompliance_CheckValue]
    exact getLast_append_newline _
  refine ⟨formatStandardsMachineReadabilityCompliance_CheckValue ev doc, hf, ?_,
    governanceTraceabilityUpdatesCompliance_CheckValue ev doc, hg, ?_⟩
  · intro h
    rw [h] at hf
    revert hf
    decide
  · intro h
    rw [h] at hg
    revert hg
    decide

end Compliance

/-! # Theorems: the core category score of the example document -/

namespace Compliance

end Compliance

/-! # Theorems: the OmniBOR identifier -/

namespace Omniborid

theorem matchStart_literal (lit : String) (text rest : List Char) :
    (Regex.literal lit).matchStart text = some rest ↔ text = lit.data ++ rest := by
  simp only [Regex.matchStart]
  constructor
  · intro h
    split at h
    · rename_i hp
      rw [List.isPrefixOf_iff_prefix] at hp
      obtain ⟨t, ht⟩ := hp
      subst ht
      simp at h
      rw [h]
    · exact absurd h (by simp)
  · intro h
    subst h
    have hp : lit.data.isPrefixOf (lit.data ++ rest) = true := by
      rw [List.isPrefixOf_iff_prefix]
      exact List.prefix_append _ _
    simp [hp]

theorem matchStart_charClass_nil (ranges : List (Char × Char)) :
    (Regex.charClass ranges).matchStart [] = none := rfl

theorem matchStart_charClass_cons (ranges : List (Char × Char)) (c : Char) (t : List Char) :
    (Regex.charClass ranges).matchStart (c :: t)
      = if inRanges ranges c = true then some t else none := rfl

theorem matchTimes_charClass (ranges : List (Char × Char)) (n : Nat) (text rest : List Char) :
    matchTimes (Regex.charClass ranges).matchStart n text = some rest
      ↔ ∃ h : List Char, h.length = n ∧ (∀ c ∈ h, inRanges ranges c = true)
          ∧ text = h ++ rest := by
  induction n generalizing text with
  | zero =>
    simp only [matchTimes, Option.some.injEq]
    constructor
    · intro h
      exact ⟨[], rfl, by simp, by simp [h]⟩
    · rintro ⟨h, hl, _, ht⟩
      rw [List.length_eq_zero] at hl
      subst hl
      simpa using ht
  | succ n ih =>
    rw [matchTimes]
    cases text with
    | nil =>
      rw [matchStart_charClass_nil]
      constructor
      · intro h
        exact absurd h (by simp)
      · rintro ⟨h, hl, _, ht⟩
        cases h with
        | nil => simp at hl
        | cons a t => simp at ht
    | cons c t =>
      rw [matchStart_charClass_cons]
      by_cases hc : inRanges ranges c = true
      · rw [if_pos hc, Option.some_bind, ih]
        constructor
        · rintro ⟨h, hl, hall, ht⟩
          refine ⟨c :: h, by simp [hl], ?_, by simp [ht]⟩
          intro x hx
          rcases List.mem_cons.mp hx with hx | hx
          · rw [hx]; exact hc
          · exact hall x hx
        · rintro ⟨h, hl, hall, ht⟩
          cases h with
          | nil => simp at hl
          | cons a h =>
            simp only [List.cons_append, List.cons.injEq] at ht
            refine ⟨h, by simpa using hl, fun x hx => hall x (List.mem_cons_of_mem _ hx), ht.2⟩
      · rw [if_neg hc, Option.none_bind]
        constructor
        · intro h
          exact absurd h (by simp)
        · rintro ⟨h, hl, hall, ht⟩
          cases h with
          | nil => simp at hl
          | cons a h =>
            simp only [List.cons_append, List.cons.injEq] at ht
            have := hall a (List.mem_cons_self _ _)
            rw [← ht.1] at this
            exact absurd this hc

theorem inRanges_hex (c : Char) :
    inRanges [('a', 'f'), ('A', 'F'), ('0', '9')] c = isHexDigit c := by
  simp [inRanges, isHexDigit, Bool.or_assoc]

theorem matchStart_omniRegex (text rest : List Char) :
    omniRegex.matchStart text = some rest
      ↔ ∃ hex : List Char, hex.length = 40 ∧ (∀ c ∈ hex, isHexDigit c = true)
          ∧ text = "gitoid:blob:sha1:".data ++ hex ++ rest := by
  have hdef : omniRegex.matchStart text
      = ((Regex.literal "gitoid:blob:sha1:").matchStart text).bind
          (matchTimes (Regex.charClass [('a', 'f'), ('A', 'F'), ('0', '9')]).matchStart 40) := rfl
  rw [hdef]
  constructor
  · intro h
    cases hlit : (Regex.literal "gitoid:blob:sha1:").matchStart text with
    | none => rw [hlit] at h; exact absurd h (by simp)
    | some mid =>
      rw [hlit, Option.some_bind, matchTimes_charClass] at h
      obtain ⟨hex, hl, hall, hmid⟩ := h
      refine ⟨hex, hl, fun c hc => by rw [← inRanges_hex]; exact hall c hc, ?_⟩
      rw [(matchStart_literal _ _ _).mp hlit, hmid, List.append_assoc]
  · rintro ⟨hex, hl, hall, ht⟩
    have hlit : (Regex.literal "gitoid:blob:sha1:").matchStart text = some (hex ++ rest) := by
      rw [matchStart_literal, ht, List.append_assoc]
    rw [hlit, Option.some_bind, matchTimes_charClass]
    exact ⟨hex, hl, fun c hc => by rw [inRanges_hex]; exact hall c hc, rfl⟩

theorem Valid_iff (omni : OMNIBORID) :
    OMNIBORID.Valid omni = true
      ↔ ∃ hex : List Char, hex.length = 40 ∧ (∀ c ∈ hex, isHexDigit c = true)
          ∧ omni = "gitoid:blob:sha1:" ++ String.mk hex := by
  unfold OMNIBORID.Valid matchAnchored OMNIBORID.String
  rw [beq_iff_eq, matchStart_omniRegex]
  constructor
  · rintro ⟨hex, hl, hall, ht⟩
    refine ⟨hex, hl, hall, ?_⟩
    apply String.ext
    rw [ht, String.data_append]
    simp
  · rintro ⟨hex, hl, hall, ht⟩
    refine ⟨hex, hl, hall, ?_⟩
    rw [ht, String.data_append]
    simp

/-- A valid identifier has 57 characters. -/
theorem length_of_Valid (omni : OMNIBORID) (h : OMNIBORID.Valid omni = true) :
    String.length omni = 57 := by
  obtain ⟨hex, hl, _, ht⟩ := (Valid_iff omni).mp h
  rw [ht, String.length_append]
  simp [String.length, hl]

theorem utf8Size_of_le_f (c : Char) (hle : c ≤ 'f') : c.utf8Size = 1 := by
  have h1 : c.val.toNat ≤ 102 := hle
  have h2 : c.val ≤ UInt32.ofNatCore 0x7F (by decide) := by
    show c.val.toNat ≤ 127
    omega
  unfold Char.utf8Size
  simp only [h2, if_true]

theorem utf8Size_of_isHexDigit (c : Char) (h : isHexDigit c = true) : c.utf8Size = 1 := by
  apply utf8Size_of_le_f
  simp only [isHexDigit, Bool.or_eq_true, Bool.and_eq_true, decide_eq_true_eq] at h
  rcases h with (h | h) | h
  · exact h.2
  · exact le_trans h.2 (by decide)
  · exact le_trans h.2 (by decide)

theorem utf8ByteSize_go_of_ascii (l : List Char) (h : ∀ c ∈ l, c.utf8Size = 1) :
    String.utf8ByteSize.go l = l.length := by
  induction l with
  | nil => rfl
  | cons a t ih =>
    simp only [String.utf8ByteSize.go, List.length_cons]
    rw [h a (List.mem_cons_self _ _), ih (fun c hc => h c (List.mem_cons_of_mem _ hc))]

/-- A valid identifier has 57 bytes in UTF-8, the length that Go reports. -/
theorem utf8ByteSize_of_Valid (omni : OMNIBORID) (h : OMNIBORID.Valid omni = true) :
    String.utf8ByteSize omni = 57 := by
  obtain ⟨hex, hl, hall, ht⟩ := (Valid_iff omni).mp h
  have hdata : omni.data = "gitoid:blob:sha1:".data ++ hex := by
    rw [ht, String.data_append]
  have hascii : ∀ c ∈ omni.data, c.utf8Size = 1 := by
    intro c hc
    rw [hdata, List.mem_append] at hc
    rcases hc with hc | hc
    · revert c
      decide
    · exact utf8Size_of_isHexDigit c (hall c hc)
  have hsize : String.utf8ByteSize omni = String.utf8ByteSize.go omni.data := rfl
  rw [hsize, utf8ByteSize_go_of_ascii _ hascii, hdata, List.length_append, hl]
  rfl

/-- A text that ends with a character that is no hexadecimal digit is not valid. -/
theorem not_Valid_of_last (omni : String) (c : Char) (hc : isHexDigit c = false) :
    OMNIBORID.Valid (omni ++ String.singleton c) = false := by
  rw [Bool.eq_false_iff]
  intro h
  obtain ⟨hex, hl, hall, ht⟩ := (Valid_iff _).mp h
  have hne : hex ≠ [] := by
    intro h0
    rw [h0] at hl
    simp at hl
  have hdata : omni.data ++ [c] = "gitoid:blob:sha1:".data ++ hex := by
    have := congrArg String.data ht
    simpa [String.data_append, String.singleton] using this
  have hlast := congrArg List.getLast? hdata
  rw [List.getLast?_concat, List.getLast?_append, List.getLast?_eq_getLast _ hne] at hlast
  have hlast2 : c = hex.getLast hne := by
    simpa [Option.or] using hlast
  have hmem : c ∈ hex := by
    rw [hlast2]
    exact List.getLast_mem hne
  rw [hall c hmem] at hc
  exact absurd hc (by simp)

/-- A text that starts with a character other than `g` is not valid. -/
theorem not_Valid_of_first (omni : String) (c : Char) (hc : c ≠ 'g') :
    OMNIBORID.Valid (String.singleton c ++ omni) = false := by
  rw [Bool.eq_false_iff]
  intro h
  obtain ⟨hex, _, _, ht⟩ := (Valid_iff _).mp h
  have hdata : c :: omni.data = "gitoid:blob:sha1:".data ++ hex := by
    have := congrArg String.data ht
    simpa [String.data_append, String.singleton] using this
  have hhead : c = 'g' := by
    have h2 : (c :: omni.data).head? = ("gitoid:blob:sha1:".data ++ hex).head? := by rw [hdata]
    simpa using h2
  exact hc hhead

/-! ### The claim on the OmniBOR identifier -/

/-- C22: `OMNIBORID.Valid()` is true exactly for the text `gitoid:blob:sha1:` followed
by exactly 40 hexadecimal digits and nothing else. It accepts the identifier of the
test; it rejects every text whose length (in characters or in bytes) is not 57,
every text that does not start with the prefix, the prefix in upper case, a valid
identifier with one more character at either end, and every text with a line feed
at its end or at its start. -/
theorem OMNIBORID_Valid_exactly :
    (∀ omni : OMNIBORID, OMNIBORID.Valid omni = true
        ↔ ∃ hex : List Char, hex.length = 40 ∧ (∀ c ∈ hex, isHexDigit c = true)
            ∧ omni = "gitoid:blob:sha1:" ++ String.mk hex)
      ∧ OMNIBORID.Valid (NewOmni "gitoid:blob:sha1:a94a8fe5ccb19ba61c4c0873d391e987982fbbd3")
          = true
      ∧ (∀ omni : OMNIBORID, String.length omni ≠ 57 → OMNIBORID.Valid omni = false)
      ∧ (∀ omni : OMNIBORID, String.utf8ByteSize omni ≠ 57 → OMNIBORID.Valid omni = false)
      ∧ (∀ omni : OMNIBORID, ¬ ("gitoid:blob:sha1:".data <+: String.data omni) →
          OMNIBORID.Valid omni = false)
      ∧ OMNIBORID.Valid "GITOID:BLOB:SHA1:a94a8fe5ccb19ba61c4c0873d391e987982fbbd3" = false
      ∧ (∀ (omni : OMNIBORID) (c : Char), OMNIBORID.Valid omni = true →
          OMNIBORID.Valid (omni ++ String.singleton c) = false
            ∧ OMNIBORID.Valid (String.singleton c ++ omni) = false)
      ∧ (∀ omni : String, OMNIBORID.Valid (omni ++ "\n") = false
          ∧ OMNIBORID.Valid ("\n" ++ omni) = false) := by
  refine ⟨Valid_iff, by decide, ?_, ?_, ?_, by decide, ?_, ?_⟩
  · intro omni hlen
    rw [Bool.eq_false_iff]
    exact fun h => hlen (length_of_Valid omni h)
  · intro omni hlen
    rw [Bool.eq_false_iff]
    exact fun h => hlen (utf8ByteSize_of_Valid omni h)
  · intro omni hpre
    rw [Bool.eq_false_iff]
    intro h
    obtain ⟨hex, _, _, ht⟩ := (Valid_iff omni).mp h
    apply hpre
    rw [ht, String.data_append]
    exact List.prefix_append _ _
  · intro omni c h
    have h57 := length_of_Valid omni h
    constructor
    · rw [Bool.eq_false_iff]
      intro h2
      have := length_of_Valid _ h2
      rw [String.length_append, h57] at this
      simp [String.singleton, String.length] at this
    · rw [Bool.eq_false_iff]
      intro h2
      have := length_of_Valid _ h2
      rw [String.length_append, h57] at this
      simp [String.singleton, String.length] at this
  · intro omni
    exact ⟨not_Valid_of_last omni '\n' (by decide), not_Valid_of_first omni '\n' (by decide)⟩

end Omniborid

/-! # Theorems: sections of records, the detailed report and the run -/

namespace Compliance

/-- The sections built are the sections of the records of the store. -/
theorem mem_buildSections_iff (db : DB) (s : customSection) :
    s ∈ buildSections db ↔ ∃ r ∈ db.records, s = newSectionOf db r := by
  constructor
  · intro h
    unfold buildSections at h
    obtain ⟨id, _, hs⟩ := List.mem_flatMap.mp h
    obtain ⟨r, hr, hrs⟩ := List.mem_map.mp hs
    exact ⟨r, ((mem_GetRecordsByID db id r).mp hr).1, hrs.symm⟩
  · rintro ⟨r, hr, hs⟩
    rw [hs]
    exact newSectionOf_mem_buildSections db r hr

/-- Among the records with key `k` and one element id, the sum over the key `k` is
the sum over all of them. -/
theorem keySum_GetRecordsByKeyID_self (db : DB) (k : Int) (id : String) :
    keySum k (db.GetRecordsByKeyID k id) = ((db.GetRecordsByKeyID k id).map Record.Score).sum := by
  unfold keySum
  have h : (db.GetRecordsByKeyID k id).filter (fun r => r.CheckKey = k)
      = db.GetRecordsByKeyID k id := by
    rw [List.filter_eq_self]
    intro r hr
    unfold DB.GetRecordsByKeyID at hr
    have := (List.mem_filter.mp hr).2
    simp only [decide_eq_true_eq] at this ⊢
    exact this.1
  rw [h]

/-- The score of the section of a record with one of the three category keys is one
third of the sum of the scores of the records with that key and element id. -/
theorem newSectionOf_Score (db : DB) (r : Record)
    (hk : r.CheckKey = CORE_COMPONENT_DATA ∨ r.CheckKey = FORMAT_STANDARDS_MACHINE_READABILITY
      ∨ r.CheckKey = GOVERNANCE_TRACEABILITY_UPDATES) :
    (newSectionOf db r).Score
      = ((db.GetRecordsByKeyID r.CheckKey r.ID).map Record.Score).sum / 3 := by
  have hs : (newSectionOf db r).Score = (customKeyIDScore db r.CheckKey r.ID).totalScore := rfl
  rw [hs, customKeyIDScore_eq, ← keySum_GetRecordsByKeyID_self]
  simp only [customScoreResult.totalScore]
  have c01 : CORE_COMPONENT_DATA ≠ FORMAT_STANDARDS_MACHINE_READABILITY := by decide
  have c02 : CORE_COMPONENT_DATA ≠ GOVERNANCE_TRACEABILITY_UPDATES := by decide
  have c12 : FORMAT_STANDARDS_MACHINE_READABILITY ≠ GOVERNANCE_TRACEABILITY_UPDATES := by decide
  rcases hk with h | h | h
  · rw [h, keySum_GetRecordsByKeyID_of_ne db _ _ r.ID c01,
      keySum_GetRecordsByKeyID_of_ne db _ _ r.ID c02]
    ring
  · rw [h, keySum_GetRecordsByKeyID_of_ne db _ _ r.ID c01.symm,
      keySum_GetRecordsByKeyID_of_ne db _ _ r.ID c12]
    ring
  · rw [h, keySum_GetRecordsByKeyID_of_ne db _ _ r.ID c02.symm,
      keySum_GetRecordsByKeyID_of_ne db _ _ r.ID c12.symm]
    ring

/-- The comparator of the detailed report is the strict lexicographic order on the
pair of element id and section ID. -/
theorem lessForDetailedReport_iff (a b : customSection) :
    lessForDetailedReport a b
      ↔ a.ElementID < b.ElementID ∨ (a.ElementID = b.ElementID ∧ a.ID < b.ID) := by
  unfold lessForDetailedReport
  by_cases h : a.ElementID = b.ElementID
  · simp [h]
  · simp [h]

/-- Not being placed after: the lexicographic order, not strict. -/
theorem not_lessForDetailedReport_iff (a b : customSection) :
    ¬ lessForDetailedReport b a
      ↔ a.ElementID < b.ElementID ∨ (a.ElementID = b.ElementID ∧ a.ID ≤ b.ID) := by
  rw [lessForDetailedReport_iff]
  constructor
  · intro h
    rcases lt_trichotomy a.ElementID b.ElementID with hlt | heq | hgt
    · exact Or.inl hlt
    · refine Or.inr ⟨heq, ?_⟩
      by_contra hle
      exact h (Or.inr ⟨heq.symm, not_le.mp hle⟩)
    · exact absurd (Or.inl hgt) h
  · rintro (hlt | ⟨heq, hle⟩) (hgt | ⟨_, hgt⟩)
    · exact lt_asymm hlt hgt
    · rename_i heq2
      rw [heq2] at hlt
      exact lt_irrefl _ hlt
    · rw [heq] at hgt
      exact lt_irrefl _ hgt
    · exact not_lt.mpr hle hgt

/-- The sort of the detailed report puts the sections in the lexicographic order of
element id and section ID. -/
theorem sortForDetailedReport_sorted (sections : List customSection) :
    (sortForDetailedReport sections).Pairwise
      (fun a b => a.ElementID < b.ElementID ∨ (a.ElementID = b.ElementID ∧ a.ID ≤ b.ID)) := by
  haveI : IsTotal customSection (fun a b => ¬ lessForDetailedReport b a) :=
    ⟨fun a b => by
      rw [not_lessForDetailedReport_iff, not_lessForDetailedReport_iff]
      rcases lt_trichotomy a.ElementID b.ElementID with hlt | heq | hgt
      · exact Or.inl (Or.inl hlt)
      · rcases le_total a.ID b.ID with h | h
        · exact Or.inl (Or.inr ⟨heq, h⟩)
        · exact Or.inr (Or.inr ⟨heq.symm, h⟩)
      · exact Or.inr (Or.inl hgt)⟩
  haveI : IsTrans customSection (fun a b => ¬ lessForDetailedReport b a) :=
    ⟨fun a b c hab hbc => by
      rw [not_lessForDetailedReport_iff] at hab hbc ⊢
      rcases hab with h1 | ⟨e1, l1⟩
      · rcases hbc with h2 | ⟨e2, _⟩
        · exact Or.inl (lt_trans h1 h2)
        · exact Or.inl (by rw [← e2]; exact h1)
      · rcases hbc with h2 | ⟨e2, l2⟩
        · exact Or.inl (by rw [e1]; exact h2)
        · exact Or.inr ⟨e1.trans e2, le_trans l1 l2⟩⟩
  have h := List.sorted_insertionSort (fun a b : customSection => ¬ lessForDetailedReport b a)
    sections
  exact List.Pairwise.imp (fun hab => (not_lessForDetailedReport_iff _ _).mp hab) h

/-- The sort of the detailed report keeps the sections: it only reorders them. -/
theorem sortForDetailedReport_perm (sections : List customSection) :
    (sortForDetailedReport sections).Perm sections :=
  List.perm_insertionSort _ _

/-- The store of `customComplianceResult` holds the three category records in the
order core, format, governance. -/
theorem customComplianceResult_records (ev : CriterionEvaluators) (doc : Document) :
    (customComplianceResult ev doc).records
      = [coreComponentDataCompliance ev doc, formatStandardsMachineReadabilityCompliance ev doc,
         governanceTraceabilityUpdatesCompliance ev doc] := rfl

/-! ### The claims on the sections of records, the detailed report and the run -/

/-- C21 as stated fails: for the document of the test, and criterion evaluators that
return 0, the maturity label of each of the three category records is the empty
text, which is none of the four labels. -/
theorem category_records_maturity_example :
    (coreComponentDataCompliance (constantEvaluators 0) createSpdxDummyDocumentCustom).Maturity
        ∉ maturityLabels
      ∧ (formatStandardsMachineReadabilityCompliance (constantEvaluators 0)
          createSpdxDummyDocumentCustom).Maturity ∉ maturityLabels
      ∧ (governanceTraceabilityUpdatesCompliance (constantEvaluators 0)
          createSpdxDummyDocumentCustom).Maturity ∉ maturityLabels := by
  refine ⟨?_, ?_, ?_⟩ <;> decide

/-- C21, amended: for every document, whatever the criterion evaluators return, the
record of each of the three category evaluators carries the empty maturity label,
which is none of `None`, `Minimum`, `Recommended`, `Aspirational`. -/
theorem category_records_maturity_empty (ev : CriterionEvaluators) (doc : Document) :
    (coreComponentDataCompliance ev doc).Maturity = ""
      ∧ (formatStandardsMachineReadabilityCompliance ev doc).Maturity = ""
      ∧ (governanceTraceabilityUpdatesCompliance ev doc).Maturity = ""
      ∧ "" ∉ maturityLabels :=
  ⟨rfl, rfl, rfl, by decide⟩

/-- C26: the rows of `customDetailedReport` are the rows of the sections sorted with
the comparator of the report, one row per section; the comparator is the strict
lexicographic order on the pair of ElementID and section ID, and in the sorted list
every section stands before the sections with a greater ElementID or with the same
ElementID and a greater or equal section ID. -/
theorem detailed_report_rows_ordered (db : DB) (visit : List String) :
    customDetailedReportRows db visit
        = (sortForDetailedReport (customConstructSections db visit)).map detailedReportRow
      ∧ (∀ s : customSection, detailedReportRow s
          = [s.ElementID, if s.Required = true then s.ID else s.ID ++ "*", s.DataField,
             s.ElementResult, sprintf1f s.Score])
      ∧ (sortForDetailedReport (customConstructSections db visit)).Perm
          (customConstructSections db visit)
      ∧ (sortForDetailedReport (customConstructSections db visit)).Pairwise
          (fun a b => a.ElementID < b.ElementID ∨ (a.ElementID = b.ElementID ∧ a.ID ≤ b.ID))
      ∧ (∀ a b : customSection, lessForDetailedReport a b
          ↔ a.ElementID < b.ElementID ∨ (a.ElementID = b.ElementID ∧ a.ID < b.ID))
      ∧ (∀ a b : customSection, lessForDetailedReport a b
          ↔ toLex (a.ElementID, a.ID) < toLex (b.ElementID, b.ID)) := by
  refine ⟨rfl, ?_, sortForDetailedReport_perm _, sortForDetailedReport_sorted _,
    lessForDetailedReport_iff, ?_⟩
  · intro s
    unfold detailedReportRow
    by_cases h : s.Required = true <;> simp [h]
  · intro a b
    rw [lessForDetailedReport_iff, Prod.Lex.lt_iff]

/-- C27 as stated fails: in the store whose only record is a core record of the
element `doc` with score 80, the category total for the key and id of the record is
80, and so is the score of the record, but the score of its section is 80/3. -/
theorem section_score_is_not_category_total :
    visitsAllKeys storeSingleCoreRecord ["sbom"]
      ∧ newSectionOf storeSingleCoreRecord
            (NewRecordStmt CORE_COMPONENT_DATA "doc" "core of the document" 80 "")
          ∈ customConstructSections storeSingleCoreRecord ["sbom"]
      ∧ ((storeSingleCoreRecord.GetRecordsByKeyID CORE_COMPONENT_DATA "doc").map
            Record.Score).sum = 80
      ∧ (newSectionOf storeSingleCoreRecord
            (NewRecordStmt CORE_COMPONENT_DATA "doc" "core of the document" 80 "")).Score
          = 80 / 3
      ∧ (newSectionOf storeSingleCoreRecord
            (NewRecordStmt CORE_COMPONENT_DATA "doc" "core of the document" 80 "")).Score
          ≠ 80 := by
  have hv : visitsAllKeys storeSingleCoreRecord ["sbom"] := by decide
  have hsum : ((storeSingleCoreRecord.GetRecordsByKeyID CORE_COMPONENT_DATA "doc").map
      Record.Score).sum = 80 := by
    simp +decide [storeSingleCoreRecord, NewDB, DB.AddRecord, NewRecordStmt,
      DB.GetRecordsByKeyID, CORE_COMPONENT_DATA]
  have hscore : (newSectionOf storeSingleCoreRecord
      (NewRecordStmt CORE_COMPONENT_DATA "doc" "core of the document" 80 "")).Score
        = 80 / 3 := by
    rw [newSectionOf_Score _ _ (Or.inl rfl)]
    have hk : (NewRecordStmt CORE_COMPONENT_DATA "doc" "core of the document" 80 "").CheckKey
        = CORE_COMPONENT_DATA := rfl
    have hid : (NewRecordStmt CORE_COMPONENT_DATA "doc" "core of the document" 80 "").ID
        = "doc" := rfl
    rw [hk, hid, hsum]
  refine ⟨hv, ?_, hsum, hscore, ?_⟩
  · exact (mem_customConstructSections _ _ hv _).mpr
      (newSectionOf_mem_buildSections _ _ (by simp [storeSingleCoreRecord, NewDB, DB.AddRecord]))
  · rw [hscore]
    norm_num

/-- C27, amended: for every store and every record `r` of the store with one of the
three category keys, the section that `customConstructSections` builds from `r` is
in the list returned and its score is one third of the category total for the key
and id of `r` (the sum of the scores of the records of the store with that key and
element id); when `r` is the only such record, the score of the section is one
third of the score of `r`. -/
theorem section_score_is_third_of_category_total (db : DB) (visit : List String)
    (hv : visitsAllKeys db visit) (r : Record) (hr : r ∈ db.records)
    (hk : r.CheckKey = CORE_COMPONENT_DATA ∨ r.CheckKey = FORMAT_STANDARDS_MACHINE_READABILITY
      ∨ r.CheckKey = GOVERNANCE_TRACEABILITY_UPDATES) :
    newSectionOf db r ∈ customConstructSections db visit
      ∧ (newSectionOf db r).Score
          = ((db.GetRecordsByKeyID r.CheckKey r.ID).map Record.Score).sum / 3
      ∧ (db.GetRecordsByKeyID r.CheckKey r.ID = [r] → (newSectionOf db r).Score = r.Score / 3) := by
  refine ⟨(mem_customConstructSections db visit hv _).mpr
      (newSectionOf_mem_buildSections db r hr), newSectionOf_Score db r hk, ?_⟩
  intro h1
  rw [newSectionOf_Score db r hk, h1]
  simp

/-- Witness of the amended C27 on the store with a single core record. -/
theorem section_score_is_third_of_category_total_witness :
    (newSectionOf storeSingleCoreRecord
        (NewRecordStmt CORE_COMPONENT_DATA "doc" "core of the document" 80 "")).Score
      = ((storeSingleCoreRecord.GetRecordsByKeyID
            (NewRecordStmt CORE_COMPONENT_DATA "doc" "core of the document" 80 "").CheckKey
            (NewRecordStmt CORE_COMPONENT_DATA "doc" "core of the document" 80 "").ID).map
          Record.Score).sum / 3 :=
  (section_score_is_third_of_category_total storeSingleCoreRecord ["sbom"] (by decide)
    (NewRecordStmt CORE_COMPONENT_DATA "doc" "core of the document" 80 "")
    (by simp [storeSingleCoreRecord, NewDB, DB.AddRecord]) (Or.inl rfl)).2.1

/-- C28: for every store and every record `r` of the store with a key in 0, 1, 2,
the section that `customConstructSections` builds from `r` is in the list returned
and carries the Title, ID, DataField and Required flag of
`customSectionDetails[r.CheckKey]` (an entry of the map: required, with a title),
the evidence `r.CheckValue` unchanged, and the element id `sbom` when `r.ID` is `doc`
and `r.ID` itself otherwise; every section of the list is built from a record. -/
theorem section_carries_details_of_record (db : DB) (visit : List String)
    (hv : visitsAllKeys db visit) (r : Record) (hr : r ∈ db.records)
    (hk : r.CheckKey = CORE_COMPONENT_DATA ∨ r.CheckKey = FORMAT_STANDARDS_MACHINE_READABILITY
      ∨ r.CheckKey = GOVERNANCE_TRACEABILITY_UPDATES) :
    newSectionOf db r ∈ customConstructSections db visit
      ∧ (newSectionOf db r).Title = (customSectionDetails r.CheckKey).Title
      ∧ (newSectionOf db r).ID = (customSectionDetails r.CheckKey).ID
      ∧ (newSectionOf db r).DataField = (customSectionDetails r.CheckKey).DataField
      ∧ (newSectionOf db r).Required = (customSectionDetails r.CheckKey).Required
      ∧ (newSectionOf db r).Required = true
      ∧ (newSectionOf db r).Title ≠ ""
      ∧ (newSectionOf db r).ElementResult = r.CheckValue
      ∧ (r.ID = "doc" → (newSectionOf db r).ElementID = "sbom")
      ∧ (r.ID ≠ "doc" → (newSectionOf db r).ElementID = r.ID)
      ∧ (∀ s ∈ customConstructSections db visit, ∃ r' ∈ db.records, s = newSectionOf db r') := by
  have ht : (newSectionOf db r).Title = (customSectionDetails r.CheckKey).Title := rfl
  have hq : (newSectionOf db r).Required = (customSectionDetails r.CheckKey).Required := rfl
  have he : (newSectionOf db r).ElementID = (if r.ID = "doc" then "sbom" else r.ID) := rfl
  refine ⟨(mem_customConstructSections db visit hv _).mpr
      (newSectionOf_mem_buildSections db r hr), ht, rfl, rfl, hq, ?_, ?_, rfl, ?_, ?_, ?_⟩
  · rw [hq]
    rcases hk with h | h | h <;> rw [h] <;> rfl
  · rw [ht]
    rcases hk with h | h | h <;> rw [h] <;> decide
  · intro h
    rw [he, if_pos h]
  · intro h
    rw [he, if_neg h]
  · intro s hs
    exact (mem_buildSections_iff db s).mp ((mem_customConstructSections db visit hv s).mp hs)

/-- Witness of C28 on the document-level record of `storeDocThenComponent`. -/
theorem section_carries_details_of_record_witness :
    newSectionOf storeDocThenComponent
        (NewRecordStmt CORE_COMPONENT_DATA "doc" "document evidence" 80 "")
      ∈ customConstructSections storeDocThenComponent ["component-1", "sbom"]
      ∧ (newSectionOf storeDocThenComponent
          (NewRecordStmt CORE_COMPONENT_DATA "doc" "document evidence" 80 "")).Title
        = (customSectionDetails
            (NewRecordStmt CORE_COMPONENT_DATA "doc" "document evidence" 80 "").CheckKey).Title :=
  ⟨(section_carries_details_of_record storeDocThenComponent ["component-1", "sbom"]
      (by decide) (NewRecordStmt CORE_COMPONENT_DATA "doc" "document evidence" 80 "")
      (by simp [storeDocThenComponent, NewDB, DB.AddRecord]) (Or.inl rfl)).1,
   (section_carries_details_of_record storeDocThenComponent ["component-1", "sbom"]
      (by decide) (NewRecordStmt CORE_COMPONENT_DATA "doc" "document evidence" 80 "")
      (by simp [storeDocThenComponent, NewDB, DB.AddRecord]) (Or.inl rfl)).2.1⟩

/-- C29: `customComplianceResult` adds to a fresh store the record of the core
category, then of the format category, then of the governance category: the store
holds exactly these three records, with the keys `CORE_COMPONENT_DATA`,
`FORMAT_STANDARDS_MACHINE_READABILITY`, `GOVERNANCE_TRACEABILITY_UPDATES` in this
order, and the total of `customAggregateScore` on it is the mean of the three record
scores. -/
theorem customComplianceResult_three_records (ev : CriterionEvaluators) (doc : Document) :
    (customComplianceResult ev doc).records
        = [coreComponentDataCompliance ev doc,
           formatStandardsMachineReadabilityCompliance ev doc,
           governanceTraceabilityUpdatesCompliance ev doc]
      ∧ (customComplianceResult ev doc).records.length = 3
      ∧ (customComplianceResult ev doc).records.map Record.CheckKey
          = [CORE_COMPONENT_DATA, FORMAT_STANDARDS_MACHINE_READABILITY,
             GOVERNANCE_TRACEABILITY_UPDATES]
      ∧ (customAggregateScore (customComplianceResult ev doc)).totalScore
          = ((coreComponentDataCompliance ev doc).Score
              + (formatStandardsMachineReadabilityCompliance ev doc).Score
              + (governanceTraceabilityUpdatesCompliance ev doc).Score) / 3 := by
  refine ⟨rfl, rfl, rfl, ?_⟩
  have k0 : (coreComponentDataCompliance ev doc).CheckKey = 0 := rfl
  have k1 : (formatStandardsMachineReadabilityCompliance ev doc).CheckKey = 1 := rfl
  have k2 : (governanceTraceabilityUpdatesCompliance ev doc).CheckKey = 2 := rfl
  rw [customAggregateScore_eq, customComplianceResult_records]
  simp [customScoreResult.totalScore, keySum, List.filter_cons, k0, k1, k2,
    CORE_COMPONENT_DATA, FORMAT_STANDARDS_MACHINE_READABILITY, GOVERNANCE_TRACEABILITY_UPDATES]

end Compliance

/-! # Theorems: the criteria of the scorer one by one -/

namespace Scorer

/-- A per-component criterion on a document with one component: the weight when the
condition holds of the component, 0 otherwise. -/
theorem shareOfWeight_single (cond : Component → Bool) (c : Component) (weight : ℚ) :
    shareOfWeight (countWhere cond [c]) [c].length weight
      = F64.fin (if cond c = true then weight else 0) := by
  rw [shareOfWeight_eq _ _ _ (by simp)]
  by_cases h : cond c = true
  · simp [countWhere, h, shareValue]
  · simp [countWhere, h, shareValue]

/-- The counting loop does not depend on the order of the components. -/
theorem countWhere_perm (cond : Component → Bool) (l₁ l₂ : List Component)
    (h : l₁.Perm l₂) : countWhere cond l₁ = countWhere cond l₂ := by
  rw [countWhere_eq_countP, countWhere_eq_countP]
  exact h.countP_eq _

/-! ### The claims on single criteria and on the order of the components -/

/-- C23 as stated fails: for a document whose single component has the license
`NOASSERTION`, `calculateLicenseScore` returns the full weight 5, not 0. -/
theorem calculateLicenseScore_counts_NOASSERTION :
    calculateLicenseScore (completeDocument [noassertionLicenseComponent]) = F64.fin 5
      ∧ calculateLicenseScore (completeDocument [noassertionLicenseComponent]) ≠ F64.fin 0 := by
  have h : calculateLicenseScore (completeDocument [noassertionLicenseComponent]) = F64.fin 5 := by
    have h1 := shareOfWeight_single (fun c => c.License ≠ "") noassertionLicenseComponent 5
    have hc : decide (noassertionLicenseComponent.License ≠ "") = true := by decide
    rw [if_pos hc] at h1
    exact h1
  refine ⟨h, ?_⟩
  rw [h]
  intro h0
  injection h0 with h0
  norm_num at h0

/-- C23, amended: for a document with exactly one component, `calculateLicenseScore`
returns the full weight 5 if the license of the component is not empty (also when
it is `NOASSERTION`) and 0 if it is empty; the same binary rule holds for name,
version, supplier, author and hash with weight 10 and for the download URL with
weight 5. -/
theorem presence_criteria_binary_on_one_component (d : Document) (c : Component)
    (hd : d.Components = [c]) :
    calculateLicenseScore d = F64.fin (if c.License ≠ "" then 5 else 0)
      ∧ calculateComponentNameScore d = F64.fin (if c.Name ≠ "" then 10 else 0)
      ∧ calculateExactVersionScore d = F64.fin (if c.Version ≠ "" then 10 else 0)
      ∧ calculateSupplierNameScore d = F64.fin (if c.Supplier ≠ "" then 10 else 0)
      ∧ calculateAuthorScore d = F64.fin (if c.Author ≠ "" then 10 else 0)
      ∧ calculateComponentHashScore d = F64.fin (if c.Hash ≠ "" then 10 else 0)
      ∧ calculateDownloadURLScore d = F64.fin (if c.DownloadURL ≠ "" then 5 else 0) := by
  have key : ∀ (cond : Component → Bool) (w : ℚ),
      shareOfWeight (countWhere cond d.Components) d.Components.length w
        = F64.fin (if cond c = true then w else 0) := by
    intro cond w
    rw [hd]
    exact shareOfWeight_single cond c w
  refine ⟨?_, ?_, ?_, ?_, ?_, ?_, ?_⟩
  · have h := key (fun c => c.License ≠ "") 5
    simpa [calculateLicenseScore] using h
  · have h := key (fun c => c.Name ≠ "") 10
    simpa [calculateComponentNameScore] using h
  · have h := key (fun c => c.Version ≠ "") 10
    simpa [calculateExactVersionScore] using h
  · have h := key (fun c => c.Supplier ≠ "") 10
    simpa [calculateSupplierNameScore] using h
  · have h := key (fun c => c.Author ≠ "") 10
    simpa [calculateAuthorScore] using h
  · have h := key (fun c => c.Hash ≠ "") 10
    simpa [calculateComponentHashScore] using h
  · have h := key (fun c => c.DownloadURL ≠ "") 5
    simpa [calculateDownloadURLScore] using h

/-- Witness of the amended C23 on the document whose single component has the
license `NOASSERTION`. -/
theorem presence_criteria_binary_on_one_component_witness :
    calculateLicenseScore (completeDocument [noassertionLicenseComponent])
      = F64.fin (if noassertionLicenseComponent.License ≠ "" then 5 else 0) :=
  (presence_criteria_binary_on_one_component (completeDocument [noassertionLicenseComponent])
    noassertionLicenseComponent rfl).1

/-- C24 fails on the code: the criterion compares the three identifier lists with
`nil`, not with the empty list. For a document whose single component has three
empty lists that are not `nil` the score is the full weight 10, not 0; it is 0 when
the three lists are `nil`; and for every document with one component the score is
10 exactly when one of the lists is not `nil`. -/
theorem calculateUniqueIdentifiersScore_counts_empty_lists :
    calculateUniqueIdentifiersScore (completeDocument [emptyIdentifierListsComponent])
        = F64.fin 10
      ∧ calculateUniqueIdentifiersScore (completeDocument [emptyIdentifierListsComponent])
        ≠ F64.fin 0
      ∧ calculateUniqueIdentifiersScore (completeDocument [blankComponent]) = F64.fin 0
      ∧ (∀ (d : Document) (c : Component), d.Components = [c] →
          calculateUniqueIdentifiersScore d
            = F64.fin (if c.Cpes ≠ none ∨ c.Purls ≠ none ∨ c.OsvIds ≠ none then 10 else 0)) := by
  have hgen : ∀ (d : Document) (c : Component), d.Components = [c] →
      calculateUniqueIdentifiersScore d
        = F64.fin (if c.Cpes ≠ none ∨ c.Purls ≠ none ∨ c.OsvIds ≠ none then 10 else 0) := by
    intro d c hd
    have h := shareOfWeight_single
      (fun c => c.Cpes ≠ none ∨ c.Purls ≠ none ∨ c.OsvIds ≠ none) c 10
    rw [← hd] at h
    simpa [calculateUniqueIdentifiersScore] using h
  have h10 : calculateUniqueIdentifiersScore (completeDocument [emptyIdentifierListsComponent])
      = F64.fin 10 := by
    rw [hgen _ emptyIdentifierListsComponent rfl]
    simp [emptyIdentifierListsComponent]
  refine ⟨h10, ?_, ?_, hgen⟩
  · rw [h10]
    intro h0
    injection h0 with h0
    norm_num at h0
  · rw [hgen _ blankComponent rfl]
    simp [blankComponent]

/-- C25: the result of `CustomScoring`, score and description, does not depend on
the order of the component list: a document whose components are a permutation of
the components of `d`, and which is `d` otherwise, gets the result of `d`. -/
theorem CustomScoring_permutation_invariant (d : Document) (components : List Component)
    (h : components.Perm d.Components) :
    CustomScoring { d with Components := components } = CustomScoring d := by
  have hlen : components.length = d.Components.length := h.length_eq
  have hcount : ∀ cond : Component → Bool,
      countWhere cond components = countWhere cond d.Components :=
    fun cond => countWhere_perm cond _ _ h
  have hcore : calculateCoreComponentDataScore { d with Components := components }
      = calculateCoreComponentDataScore d := by
    simp only [calculateCoreComponentDataScore, calculateComponentNameScore,
      calculateExactVersionScore, calculateSupplierNameScore, calculateUniqueIdentifiersScore,
      calculateAuthorScore, calculateComponentRelationshipsScore, calculateComponentHashScore,
      calculateLicenseScore, calculateDownloadURLScore, hcount, hlen]
  have hformat : calculateFormatStandardsMachineReadabilityScore { d with Components := components }
      = calculateFormatStandardsMachineReadabilityScore d := rfl
  have hgov : calculateGovernanceTraceabilityUpdatesScore { d with Components := components }
      = calculateGovernanceTraceabilityUpdatesScore d := rfl
  simp only [CustomScoring, hcore, hformat, hgov]

/-- Witness of C25: the complete and the blank component in both orders. -/
theorem CustomScoring_permutation_invariant_witness :
    CustomScoring
        { completeDocument [completeComponent, blankComponent] with
          Components := [blankComponent, completeComponent] }
      = CustomScoring (completeDocument [completeComponent, blankComponent]) :=
  CustomScoring_permutation_invariant (completeDocument [completeComponent, blankComponent])
    [blankComponent, completeComponent] (List.Perm.swap _ _ _)

/-- C30: `calculateNamespaceTimestampVersionScore` returns 3 exactly when the
namespace, the timestamp and the version of the document are all not empty, and 0
when one of them is empty. -/
theorem calculateNamespaceTimestampVersionScore_exactly (d : Document) :
    (calculateNamespaceTimestampVersionScore d = F64.fin 3
        ↔ d.Namespace ≠ "" ∧ d.Timestamp ≠ "" ∧ d.Version ≠ "")
      ∧ (calculateNamespaceTimestampVersionScore d = F64.fin 0
        ↔ d.Namespace = "" ∨ d.Timestamp = "" ∨ d.Version = "") := by
  unfold calculateNamespaceTimestampVersionScore
  by_cases h : d.Namespace ≠ "" ∧ d.Timestamp ≠ "" ∧ d.Version ≠ ""
  · rw [if_pos h]
    refine ⟨⟨fun _ => h, fun _ => rfl⟩, ⟨?_, ?_⟩⟩
    · intro h0
      injection h0 with h0
      norm_num at h0
    · rintro (h1 | h1 | h1)
      · exact absurd h1 h.1
      · exact absurd h1 h.2.1
      · exact absurd h1 h.2.2
  · rw [if_neg h]
    refine ⟨⟨?_, fun h3 => absurd h3 h⟩, ⟨fun _ => ?_, fun _ => rfl⟩⟩
    · intro h0
      injection h0 with h0
      norm_num at h0
    · by_contra hcon
      push_neg at hcon
      exact h hcon

end Scorer

/-! # Theorems: one section per record, and the aggregation under changes of the store -/

namespace Compliance

/-- Splitting a list by one key and by the keys of a list that does not hold that
key only reorders the elements whose key is among them. -/
theorem filter_key_cons_perm {α : Type} (key : α → String) (a : String) (t : List String)
    (ha : a ∉ t) (l : List α) :
    (l.filter (fun x => key x = a) ++ l.filter (fun x => key x ∈ t)).Perm
      (l.filter (fun x => key x ∈ a :: t)) := by
  induction l with
  | nil => simp
  | cons x l ih =>
    by_cases hxa : key x = a
    · have hxt : key x ∉ t := by rw [hxa]; exact ha
      simp only [List.filter_cons, hxa, hxt, ha, List.mem_cons, true_or, decide_True,
        decide_False, if_true, List.cons_append]
      simp only [hxa, List.mem_cons] at ih
      exact List.Perm.cons x ih
    · by_cases hxt : key x ∈ t
      · simp only [List.filter_cons, hxa, hxt, List.mem_cons, or_true, decide_True,
          decide_False, if_true]
        simp only [List.mem_cons] at ih
        exact List.perm_middle.trans (List.Perm.cons x ih)
      · simp only [List.filter_cons, hxa, hxt, List.mem_cons, or_self, decide_False]
        simp only [List.mem_cons] at ih
        simpa using ih

/-- Grouping a list by the keys of a list without repetition only reorders the
elements whose key is in that list. -/
theorem flatMap_filter_key_perm {α : Type} (key : α → String) (keys : List String)
    (hn : keys.Nodup) (l : List α) :
    (keys.flatMap (fun e => l.filter (fun x => key x = e))).Perm
      (l.filter (fun x => key x ∈ keys)) := by
  induction keys with
  | nil => simp
  | cons a t ih =>
    rw [List.nodup_cons] at hn
    rw [List.flatMap_cons]
    exact (List.Perm.append_left _ (ih hn.2)).trans (filter_key_cons_perm key a t hn.1 l)

/-- The sections built in the first loops are, up to their order, the sections of
the records of the store. -/
theorem buildSections_perm (db : DB) :
    (buildSections db).Perm (db.records.map (newSectionOf db)) := by
  have h1 : buildSections db
      = (db.GetAllIDs.flatMap (fun id => db.records.filter (fun r => r.ID = id))).map
          (newSectionOf db) := by
    rw [List.map_flatMap]
    rfl
  have hall : db.records.filter (fun r => r.ID ∈ db.GetAllIDs) = db.records := by
    rw [List.filter_eq_self]
    intro r hr
    simpa using mem_GetAllIDs_of_mem db r hr
  have h2 := flatMap_filter_key_perm Record.ID db.GetAllIDs (GetAllIDs_nodup db) db.records
  rw [hall] at h2
  rw [h1]
  exact h2.map _

/-- With a visit of all keys, the list returned is, up to its order, the list of
the sections of the records of the store. -/
theorem customConstructSections_perm (db : DB) (visit : List String)
    (hv : visitsAllKeys db visit) :
    (customConstructSections db visit).Perm (db.records.map (newSectionOf db)) := by
  have hn : (groupOrder visit).Nodup :=
    nodup_groupOrder visit (nodup_of_visitsAllKeys db visit hv)
  have hsort : ((groupOrder visit).flatMap
      (fun e => sortGroupByID (sectionsByElementID (buildSections db) e))).Perm
      ((groupOrder visit).flatMap
        (fun e => (buildSections db).filter (fun s => s.ElementID = e))) := by
    apply List.Perm.flatMap_left
    intro e _
    exact List.perm_insertionSort _ _
  have hall : (buildSections db).filter (fun s => s.ElementID ∈ groupOrder visit)
      = buildSections db := by
    rw [List.filter_eq_self]
    intro s hs
    have hmem : s.ElementID ∈ visit := by
      apply (List.Perm.mem_iff hv).mpr
      unfold elementIDKeys
      rw [mem_firstAppearances]
      exact List.mem_map_of_mem _ hs
    simpa [mem_groupOrder] using hmem
  have hgroup := flatMap_filter_key_perm customSection.ElementID (groupOrder visit) hn
    (buildSections db)
  rw [hall] at hgroup
  rw [customConstructSections_eq]
  exact (hsort.trans hgroup).trans (buildSections_perm db)

/-- The sum over a key of the records of one element id does not change when the
records are first selected by that key. -/
theorem keySum_GetRecordsByKeyID_eq (db : DB) (k : Int) (id : String) :
    keySum k (db.GetRecordsByKeyID k id) = keySum k (db.GetRecordsByID id) := by
  unfold keySum DB.GetRecordsByKeyID DB.GetRecordsByID
  rw [List.filter_filter, List.filter_filter]
  congr 2
  apply List.filter_congr
  intro r _
  by_cases h : r.CheckKey = k <;> simp [h]

/-- The category score of a result in terms of its three fields. -/
theorem categoryScore_mk (id : String) (f : Int → ℚ) (k : Int) (hk : isCategoryKey k) :
    customScoreResult.categoryScore
        { id := id
          coreComponentDataScore := f CORE_COMPONENT_DATA
          formatStandardsMachineReadabilityScore := f FORMAT_STANDARDS_MACHINE_READABILITY
          governanceTraceabilityUpdatesScore := f GOVERNANCE_TRACEABILITY_UPDATES } k
      = f k := by
  have c01 : FORMAT_STANDARDS_MACHINE_READABILITY ≠ CORE_COMPONENT_DATA := by decide
  have c02 : GOVERNANCE_TRACEABILITY_UPDATES ≠ CORE_COMPONENT_DATA := by decide
  have c12 : GOVERNANCE_TRACEABILITY_UPDATES ≠ FORMAT_STANDARDS_MACHINE_READABILITY := by decide
  unfold customScoreResult.categoryScore
  rcases hk with h | h | h
  · rw [h, if_pos rfl]
  · rw [h, if_neg c01, if_pos rfl]
  · rw [h, if_neg c02, if_neg c12, if_pos rfl]

theorem categoryScore_of_not_isCategoryKey (r : customScoreResult) (k : Int)
    (hk : ¬ isCategoryKey k) : r.categoryScore k = 0 := by
  unfold isCategoryKey at hk
  push_neg at hk
  unfold customScoreResult.categoryScore
  rw [if_neg hk.1, if_neg hk.2.1, if_neg hk.2.2]

/-! ### The claims on the sections per record and on changes of the store -/

/-- C33: for every store and every order in which the map of groups is visited,
`customConstructSections` returns exactly one section per record: the list returned
is a permutation of the sections built record by record, and it has as many
sections as the store has records. -/
theorem one_section_per_record (db : DB) (visit : List String)
    (hv : visitsAllKeys db visit) :
    (customConstructSections db visit).Perm (db.records.map (newSectionOf db))
      ∧ (customConstructSections db visit).length = db.records.length := by
  have h := customConstructSections_perm db visit hv
  refine ⟨h, ?_⟩
  rw [h.length_eq, List.length_map]

/-- Witness of C33 on a store in which a record with id `doc` and a record with id
`sbom` fall into the same group: the list returned has the two sections. -/
theorem one_section_per_record_witness :
    visitsAllKeys storeDocAndSbom ["sbom"]
      ∧ storeDocAndSbom.records.length = 2
      ∧ (customConstructSections storeDocAndSbom ["sbom"]).Perm
          (storeDocAndSbom.records.map (newSectionOf storeDocAndSbom))
      ∧ (customConstructSections storeDocAndSbom ["sbom"]).length
          = storeDocAndSbom.records.length :=
  ⟨by decide, by decide,
   (one_section_per_record storeDocAndSbom ["sbom"] (by decide)).1,
   (one_section_per_record storeDocAndSbom ["sbom"] (by decide)).2⟩

/-- C34: for every document, whatever the criterion evaluators return, the score of
the core category record is the sum of its nine criterion scores, the score of the
format category record the sum of its three criterion scores and the score of the
governance category record the sum of its five criterion scores. -/
theorem category_record_score_is_sum (ev : CriterionEvaluators) (doc : Document) :
    (coreComponentDataCompliance ev doc).Score
        = ev.componentNameCompliance doc + ev.exactVersionCompliance doc
          + ev.supplierNameCompliance doc + ev.uniqueIdentifiersCompliance doc
          + ev.authorCompliance doc + ev.componentRelationshipsCompliance doc
          + ev.componentHashCompliance doc + ev.licenseCompliance doc
          + ev.downloadURLCompliance doc
      ∧ (formatStandardsMachineReadabilityCompliance ev doc).Score
        = schemaConformanceCompliance doc + ev.machineParsableFormatCompliance doc
          + ev.namespaceTimestampVersionCompliance doc
      ∧ (governanceTraceabilityUpdatesCompliance ev doc).Score
        = ev.toolVersionCompliance doc + ev.changeHistoryCompliance doc
          + ev.integrationHooksCompliance doc + ev.reviewCadenceUpdatePolicyCompliance doc
          + ev.integrityVerificationCompliance doc := by
  refine ⟨?_, ?_, ?_⟩
  · rw [coreComponentDataCompliance_Score]
    ring
  · have h : (formatStandardsMachineReadabilityCompliance ev doc).Score
        = 0 + schemaConformanceCompliance doc + ev.machineParsableFormatCompliance doc
          + ev.namespaceTimestampVersionCompliance doc := rfl
    rw [h]
    ring
  · have h : (governanceTraceabilityUpdatesCompliance ev doc).Score
        = 0 + ev.toolVersionCompliance doc + ev.changeHistoryCompliance doc
          + ev.integrationHooksCompliance doc + ev.reviewCadenceUpdatePolicyCompliance doc
          + ev.integrityVerificationCompliance doc := rfl
    rw [h]
    ring

/-- C35: for every store, every category key `k` and every element id, the score of
category `k` in `customKeyIDScore(db, k, id)` is the score of category `k` in
`customIDScore(db, id)`, the scores of the other categories in
`customKeyIDScore(db, k, id)` are 0, and its `totalScore()` is one third of the
score of category `k`. -/
theorem customKeyIDScore_refines_customIDScore (db : DB) (k : Int) (id : String)
    (hk : isCategoryKey k) :
    (customKeyIDScore db k id).categoryScore k = (customIDScore db id).categoryScore k
      ∧ (∀ j : Int, j ≠ k → (customKeyIDScore db k id).categoryScore j = 0)
      ∧ (customKeyIDScore db k id).totalScore = (customIDScore db id).categoryScore k / 3 := by
  have hkey : (customKeyIDScore db k id).categoryScore k = keySum k (db.GetRecordsByKeyID k id) := by
    rw [customKeyIDScore_eq]
    exact categoryScore_mk id (fun j => keySum j (db.GetRecordsByKeyID k id)) k hk
  have hid : (customIDScore db id).categoryScore k = keySum k (db.GetRecordsByID id) := by
    rw [customIDScore_eq]
    exact categoryScore_mk id (fun j => keySum j (db.GetRecordsByID id)) k hk
  have hother : ∀ j : Int, j ≠ k → (customKeyIDScore db k id).categoryScore j = 0 := by
    intro j hj
    by_cases hc : isCategoryKey j
    · rw [customKeyIDScore_eq,
        categoryScore_mk id (fun j => keySum j (db.GetRecordsByKeyID k id)) j hc]
      exact keySum_GetRecordsByKeyID_of_ne db k j id (fun h => hj h.symm)
    · exact categoryScore_of_not_isCategoryKey _ j hc
  refine ⟨?_, hother, ?_⟩
  · rw [hkey, hid, keySum_GetRecordsByKeyID_eq]
  · rw [hid, ← keySum_GetRecordsByKeyID_eq, customKeyIDScore_eq]
    simp only [customScoreResult.totalScore]
    have c01 : CORE_COMPONENT_DATA ≠ FORMAT_STANDARDS_MACHINE_READABILITY := by decide
    have c02 : CORE_COMPONENT_DATA ≠ GOVERNANCE_TRACEABILITY_UPDATES := by decide
    have c12 : FORMAT_STANDARDS_MACHINE_READABILITY ≠ GOVERNANCE_TRACEABILITY_UPDATES := by
      decide
    rcases hk with h | h | h
    · rw [h, keySum_GetRecordsByKeyID_of_ne db _ _ id c01,
        keySum_GetRecordsByKeyID_of_ne db _ _ id c02]
      ring
    · rw [h, keySum_GetRecordsByKeyID_of_ne db _ _ id c01.symm,
        keySum_GetRecordsByKeyID_of_ne db _ _ id c12]
      ring
    · rw [h, keySum_GetRecordsByKeyID_of_ne db _ _ id c02.symm,
        keySum_GetRecordsByKeyID_of_ne db _ _ id c12.symm]
      ring

/-- Witness of C35 on the store with one record per category, for the core category
and the element `doc`. -/
theorem customKeyIDScore_refines_customIDScore_witness :
    (customKeyIDScore storeOnePerCategory CORE_COMPONENT_DATA "doc").categoryScore
        CORE_COMPONENT_DATA
      = (customIDScore storeOnePerCategory "doc").categoryScore CORE_COMPONENT_DATA
      ∧ (customKeyIDScore storeOnePerCategory CORE_COMPONENT_DATA "doc").totalScore
        = (customIDScore storeOnePerCategory "doc").categoryScore CORE_COMPONENT_DATA / 3 :=
  ⟨(customKeyIDScore_refines_customIDScore storeOnePerCategory CORE_COMPONENT_DATA "doc"
      (by decide)).1,
   (customKeyIDScore_refines_customIDScore storeOnePerCategory CORE_COMPONENT_DATA "doc"
      (by decide)).2.2⟩

end Compliance

/-! # Theorems: the scorer, document-level criteria, ratio and monotonicity -/

namespace Scorer

theorem countWhere_insert (cond : Component → Bool) (pre post : List Component)
    (x : Component) :
    countWhere cond (pre ++ x :: post)
      = countWhere cond pre + (if cond x = true then 1 else 0) + countWhere cond post := by
  simp only [countWhere_eq_countP, List.countP_append, List.countP_cons]
  omega

/-- The share of a criterion after one attribute of one component got a value. -/
theorem shareValue_withAttribute (cond : Component → Bool) (pre post : List Component)
    (c : Component) (a : Attribute) (v : String) (n : Nat) (w : ℚ) :
    shareValue (countWhere cond (pre ++ c.withAttribute a v :: post)) n w
      = shareValue (countWhere cond (pre ++ c :: post)) n w
        + ((if cond (c.withAttribute a v) = true then (1 : ℚ) else 0)
            - (if cond c = true then (1 : ℚ) else 0)) * w / (n : ℚ) := by
  simp only [shareValue, countWhere_insert]
  push_cast
  ring

theorem core_after_filling (d : Document) (pre post : List Component) (c : Component)
    (a : Attribute) (v : String) (hd : d.Components = pre ++ c :: post)
    (hempty : c.attribute a = "") (hv : v ≠ "") :
    ∃ q : ℚ, calculateCoreComponentDataScore d = F64.fin q
      ∧ calculateCoreComponentDataScore
          { d with Components := pre ++ c.withAttribute a v :: post }
        = F64.fin (q + a.weight / (d.Components.length : ℚ)) := by
  have hne : d.Components ≠ [] := by rw [hd]; simp
  have hne2 : ({ d with Components := pre ++ c.withAttribute a v :: post } : Document).Components
      ≠ [] := by simp
  have hlen : (pre ++ c.withAttribute a v :: post).length = d.Components.length := by
    rw [hd]; simp
  refine ⟨_, calculateCoreComponentDataScore_eq d hne, ?_⟩
  rw [calculateCoreComponentDataScore_eq _ hne2]
  congr 1
  simp only [hlen, shareValue_withAttribute]
  rw [← hd]
  cases a <;>
    simp only [Component.attribute] at hempty <;>
    simp only [Component.withAttribute, hempty, hv, Attribute.weight, ne_eq, not_true_eq_false,
      not_false_eq_true, decide_True, decide_False, if_true, sub_self, zero_mul, zero_div,
      add_zero, Bool.false_eq_true, if_false, sub_zero, one_mul] <;>
    ring

/-! ### The claims on document-level criteria, the ratio and monotonicity -/

/-- C31: `calculateToolVersionScore` returns 2 exactly when the tool name and the
tool version of the document are both not empty, and 0 otherwise; a tool without a
version scores 0. -/
theorem calculateToolVersionScore_exactly (d : Document) :
    (calculateToolVersionScore d = F64.fin 2 ↔ d.Tool ≠ "" ∧ d.ToolVersion ≠ "")
      ∧ (calculateToolVersionScore d = F64.fin 0 ↔ ¬ (d.Tool ≠ "" ∧ d.ToolVersion ≠ ""))
      ∧ (d.ToolVersion = "" → calculateToolVersionScore d = F64.fin 0) := by
  unfold calculateToolVersionScore
  by_cases h : d.Tool ≠ "" ∧ d.ToolVersion ≠ ""
  · rw [if_pos h]
    refine ⟨⟨fun _ => h, fun _ => rfl⟩, ⟨?_, fun hn => absurd h hn⟩, fun h0 => absurd h0 h.2⟩
    intro h0
    injection h0 with h0
    norm_num at h0
  · rw [if_neg h]
    refine ⟨⟨?_, fun h2 => absurd h2 h⟩, ⟨fun _ => h, fun _ => rfl⟩, fun _ => rfl⟩
    intro h0
    injection h0 with h0
    norm_num at h0

/-- C32: `calculateMachineParsableFormatScore` returns 2 exactly when the format of
the document is `json` or `xml`, and 0 for every other format, in particular for
`yaml`, `yml` and `tag-value`, which `validFormats` of the compliance package
lists. -/
theorem calculateMachineParsableFormatScore_exactly (d : Document) :
    (calculateMachineParsableFormatScore d = F64.fin 2 ↔ d.Format = "json" ∨ d.Format = "xml")
      ∧ (calculateMachineParsableFormatScore d = F64.fin 0
          ↔ ¬ (d.Format = "json" ∨ d.Format = "xml"))
      ∧ (d.Format = "yaml" ∨ d.Format = "yml" ∨ d.Format = "tag-value" →
          calculateMachineParsableFormatScore d = F64.fin 0)
      ∧ "yaml" ∈ Compliance.validFormats ∧ "yml" ∈ Compliance.validFormats
      ∧ "tag-value" ∈ Compliance.validFormats := by
  have hiff : (calculateMachineParsableFormatScore d = F64.fin 2
        ↔ d.Format = "json" ∨ d.Format = "xml")
      ∧ (calculateMachineParsableFormatScore d = F64.fin 0
          ↔ ¬ (d.Format = "json" ∨ d.Format = "xml")) := by
    unfold calculateMachineParsableFormatScore
    by_cases h : d.Format = "json" ∨ d.Format = "xml"
    · rw [if_pos h]
      refine ⟨⟨fun _ => h, fun _ => rfl⟩, ⟨?_, fun hn => absurd h hn⟩⟩
      intro h0
      injection h0 with h0
      norm_num at h0
    · rw [if_neg h]
      refine ⟨⟨?_, fun h2 => absurd h2 h⟩, ⟨fun _ => h, fun _ => rfl⟩⟩
      intro h0
      injection h0 with h0
      norm_num at h0
  refine ⟨hiff.1, hiff.2, ?_, by decide, by decide, by decide⟩
  intro hf
  rw [hiff.2]
  rintro (hj | hx)
  · rcases hf with h | h | h <;> rw [h] at hj <;> revert hj <;> decide
  · rcases hf with h | h | h <;> rw [h] at hx <;> revert hx <;> decide

/-- In exact arithmetic the value of `calculateComponentNameScore` on a document with
`n` components, `n` at least 1, of which `k` have a name that is not empty, is
`10 * k / n`; it is 10 exactly when every component has a name that is not empty,
and 0 exactly when none has. -/
theorem calculateComponentNameScore_exact_arithmetic (d : Document) (hne : d.Components ≠ []) :
    calculateComponentNameScore d
        = F64.fin (10 * ((d.Components.filter (fun c => c.Name ≠ "")).length : ℚ)
            / (d.Components.length : ℚ))
      ∧ (calculateComponentNameScore d = F64.fin 10 ↔ ∀ c ∈ d.Components, c.Name ≠ "")
      ∧ (calculateComponentNameScore d = F64.fin 0 ↔ ∀ c ∈ d.Components, c.Name = "") := by
  have hlen := length_ne_zero_of_ne_nil d.Components hne
  have hn : (d.Components.length : ℚ) ≠ 0 := Nat.cast_ne_zero.mpr hlen
  have hcount : countWhere (fun c => c.Name ≠ "") d.Components
      = (d.Components.filter (fun c => c.Name ≠ "")).length := by
    rw [countWhere_eq_countP, List.countP_eq_length_filter]
  have hval : calculateComponentNameScore d
      = F64.fin (10 * ((d.Components.filter (fun c => c.Name ≠ "")).length : ℚ)
          / (d.Components.length : ℚ)) := by
    unfold calculateComponentNameScore
    simp only []
    rw [shareOfWeight_eq _ _ _ hlen, hcount]
    unfold shareValue
    congr 1
    ring
  refine ⟨hval, ?_, ?_⟩
  · rw [hval]
    constructor
    · intro h
      injection h with h
      have h2 : ((d.Components.filter (fun c => c.Name ≠ "")).length : ℚ)
          = (d.Components.length : ℚ) := by
        have h10 := (div_eq_iff hn).mp h
        linarith
      have h3 : (d.Components.filter (fun c => c.Name ≠ "")).length = d.Components.length := by
        exact_mod_cast h2
      rw [← List.countP_eq_length_filter, List.countP_eq_length] at h3
      intro c hc
      simpa using h3 c hc
    · intro hall
      have h3 : (d.Components.filter (fun c => c.Name ≠ "")).length = d.Components.length := by
        rw [← List.countP_eq_length_filter, List.countP_eq_length]
        intro c hc
        simpa using hall c hc
      rw [h3]
      congr 1
      field_simp
  · rw [hval]
    constructor
    · intro h
      injection h with h
      have h2 : ((d.Components.filter (fun c => c.Name ≠ "")).length : ℚ) = 0 := by
        have h10 := (div_eq_iff hn).mp h
        linarith
      have h3 : (d.Components.filter (fun c => c.Name ≠ "")).length = 0 := by
        exact_mod_cast h2
      rw [List.length_eq_zero, List.filter_eq_nil_iff] at h3
      intro c hc
      simpa using h3 c hc
    · intro hall
      have h3 : d.Components.filter (fun c => c.Name ≠ "") = [] := by
        rw [List.filter_eq_nil_iff]
        intro c hc
        simpa using hall c hc
      rw [h3]
      simp

/-- C39: when one component of a document has an empty attribute (name, version,
supplier, author, hash, license or download URL) and gets a value that is not empty
for it, everything else unchanged, the score of `CustomScoring` does not decrease:
it grows by the weight of the criterion of the attribute divided by the number of
components. -/
theorem CustomScoring_monotone_in_data (d : Document) (pre post : List Component)
    (c : Component) (a : Attribute) (v : String) (hd : d.Components = pre ++ c :: post)
    (hempty : c.attribute a = "") (hv : v ≠ "") :
    ∃ q : ℚ, (CustomScoring d).value = F64.fin q
      ∧ (CustomScoring { d with Components := pre ++ c.withAttribute a v :: post }).value
          = F64.fin (q + a.weight / (d.Components.length : ℚ))
      ∧ q ≤ q + a.weight / (d.Components.length : ℚ) := by
  obtain ⟨qc, hc, hc2⟩ := core_after_filling d pre post c a v hd hempty hv
  obtain ⟨qf, hf, _⟩ := format_value_bounds d
  obtain ⟨qg, hg, _⟩ := governance_value_bounds d
  have hf2 : calculateFormatStandardsMachineReadabilityScore
      { d with Components := pre ++ c.withAttribute a v :: post } = F64.fin qf := hf
  have hg2 : calculateGovernanceTraceabilityUpdatesScore
      { d with Components := pre ++ c.withAttribute a v :: post } = F64.fin qg := hg
  refine ⟨0 + qc + qf + qg, ?_, ?_, ?_⟩
  · rw [CustomScoring_value, hc, hf, hg]
    rfl
  · rw [CustomScoring_value, hc2, hf2, hg2]
    simp only [F64.fin_add_fin]
    congr 1
    ring
  · have hw : 0 ≤ a.weight := by
      cases a <;> simp [Attribute.weight]
    have hn : (0 : ℚ) ≤ (d.Components.length : ℚ) := Nat.cast_nonneg _
    have := div_nonneg hw hn
    linarith

/-- Witness of C39: the blank component of a document with two components gets a
name. -/
theorem CustomScoring_monotone_in_data_witness :
    ∃ q : ℚ, (CustomScoring (completeDocument [blankComponent, completeComponent])).value
        = F64.fin q
      ∧ (CustomScoring
          { completeDocument [blankComponent, completeComponent] with
            Components := [] ++ blankComponent.withAttribute Attribute.name "tool-golang"
              :: [completeComponent] }).value
          = F64.fin (q + Attribute.name.weight
              / ((completeDocument [blankComponent, completeComponent]).Components.length : ℚ))
      ∧ q ≤ q + Attribute.name.weight
          / ((completeDocument [blankComponent, completeComponent]).Components.length : ℚ) :=
  CustomScoring_monotone_in_data (completeDocument [blankComponent, completeComponent]) []
    [completeComponent] blankComponent Attribute.name "tool-golang" rfl rfl (by decide)

end Scorer

/-! # Theorems: rounding to binary64 and printing with two decimals -/

namespace Scorer

theorem roundHalfEven_unfold (q : ℚ) :
    roundHalfEven q
      = if q - (⌊q⌋.toNat : ℚ) < 1 / 2 then ⌊q⌋.toNat
        else if 1 / 2 < q - (⌊q⌋.toNat : ℚ) then ⌊q⌋.toNat + 1
        else if ⌊q⌋.toNat % 2 = 0 then ⌊q⌋.toNat else ⌊q⌋.toNat + 1 := by
  rw [Rat.floor_def]
  rfl

theorem floor_toNat_le (q : ℚ) (hq : 0 ≤ q) : ((⌊q⌋.toNat : ℕ) : ℚ) ≤ q := by
  have h0 : 0 ≤ ⌊q⌋ := Int.floor_nonneg.mpr hq
  have h1 : ((⌊q⌋.toNat : ℕ) : ℤ) = ⌊q⌋ := Int.toNat_of_nonneg h0
  have h2 : ((⌊q⌋.toNat : ℕ) : ℚ) = ((⌊q⌋ : ℤ) : ℚ) := by
    have h3 : (((⌊q⌋.toNat : ℕ) : ℤ) : ℚ) = ((⌊q⌋ : ℤ) : ℚ) := congrArg _ h1
    rwa [Int.cast_natCast] at h3
  rw [h2]
  exact Int.floor_le q

theorem lt_floor_toNat_add_one (q : ℚ) (hq : 0 ≤ q) : q < ((⌊q⌋.toNat : ℕ) : ℚ) + 1 := by
  have h0 : 0 ≤ ⌊q⌋ := Int.floor_nonneg.mpr hq
  have h1 : ((⌊q⌋.toNat : ℕ) : ℤ) = ⌊q⌋ := Int.toNat_of_nonneg h0
  have h2 : ((⌊q⌋.toNat : ℕ) : ℚ) = ((⌊q⌋ : ℤ) : ℚ) := by
    have h3 : (((⌊q⌋.toNat : ℕ) : ℤ) : ℚ) = ((⌊q⌋ : ℤ) : ℚ) := congrArg _ h1
    rwa [Int.cast_natCast] at h3
  rw [h2]
  exact Int.lt_floor_add_one q

/-- The nearest integer is at most one half away. -/
theorem abs_roundHalfEven_sub_le (q : ℚ) (hq : 0 ≤ q) :
    |(roundHalfEven q : ℚ) - q| ≤ 1 / 2 := by
  have h1 := floor_toNat_le q hq
  have h2 := lt_floor_toNat_add_one q hq
  rw [roundHalfEven_unfold, abs_le]
  split_ifs with ha hb hc
  · constructor <;> linarith
  · push_cast; constructor <;> linarith
  · constructor <;> linarith
  · push_cast; constructor <;> linarith

/-- The integer that is less than one half away is the nearest integer. -/
theorem roundHalfEven_eq_of_abs_sub_lt (q : ℚ) (hq : 0 ≤ q) (n : Nat)
    (h : |q - (n : ℚ)| < 1 / 2) : roundHalfEven q = n := by
  have h1 := abs_roundHalfEven_sub_le q hq
  have h3 : |(roundHalfEven q : ℚ) - (n : ℚ)| < 1 := by
    calc |(roundHalfEven q : ℚ) - (n : ℚ)|
        = |((roundHalfEven q : ℚ) - q) + (q - (n : ℚ))| := by ring_nf
      _ ≤ |(roundHalfEven q : ℚ) - q| + |q - (n : ℚ)| := abs_add _ _
      _ < 1 := by linarith
  rw [abs_lt] at h3
  have h4 : ((roundHalfEven q : ℤ)) - (n : ℤ) < 1 := by
    have : (((roundHalfEven q : ℤ) - (n : ℤ) : ℤ) : ℚ) < ((1 : ℤ) : ℚ) := by
      push_cast; linarith
    exact_mod_cast this
  have h5 : -1 < ((roundHalfEven q : ℤ)) - (n : ℤ) := by
    have : ((-1 : ℤ) : ℚ) < (((roundHalfEven q : ℤ) - (n : ℤ) : ℤ) : ℚ) := by
      push_cast; linarith
    exact_mod_cast this
  omega

/-- Rounding to the nearest integer is monotone. -/
theorem roundHalfEven_mono (p q : ℚ) (hp : 0 ≤ p) (hpq : p ≤ q) :
    roundHalfEven p ≤ roundHalfEven q := by
  have hq : 0 ≤ q := le_trans hp hpq
  have p1 := floor_toNat_le p hp
  have p2 := lt_floor_toNat_add_one p hp
  have q1 := floor_toNat_le q hq
  have q2 := lt_floor_toNat_add_one q hq
  have hfl : ⌊p⌋.toNat ≤ ⌊q⌋.toNat := Int.toNat_le_toNat (Int.floor_mono hpq)
  rcases Nat.lt_or_ge ⌊p⌋.toNat ⌊q⌋.toNat with hlt | hge
  · have ha : roundHalfEven p ≤ ⌊p⌋.toNat + 1 := by
      rw [roundHalfEven_unfold]; split_ifs <;> omega
    have hb : ⌊q⌋.toNat ≤ roundHalfEven q := by
      rw [roundHalfEven_unfold]; split_ifs <;> omega
    omega
  · have he : ⌊p⌋.toNat = ⌊q⌋.toNat := le_antisymm hfl hge
    rw [roundHalfEven_unfold p, roundHalfEven_unfold q, he]
    rw [he] at p1 p2
    split_ifs <;> first | omega | (exfalso; linarith)

theorem roundHalfEven_le_of_le_natCast (q : ℚ) (hq : 0 ≤ q) (n : Nat) (h : q ≤ n) :
    roundHalfEven q ≤ n := by
  have := roundHalfEven_mono q n hq h
  rwa [Compliance.roundHalfEven_natCast] at this

theorem natCast_le_roundHalfEven (q : ℚ) (n : Nat) (h : (n : ℚ) ≤ q) :
    n ≤ roundHalfEven q := by
  have := roundHalfEven_mono n q (Nat.cast_nonneg n) h
  rwa [Compliance.roundHalfEven_natCast] at this


theorem ulpBinary64_pos (a : ℚ) : 0 < ulpBinary64 a := by
  unfold ulpBinary64
  positivity

theorem two_zpow_log_le (a : ℚ) (ha : 0 < a) : (2 : ℚ) ^ Int.log 2 a ≤ a := by
  have := Int.zpow_log_le_self (b := 2) (r := a) (by norm_num) ha
  simpa using this

theorem lt_two_zpow_log_succ (a : ℚ) : a < (2 : ℚ) ^ (Int.log 2 a + 1) := by
  have := Int.lt_zpow_succ_log_self (b := 2) (by norm_num) a
  simpa using this

/-- The binary exponent of a positive number is fixed by the powers of two around it. -/
theorem log_two_eq (a : ℚ) (e : ℤ) (h1 : (2 : ℚ) ^ e ≤ a) (h2 : a < (2 : ℚ) ^ (e + 1)) :
    Int.log 2 a = e := by
  have ha : 0 < a := lt_of_lt_of_le (by positivity) h1
  have hle : e ≤ Int.log 2 a := by
    rw [← Int.zpow_le_iff_le_log (by norm_num) ha]
    simpa using h1
  have hlt : Int.log 2 a < e + 1 := by
    rw [← Int.lt_zpow_iff_log_lt (by norm_num) ha]
    simpa using h2
  omega

theorem two_zpow_succ_eq (e : ℤ) : (2 : ℚ) ^ (e + 1) = 2 ^ (53 : ℕ) * 2 ^ (e - 52) := by
  rw [← zpow_natCast, ← zpow_add₀ (by norm_num : (2 : ℚ) ≠ 0)]
  congr 1
  push_cast
  ring

theorem two_zpow_eq (e : ℤ) : (2 : ℚ) ^ e = 2 ^ (52 : ℕ) * 2 ^ (e - 52) := by
  rw [← zpow_natCast, ← zpow_add₀ (by norm_num : (2 : ℚ) ≠ 0)]
  congr 1
  push_cast
  ring

/-- The rounded magnitude of a number stays below the next power of two. -/
theorem roundMagnitude_le_zpow (a : ℚ) (ha : 0 < a) :
    roundMagnitude a ≤ (2 : ℚ) ^ (max (Int.log 2 a) (-1022) + 1) := by
  have hu := ulpBinary64_pos a
  have h1 : a < (2 : ℚ) ^ (max (Int.log 2 a) (-1022) + 1) :=
    lt_of_lt_of_le (lt_two_zpow_log_succ a)
      (zpow_le_zpow_right₀ (by norm_num) (by omega))
  rw [two_zpow_succ_eq] at h1 ⊢
  have h2 : a / ulpBinary64 a ≤ ((2 ^ 53 : ℕ) : ℚ) := by
    rw [div_le_iff₀ hu]
    push_cast
    exact le_of_lt h1
  have h3 := roundHalfEven_le_of_le_natCast _ (div_nonneg ha.le hu.le) _ h2
  have h4 : (roundHalfEven (a / ulpBinary64 a) : ℚ) ≤ ((2 ^ 53 : ℕ) : ℚ) := by
    exact_mod_cast h3
  unfold roundMagnitude
  push_cast at h4
  exact mul_le_mul_of_nonneg_right h4 hu.le

/-- The rounded magnitude of a normal number is at least the power of two below it. -/
theorem zpow_le_roundMagnitude (a : ℚ) (ha : 0 < a) (hn : -1022 ≤ Int.log 2 a) :
    (2 : ℚ) ^ Int.log 2 a ≤ roundMagnitude a := by
  have hu := ulpBinary64_pos a
  have he : max (Int.log 2 a) (-1022) = Int.log 2 a := max_eq_left hn
  have h1 := two_zpow_log_le a ha
  have hue : ulpBinary64 a = 2 ^ (Int.log 2 a - 52) := by
    unfold ulpBinary64; rw [he]
  rw [two_zpow_eq] at h1 ⊢
  rw [← hue] at h1 ⊢
  have h2 : ((2 ^ 52 : ℕ) : ℚ) ≤ a / ulpBinary64 a := by
    rw [le_div_iff₀ hu]
    push_cast
    exact h1
  have h3 := natCast_le_roundHalfEven _ _ h2
  have h4 : ((2 ^ 52 : ℕ) : ℚ) ≤ (roundHalfEven (a / ulpBinary64 a) : ℚ) := by
    exact_mod_cast h3
  unfold roundMagnitude
  push_cast at h4
  exact mul_le_mul_of_nonneg_right h4 hu.le

/-- Rounding to binary64 is monotone on the positive numbers. -/
theorem roundMagnitude_mono (a b : ℚ) (ha : 0 < a) (hab : a ≤ b) :
    roundMagnitude a ≤ roundMagnitude b := by
  have hb : 0 < b := lt_of_lt_of_le ha hab
  have hlog : Int.log 2 a ≤ Int.log 2 b := Int.log_mono_right ha hab
  rcases lt_or_ge (max (Int.log 2 a) (-1022)) (max (Int.log 2 b) (-1022)) with hlt | hge
  · have hn : -1022 ≤ Int.log 2 b := by
      by_contra hc
      rw [max_eq_right (by omega : Int.log 2 b ≤ -1022)] at hlt
      have := le_max_right (Int.log 2 a) (-1022)
      omega
    have heb : max (Int.log 2 b) (-1022) = Int.log 2 b := max_eq_left hn
    rw [heb] at hlt
    calc roundMagnitude a ≤ (2 : ℚ) ^ (max (Int.log 2 a) (-1022) + 1) :=
          roundMagnitude_le_zpow a ha
      _ ≤ (2 : ℚ) ^ Int.log 2 b := zpow_le_zpow_right₀ (by norm_num) (by omega)
      _ ≤ roundMagnitude b := zpow_le_roundMagnitude b hb hn
  · have he : max (Int.log 2 a) (-1022) = max (Int.log 2 b) (-1022) :=
      le_antisymm (max_le_max hlog le_rfl) hge
    have hu : ulpBinary64 a = ulpBinary64 b := by
      unfold ulpBinary64; rw [he]
    have hup := ulpBinary64_pos b
    unfold roundMagnitude
    rw [hu]
    have h1 : a / ulpBinary64 b ≤ b / ulpBinary64 b := div_le_div_of_nonneg_right hab hup.le
    have h2 := roundHalfEven_mono _ _ (div_nonneg ha.le hup.le) h1
    have h3 : (roundHalfEven (a / ulpBinary64 b) : ℚ) ≤ (roundHalfEven (b / ulpBinary64 b) : ℚ) := by
      exact_mod_cast h2
    exact mul_le_mul_of_nonneg_right h3 hup.le

/-- A multiple of the spacing around it is a binary64 number: rounding keeps it. -/
theorem roundMagnitude_of_multiple (a : ℚ) (m : Nat) (h : a / ulpBinary64 a = (m : ℚ)) :
    roundMagnitude a = a := by
  have hu := ulpBinary64_pos a
  unfold roundMagnitude
  rw [h, Compliance.roundHalfEven_natCast, ← h]
  field_simp

/-- Rounding to binary64 moves a normal number by at most the fraction `2^-53` of it. -/
theorem abs_roundMagnitude_sub_le (a : ℚ) (ha : 0 < a) (hn : -1022 ≤ Int.log 2 a) :
    |roundMagnitude a - a| ≤ a / 2 ^ (53 : ℕ) := by
  have hu := ulpBinary64_pos a
  have he : max (Int.log 2 a) (-1022) = Int.log 2 a := max_eq_left hn
  have hue : ulpBinary64 a = 2 ^ (Int.log 2 a - 52) := by
    unfold ulpBinary64; rw [he]
  have h1 := two_zpow_log_le a ha
  rw [two_zpow_eq, ← hue] at h1
  have h2 := abs_roundHalfEven_sub_le (a / ulpBinary64 a) (div_nonneg ha.le hu.le)
  have h3 : roundMagnitude a - a
      = ((roundHalfEven (a / ulpBinary64 a) : ℚ) - a / ulpBinary64 a) * ulpBinary64 a := by
    unfold roundMagnitude
    field_simp
  rw [h3, abs_mul, abs_of_pos hu]
  have h4 : |(roundHalfEven (a / ulpBinary64 a) : ℚ) - a / ulpBinary64 a| * ulpBinary64 a
      ≤ 1 / 2 * ulpBinary64 a := mul_le_mul_of_nonneg_right h2 hu.le
  have h5 : 1 / 2 * ulpBinary64 a ≤ a / 2 ^ (53 : ℕ) := by
    rw [le_div_iff₀ (by positivity)]
    have : (2 : ℚ) ^ (53 : ℕ) = 2 * 2 ^ (52 : ℕ) := by norm_num
    rw [this]
    linarith
  linarith


/-- Rounding keeps a non-negative number whose nearest multiple is below `2^1024`
finite. -/
theorem roundBinary64_of_nonneg (q : ℚ) (hq : 0 ≤ q) (h : roundMagnitude q < 2 ^ 1024) :
    roundBinary64 q = F64.fin (roundMagnitude q) := by
  unfold roundBinary64
  simp only [abs_of_nonneg hq]
  rw [if_neg (not_le.mpr h)]
  rcases hq.lt_or_eq with hpos | hzero
  · rw [if_pos hpos]
  · rw [← hzero]
    simp [roundMagnitude, roundHalfEven]

theorem roundMagnitude_zero : roundMagnitude 0 = 0 := by
  simp [roundMagnitude, roundHalfEven]

/-- A count of at most `2^53` is a binary64 number. -/
theorem roundMagnitude_natCast (k : Nat) (hk : k ≤ 2 ^ 53) : roundMagnitude (k : ℚ) = k := by
  rcases Nat.eq_zero_or_pos k with h0 | hpos
  · rw [h0]; simpa using roundMagnitude_zero
  have hkq : (0 : ℚ) < (k : ℚ) := by exact_mod_cast hpos
  have hlog : Int.log 2 (k : ℚ) = (Nat.log 2 k : ℤ) := Int.log_natCast 2 k
  have he : max (Int.log 2 (k : ℚ)) (-1022) = (Nat.log 2 k : ℤ) := by
    rw [hlog]; omega
  have hle : Nat.log 2 k ≤ 53 := by
    have h1 : 2 ^ Nat.log 2 k ≤ k := Nat.pow_log_le_self 2 (by omega)
    have h2 : 2 ^ Nat.log 2 k ≤ 2 ^ 53 := le_trans h1 hk
    exact (Nat.pow_le_pow_iff_right (by norm_num)).mp h2
  have hu : ulpBinary64 (k : ℚ) = 2 ^ ((Nat.log 2 k : ℤ) - 52) := by
    unfold ulpBinary64; rw [he]
  rcases Nat.lt_or_ge (Nat.log 2 k) 53 with hlt | hge
  · apply roundMagnitude_of_multiple _ (k * 2 ^ (52 - Nat.log 2 k))
    rw [hu]
    have h3 : ((Nat.log 2 k : ℤ) - 52) = -((52 - Nat.log 2 k : ℕ) : ℤ) := by omega
    rw [h3, zpow_neg, zpow_natCast]
    push_cast
    field_simp
  · have h53 : Nat.log 2 k = 53 := le_antisymm hle hge
    have h1 : 2 ^ Nat.log 2 k ≤ k := Nat.pow_log_le_self 2 (by omega)
    rw [h53] at h1
    have hk53 : k = 2 ^ 53 := le_antisymm hk h1
    apply roundMagnitude_of_multiple _ (2 ^ 52)
    rw [hu, h53, hk53]
    norm_num


theorem toBinary64_ofCount (k : Nat) (hk : k ≤ 2 ^ 53) :
    F64.toBinary64 (F64.ofCount k) = F64.fin (k : ℚ) := by
  have h := roundMagnitude_natCast k hk
  show roundBinary64 (k : ℚ) = _
  rw [roundBinary64_of_nonneg _ (Nat.cast_nonneg k), h]
  rw [h]
  have : (k : ℚ) ≤ ((2 ^ 53 : ℕ) : ℚ) := by exact_mod_cast hk
  push_cast at this
  have h2 : (2 : ℚ) ^ 53 < 2 ^ 1024 := by norm_num
  linarith

theorem roundMagnitude_one : roundMagnitude 1 = 1 := by
  have := roundMagnitude_natCast 1 (by norm_num)
  simpa using this

theorem roundMagnitude_ten : roundMagnitude 10 = 10 := by
  have := roundMagnitude_natCast 10 (by norm_num)
  simpa using this

/-- The greatest binary64 number below 1. -/
theorem roundMagnitude_below_one : roundMagnitude (1 - 1 / 2 ^ 53) = 1 - 1 / 2 ^ 53 := by
  have hlog : Int.log 2 (1 - 1 / 2 ^ 53 : ℚ) = -1 :=
    log_two_eq _ _ (by norm_num) (by norm_num)
  apply roundMagnitude_of_multiple _ (2 ^ 53 - 1)
  unfold ulpBinary64
  rw [hlog]
  norm_num

/-- Ten times the greatest binary64 number below 1 rounds to the greatest binary64
number below 10. -/
theorem roundMagnitude_below_ten :
    roundMagnitude (10 - 10 / 2 ^ 53) = 10 - 1 / 2 ^ 49 := by
  have hlog : Int.log 2 (10 - 10 / 2 ^ 53 : ℚ) = 3 :=
    log_two_eq _ _ (by norm_num) (by norm_num)
  have hu : ulpBinary64 (10 - 10 / 2 ^ 53 : ℚ) = 1 / 2 ^ 49 := by
    unfold ulpBinary64
    rw [hlog]
    norm_num
  unfold roundMagnitude
  rw [hu, roundHalfEven_eq_of_abs_sub_lt _ (by norm_num) (10 * 2 ^ 49 - 1)]
  · norm_num
  · rw [abs_lt]
    norm_num

theorem roundMagnitude_nonneg (a : ℚ) : 0 ≤ roundMagnitude a := by
  unfold roundMagnitude
  exact mul_nonneg (Nat.cast_nonneg _) (ulpBinary64_pos a).le

theorem roundMagnitude_mono_of_nonneg (a b : ℚ) (ha : 0 ≤ a) (hab : a ≤ b) :
    roundMagnitude a ≤ roundMagnitude b := by
  rcases ha.lt_or_eq with hpos | hzero
  · exact roundMagnitude_mono a b hpos hab
  · rw [← hzero, roundMagnitude_zero]
    exact roundMagnitude_nonneg b

theorem toBinary64_fin_of_le (q b : ℚ) (hq : 0 ≤ q) (hqb : q ≤ b)
    (hb : roundMagnitude b < 2 ^ 1024) :
    F64.toBinary64 (F64.fin q) = F64.fin (roundMagnitude q) :=
  roundBinary64_of_nonneg q hq
    (lt_of_le_of_lt (roundMagnitude_mono_of_nonneg q b hq hqb) hb)

/-- With at least one and at most `2^53` components, the rounded score is the
rounded product of the rounded quotient and the weight 10. -/
theorem shareOfWeightBinary64_ten (k n : Nat) (hn : 0 < n) (hn53 : n ≤ 2 ^ 53) (hk : k ≤ n) :
    shareOfWeightBinary64 k n 10
      = F64.fin (roundMagnitude (roundMagnitude ((k : ℚ) / (n : ℚ)) * 10)) := by
  have hnq : (0 : ℚ) < (n : ℚ) := by exact_mod_cast hn
  have hkn : (k : ℚ) ≤ (n : ℚ) := by exact_mod_cast hk
  have hx0 : (0 : ℚ) ≤ (k : ℚ) / (n : ℚ) := by positivity
  have hx1 : (k : ℚ) / (n : ℚ) ≤ 1 := (div_le_one hnq).mpr hkn
  have hy1 : roundMagnitude ((k : ℚ) / (n : ℚ)) ≤ 1 := by
    have := roundMagnitude_mono_of_nonneg _ _ hx0 hx1
    rwa [roundMagnitude_one] at this
  have hy0 := roundMagnitude_nonneg ((k : ℚ) / (n : ℚ))
  unfold shareOfWeightBinary64
  rw [toBinary64_ofCount k (le_trans hk hn53), toBinary64_ofCount n hn53]
  have hdiv : (F64.fin (k : ℚ) / F64.fin (n : ℚ) : F64) = F64.fin ((k : ℚ) / (n : ℚ)) := by
    show F64.div _ _ = _
    simp [F64.div, hnq.ne']
  rw [hdiv, toBinary64_fin_of_le _ 1 hx0 hx1 (by rw [roundMagnitude_one]; norm_num),
    toBinary64_fin_of_le 10 10 (by norm_num) le_rfl (by rw [roundMagnitude_ten]; norm_num),
    roundMagnitude_ten]
  have hmul : (F64.fin (roundMagnitude ((k : ℚ) / (n : ℚ))) * F64.fin 10 : F64)
      = F64.fin (roundMagnitude ((k : ℚ) / (n : ℚ)) * 10) := rfl
  rw [hmul]
  exact toBinary64_fin_of_le _ 10 (by positivity) (by linarith)
    (by rw [roundMagnitude_ten]; norm_num)

/-- The rounded score is 10 only if all components count. -/
theorem rounded_share_lt_ten (k n : Nat) (hn53 : n ≤ 2 ^ 53) (hk : k < n) :
    roundMagnitude (roundMagnitude ((k : ℚ) / (n : ℚ)) * 10) < 10 := by
  have hn : 0 < n := by omega
  have hnq : (0 : ℚ) < (n : ℚ) := by exact_mod_cast hn
  have hx0 : (0 : ℚ) ≤ (k : ℚ) / (n : ℚ) := by positivity
  have hx : (k : ℚ) / (n : ℚ) ≤ 1 - 1 / 2 ^ 53 := by
    have h1 : (k : ℚ) + 1 ≤ (n : ℚ) := by exact_mod_cast hk
    have h2 : (n : ℚ) ≤ 2 ^ 53 := by exact_mod_cast hn53
    rw [div_le_iff₀ hnq]
    have h3 : (n : ℚ) / 2 ^ 53 ≤ 1 := by
      rw [div_le_one (by positivity)]; exact h2
    have h4 : (1 - 1 / 2 ^ 53) * (n : ℚ) = (n : ℚ) - (n : ℚ) / 2 ^ 53 := by ring
    rw [h4]
    linarith
  have hy := roundMagnitude_mono_of_nonneg _ _ hx0 hx
  rw [roundMagnitude_below_one] at hy
  have hp : roundMagnitude ((k : ℚ) / (n : ℚ)) * 10 ≤ 10 - 10 / 2 ^ 53 := by
    linarith
  have hz := roundMagnitude_mono_of_nonneg _ _
    (mul_nonneg (roundMagnitude_nonneg _) (by norm_num)) hp
  rw [roundMagnitude_below_ten] at hz
  have : (0 : ℚ) < 1 / 2 ^ 49 := by positivity
  linarith

theorem log_ge_of_zpow_le (a : ℚ) (e : ℤ) (h : (2 : ℚ) ^ e ≤ a) : e ≤ Int.log 2 a := by
  have ha : 0 < a := lt_of_lt_of_le (by positivity) h
  rw [← Int.zpow_le_iff_le_log (by norm_num) ha]
  simpa using h

/-- The rounded score is within the fraction `3 / 2^53` of `10 * k / n`. -/
theorem rounded_share_close (k n : Nat) (hn : 0 < n) (hn53 : n ≤ 2 ^ 53) (hk : 0 < k) :
    |roundMagnitude (roundMagnitude ((k : ℚ) / (n : ℚ)) * 10) - 10 * (k : ℚ) / (n : ℚ)|
        ≤ 10 * (k : ℚ) / (n : ℚ) * (3 / 2 ^ 53)
      ∧ 0 < roundMagnitude (roundMagnitude ((k : ℚ) / (n : ℚ)) * 10) := by
  have hnq : (0 : ℚ) < (n : ℚ) := by exact_mod_cast hn
  have hkq : (1 : ℚ) ≤ (k : ℚ) := by exact_mod_cast hk
  have hx : (1 : ℚ) / 2 ^ 53 ≤ (k : ℚ) / (n : ℚ) := by
    have h2 : (n : ℚ) ≤ 2 ^ 53 := by exact_mod_cast hn53
    rw [le_div_iff₀ hnq]
    have h3 : (1 : ℚ) / 2 ^ 53 * (n : ℚ) ≤ 1 := by
      rw [div_mul_eq_mul_div, one_mul, div_le_one (by positivity)]
      exact h2
    linarith
  have hxpos : (0 : ℚ) < (k : ℚ) / (n : ℚ) := lt_of_lt_of_le (by positivity) hx
  have hlogx : -1022 ≤ Int.log 2 ((k : ℚ) / (n : ℚ)) := by
    have : (-53 : ℤ) ≤ Int.log 2 ((k : ℚ) / (n : ℚ)) :=
      log_ge_of_zpow_le _ _ (by
        have h53 : (2 : ℚ) ^ (-53 : ℤ) = 1 / 2 ^ 53 := by norm_num
        rw [h53]; exact hx)
    omega
  have hy := abs_roundMagnitude_sub_le _ hxpos hlogx
  rw [abs_le] at hy
  set x := (k : ℚ) / (n : ℚ) with hxdef
  set y := roundMagnitude x with hydef
  have hu : (0 : ℚ) < 1 / 2 ^ 53 := by positivity
  have hylow : x * (1 - 1 / 2 ^ 53) ≤ y := by
    have : x / 2 ^ (53 : ℕ) = x * (1 / 2 ^ 53) := by ring
    linarith [hy.1]
  have hyhigh : y ≤ x * (1 + 1 / 2 ^ 53) := by
    have : x / 2 ^ (53 : ℕ) = x * (1 / 2 ^ 53) := by ring
    linarith [hy.2]
  have hy54 : (1 : ℚ) / 2 ^ 54 ≤ y := by
    have h1 : (1 : ℚ) / 2 ^ 53 * (1 - 1 / 2 ^ 53) ≤ x * (1 - 1 / 2 ^ 53) :=
      mul_le_mul_of_nonneg_right hx (by norm_num)
    have h2 : (1 : ℚ) / 2 ^ 54 ≤ 1 / 2 ^ 53 * (1 - 1 / 2 ^ 53) := by norm_num
    linarith
  have hppos : (0 : ℚ) < y * 10 := by
    have : (0 : ℚ) < 1 / 2 ^ 54 := by positivity
    linarith
  have hlogp : -1022 ≤ Int.log 2 (y * 10) := by
    have : (-54 : ℤ) ≤ Int.log 2 (y * 10) :=
      log_ge_of_zpow_le _ _ (by
        have h54 : (2 : ℚ) ^ (-54 : ℤ) = 1 / 2 ^ 54 := by norm_num
        rw [h54]; linarith)
    omega
  have hz := abs_roundMagnitude_sub_le _ hppos hlogp
  rw [abs_le] at hz
  have hz1 : y * 10 / 2 ^ (53 : ℕ) = y * 10 * (1 / 2 ^ 53) := by ring
  have hprod : x * (1 / 2 ^ 53) * (1 / 2 ^ 53) ≤ x * (1 / 2 ^ 53) := by
    have : (1 : ℚ) / 2 ^ 53 ≤ 1 := by norm_num
    have hxu : 0 ≤ x * (1 / 2 ^ 53) := by positivity
    calc x * (1 / 2 ^ 53) * (1 / 2 ^ 53) ≤ x * (1 / 2 ^ 53) * 1 :=
          mul_le_mul_of_nonneg_left this hxu
      _ = x * (1 / 2 ^ 53) := mul_one _
  have hten : 10 * (k : ℚ) / (n : ℚ) = 10 * x := by rw [hxdef]; ring
  rw [hten]
  constructor
  · rw [abs_le]
    constructor
    · nlinarith [hz.1, hylow, hyhigh, hprod]
    · nlinarith [hz.2, hylow, hyhigh, hprod]
  · have h3 : y * 10 * (1 - 1 / 2 ^ 53) ≤ roundMagnitude (y * 10) := by
      linarith [hz.1]
    have h4 : 0 < y * 10 * (1 - 1 / 2 ^ 53) := mul_pos hppos (by norm_num)
    linarith

/-- The binary64 quotient of 1 by 3. -/
theorem roundMagnitude_third : roundMagnitude (1 / 3) = 6004799503160661 / 2 ^ 54 := by
  have hlog : Int.log 2 (1 / 3 : ℚ) = -2 := log_two_eq _ _ (by norm_num) (by norm_num)
  have hu : ulpBinary64 (1 / 3 : ℚ) = 1 / 2 ^ 54 := by
    unfold ulpBinary64
    rw [hlog]
    norm_num
  unfold roundMagnitude
  rw [hu, roundHalfEven_eq_of_abs_sub_lt _ (by norm_num) 6004799503160661]
  · norm_num
  · rw [abs_lt]
    norm_num

/-- The binary64 product of the binary64 quotient of 1 by 3 and 10. -/
theorem roundMagnitude_third_times_ten :
    roundMagnitude (6004799503160661 / 2 ^ 54 * 10) = 3752999689475413 / 2 ^ 50 := by
  have hlog : Int.log 2 (6004799503160661 / 2 ^ 54 * 10 : ℚ) = 1 :=
    log_two_eq _ _ (by norm_num) (by norm_num)
  have hu : ulpBinary64 (6004799503160661 / 2 ^ 54 * 10 : ℚ) = 1 / 2 ^ 51 := by
    unfold ulpBinary64
    rw [hlog]
    norm_num
  unfold roundMagnitude
  rw [hu, roundHalfEven_eq_of_abs_sub_lt _ (by norm_num) 7505999378950826]
  · norm_num
  · rw [abs_lt]
    norm_num

/-- The binary64 number nearest to ten thirds. -/
theorem roundMagnitude_ten_thirds : roundMagnitude (10 / 3) = 7505999378950827 / 2 ^ 51 := by
  have hlog : Int.log 2 (10 / 3 : ℚ) = 1 := log_two_eq _ _ (by norm_num) (by norm_num)
  have hu : ulpBinary64 (10 / 3 : ℚ) = 1 / 2 ^ 51 := by
    unfold ulpBinary64
    rw [hlog]
    norm_num
  unfold roundMagnitude
  rw [hu, roundHalfEven_eq_of_abs_sub_lt _ (by norm_num) 7505999378950827]
  · norm_num
  · rw [abs_lt]
    norm_num

theorem shareOfWeightBinary64_one_three :
    shareOfWeightBinary64 1 3 10 = F64.fin (3752999689475413 / 2 ^ 50) := by
  rw [shareOfWeightBinary64_ten 1 3 (by norm_num) (by norm_num) (by norm_num)]
  have h : ((1 : ℕ) : ℚ) / ((3 : ℕ) : ℚ) = 1 / 3 := by norm_num
  rw [h, roundMagnitude_third, roundMagnitude_third_times_ten]

theorem roundBinary64_ten_thirds :
    roundBinary64 (10 * 1 / 3) = F64.fin (7505999378950827 / 2 ^ 51) := by
  have h : (10 * 1 / 3 : ℚ) = 10 / 3 := by norm_num
  rw [h, roundBinary64_of_nonneg _ (by norm_num), roundMagnitude_ten_thirds]
  rw [roundMagnitude_ten_thirds]
  norm_num

end Scorer

/-! # Theorems: the component name score in binary64 -/

namespace Scorer

theorem calculateComponentNameScoreBinary64_eq (d : Document) (hne : d.Components ≠ [])
    (hlen : d.Components.length ≤ 2 ^ 53) :
    calculateComponentNameScoreBinary64 d
      = F64.fin (roundMagnitude (roundMagnitude
          (((d.Components.filter (fun c => c.Name ≠ "")).length : ℚ)
            / (d.Components.length : ℚ)) * 10)) := by
  have hpos : 0 < d.Components.length :=
    Nat.pos_of_ne_zero (length_ne_zero_of_ne_nil d.Components hne)
  have hcount : countWhere (fun c => c.Name ≠ "") d.Components
      = (d.Components.filter (fun c => c.Name ≠ "")).length := by
    rw [countWhere_eq_countP, List.countP_eq_length_filter]
  unfold calculateComponentNameScoreBinary64
  simp only []
  rw [hcount]
  exact shareOfWeightBinary64_ten _ _ hpos hlen (List.length_filter_le _ _)

/-! ### The claim on the component name score -/

/-- C38 as stated fails: on a document with three components of which one has a name
the code computes the binary64 quotient of 1 by 3 and then its binary64 product with
10, which is `3752999689475413 / 2^50` (3.333333333333333); that is neither the
number `10 * 1 / 3` nor the binary64 number nearest to it, `7505999378950827 / 2^51`
(3.3333333333333335). -/
theorem calculateComponentNameScore_one_of_three :
    oneNamedOfThree.Components.length = 3
      ∧ (oneNamedOfThree.Components.filter (fun c => c.Name ≠ "")).length = 1
      ∧ calculateComponentNameScoreBinary64 oneNamedOfThree
          = F64.fin (3752999689475413 / 2 ^ 50)
      ∧ calculateComponentNameScoreBinary64 oneNamedOfThree ≠ F64.fin (10 * 1 / 3)
      ∧ roundBinary64 (10 * 1 / 3) = F64.fin (7505999378950827 / 2 ^ 51)
      ∧ calculateComponentNameScoreBinary64 oneNamedOfThree ≠ roundBinary64 (10 * 1 / 3) := by
  have hval : calculateComponentNameScoreBinary64 oneNamedOfThree
      = F64.fin (3752999689475413 / 2 ^ 50) := by
    have hcount : countWhere (fun c => c.Name ≠ "") oneNamedOfThree.Components = 1 := by
      decide
    have h : calculateComponentNameScoreBinary64 oneNamedOfThree
        = shareOfWeightBinary64 1 3 10 := by
      unfold calculateComponentNameScoreBinary64
      simp only []
      rw [hcount]
      rfl
    rw [h, shareOfWeightBinary64_one_three]
  refine ⟨by decide, by decide, hval, ?_, roundBinary64_ten_thirds, ?_⟩
  · rw [hval]
    intro h
    injection h with h
    norm_num at h
  · rw [hval, roundBinary64_ten_thirds]
    intro h
    injection h with h
    norm_num at h

/-- C38, amended: for every document with `n` components, `n` at least 1 and at most
`2^53`, of which `k` have a name that is not empty, `calculateComponentNameScore`
returns a finite number: the quotient of `k` by `n` and then its product with 10,
each rounded to binary64. It differs from `10 * k / n` by at most the fraction
`3 / 2^53` of `10 * k / n`; it is the full weight 10 exactly when every component has
a name that is not empty, and 0 exactly when none has. In exact arithmetic the value
is `10 * k / n`. -/
theorem calculateComponentNameScore_rounded_ratio (d : Document) (hne : d.Components ≠ [])
    (hlen : d.Components.length ≤ 2 ^ 53) :
    ∃ v : ℚ, calculateComponentNameScoreBinary64 d = F64.fin v
      ∧ v = roundMagnitude (roundMagnitude
          (((d.Components.filter (fun c => c.Name ≠ "")).length : ℚ)
            / (d.Components.length : ℚ)) * 10)
      ∧ |v - 10 * ((d.Components.filter (fun c => c.Name ≠ "")).length : ℚ)
            / (d.Components.length : ℚ)|
          ≤ 10 * ((d.Components.filter (fun c => c.Name ≠ "")).length : ℚ)
            / (d.Components.length : ℚ) * (3 / 2 ^ 53)
      ∧ (v = 10 ↔ ∀ c ∈ d.Components, c.Name ≠ "")
      ∧ (v = 0 ↔ ∀ c ∈ d.Components, c.Name = "")
      ∧ calculateComponentNameScore d
          = F64.fin (10 * ((d.Components.filter (fun c => c.Name ≠ "")).length : ℚ)
              / (d.Components.length : ℚ)) := by
  have hpos : 0 < d.Components.length :=
    Nat.pos_of_ne_zero (length_ne_zero_of_ne_nil d.Components hne)
  have hle : (d.Components.filter (fun c => c.Name ≠ "")).length ≤ d.Components.length :=
    List.length_filter_le _ _
  have hall : (d.Components.filter (fun c => c.Name ≠ "")).length = d.Components.length
      ↔ ∀ c ∈ d.Components, c.Name ≠ "" := by
    rw [← List.countP_eq_length_filter, List.countP_eq_length]
    constructor
    · intro h c hc
      simpa using h c hc
    · intro h c hc
      simpa using h c hc
  have hnone : (d.Components.filter (fun c => c.Name ≠ "")).length = 0
      ↔ ∀ c ∈ d.Components, c.Name = "" := by
    rw [List.length_eq_zero, List.filter_eq_nil_iff]
    constructor
    · intro h c hc
      simpa using h c hc
    · intro h c hc
      simpa using h c hc
  refine ⟨_, calculateComponentNameScoreBinary64_eq d hne hlen, rfl, ?_, ?_, ?_,
    (calculateComponentNameScore_exact_arithmetic d hne).1⟩
  · rcases Nat.eq_zero_or_pos (d.Components.filter (fun c => c.Name ≠ "")).length with h0 | hk
    · rw [h0]
      simp [roundMagnitude_zero]
    · exact (rounded_share_close _ _ hpos hlen hk).1
  · rw [← hall]
    constructor
    · intro h10
      by_contra hlt
      have := rounded_share_lt_ten _ _ hlen (lt_of_le_of_ne hle hlt)
      linarith
    · intro heq
      rw [heq, div_self (by exact_mod_cast hpos.ne'), roundMagnitude_one, one_mul,
        roundMagnitude_ten]
  · rw [← hnone]
    constructor
    · intro h0
      by_contra hk
      have := (rounded_share_close _ _ hpos hlen (Nat.pos_of_ne_zero hk)).2
      linarith
    · intro heq
      rw [heq]
      simp [roundMagnitude_zero]

/-- Witness of C38 on the document with a complete and a blank component. -/
theorem calculateComponentNameScore_rounded_ratio_witness :
    ∃ v : ℚ, calculateComponentNameScoreBinary64
          (completeDocument [completeComponent, blankComponent]) = F64.fin v
      ∧ v = roundMagnitude (roundMagnitude
          ((((completeDocument [completeComponent, blankComponent]).Components.filter
              (fun c => c.Name ≠ "")).length : ℚ)
            / ((completeDocument [completeComponent, blankComponent]).Components.length : ℚ))
          * 10)
      ∧ |v - 10 * (((completeDocument [completeComponent, blankComponent]).Components.filter
              (fun c => c.Name ≠ "")).length : ℚ)
            / ((completeDocument [completeComponent, blankComponent]).Components.length : ℚ)|
          ≤ 10 * (((completeDocument [completeComponent, blankComponent]).Components.filter
              (fun c => c.Name ≠ "")).length : ℚ)
            / ((completeDocument [completeComponent, blankComponent]).Components.length : ℚ)
            * (3 / 2 ^ 53)
      ∧ (v = 10 ↔ ∀ c ∈ (completeDocument [completeComponent, blankComponent]).Components,
          c.Name ≠ "")
      ∧ (v = 0 ↔ ∀ c ∈ (completeDocument [completeComponent, blankComponent]).Components,
          c.Name = "")
      ∧ calculateComponentNameScore (completeDocument [completeComponent, blankComponent])
          = F64.fin (10
              * (((completeDocument [completeComponent, blankComponent]).Components.filter
                  (fun c => c.Name ≠ "")).length : ℚ)
              / ((completeDocument [completeComponent, blankComponent]).Components.length
                  : ℚ)) :=
  calculateComponentNameScore_rounded_ratio (completeDocument [completeComponent, blankComponent])
    (by simp [completeDocument]) (by simp [completeDocument])

end Scorer

/-! # Theorems: the evidence lines and the printed scores -/

namespace Compliance

end Compliance
